import Mathlib

/-!
Verification development for the weewx extension installer
(`bin/weecfg/extension.py`).  The configuration store is modelled as an
ordered association list of keys to values, mirroring the ConfigObj-style
dictionaries the source manipulates; filesystem state is modelled at the
granularity of the set of file paths present under the target roots.
-/

set_option maxHeartbeats 1000000

namespace Weecfg

mutual
/-- Values of a configuration tree: scalar strings, lists of strings
(ConfigObj list values), or nested sections.  `Conf` is the ordered
key/value mapping making up a section body. -/
inductive CVal : Type where
  | leaf : String → CVal
  | vlist : List String → CVal
  | sect : Conf → CVal
deriving DecidableEq

inductive Conf : Type where
  | nil : Conf
  | cons : String → CVal → Conf → Conf
deriving DecidableEq
end

namespace Conf

/-- Python `k in d` / `d[k]`: first binding of a key, if any. -/
def lookup (k : String) : Conf → Option CVal
  | .nil => none
  | .cons k' v rest => if k' = k then some v else lookup k rest

/-- Python `d[k] = v`: replace the first binding of `k`, or append a new
binding when the key is absent. -/
def update (k : String) (v : CVal) : Conf → Conf
  | .nil => .cons k v .nil
  | .cons k' v' rest =>
    if k' = k then .cons k' v rest else .cons k' v' (update k v rest)

/-- Python `d.pop(k)`: drop the first binding of `k` (no-op when absent). -/
def erase (k : String) : Conf → Conf
  | .nil => .nil
  | .cons k' v' rest => if k' = k then rest else .cons k' v' (erase k rest)

/-- Keys of a section in order, duplicates included. -/
def keys : Conf → List String
  | .nil => []
  | .cons k _ rest => k :: keys rest

/-- Concatenation of two section bodies. -/
def append : Conf → Conf → Conf
  | .nil, d => d
  | .cons k v rest, d => .cons k v (append rest d)

end Conf

example : Conf.lookup "a" (.cons "a" (.leaf "x") .nil) = some (.leaf "x") := by decide
example : Conf.erase "a" (.cons "b" (.leaf "y") (.cons "a" (.leaf "x") .nil))
    = .cons "b" (.leaf "y") .nil := by decide

/-- Character-wise longest common run of two character lists: the semantics
of `os.path.commonprefix` restricted to two strings (it is purely textual,
not path-component based). -/
def lcpL : List Char → List Char → List Char
  | a :: as, b :: bs => if a = b then a :: lcpL as bs else []
  | _, _ => []

/-- `os.path.commonprefix((a, b))` for two strings. -/
def commonPre2 (a b : String) : String := ⟨lcpL a.toList b.toList⟩

/-- `os.path.commonprefix(names)` for a list of strings: `""` on the empty
list, otherwise the character-wise longest common run of all elements. -/
def commonPreList : List String → String
  | [] => ""
  | x :: xs => xs.foldl (fun acc m => commonPre2 acc m) x

/-- Python `s.endswith(pat)`, expressed on the character lists. -/
def strEnds (s pat : String) : Bool :=
  pat.toList.reverse.isPrefixOf s.toList.reverse

/-- `os.path.join(a, b)` (POSIX): an absolute `b` wins; otherwise `b` is
appended, inserting a slash unless `a` is empty or already ends in one. -/
def pjoin (a b : String) : String :=
  if b.toList.head? = some '/' then b
  else if a = "" ∨ a.toList.getLast? = some '/' then a ++ b
  else a ++ "/" ++ b

example : pjoin "/opt/weewx/bin" "user/pmon.py" = "/opt/weewx/bin/user/pmon.py" := by decide
example : pjoin "/var/tmp" "pmon/" = "/var/tmp/pmon/" := by decide
example : pjoin "/a" "/b" = "/b" := by decide

/-- Index-free core of `os.path.dirname`: characters up to and including
the last slash, with trailing slashes stripped unless the head is all
slashes. -/
def dirnameL (l : List Char) : List Char :=
  let rev := l.reverse
  let tailRev := rev.dropWhile (fun c => c ≠ '/')
  match tailRev with
  | [] => []
  | _ =>
    let head := tailRev.reverse
    if head.all (fun c => c = '/') then head
    else head.reverse.dropWhile (fun c => c = '/') |>.reverse

/-- `os.path.dirname(p)`. -/
def dirname (p : String) : String := ⟨dirnameL p.toList⟩

/-- Fuel-driven core of Python `str.replace`: left-to-right,
non-overlapping replacement of every occurrence of `pat`.  The fuel is
instantiated with the length of the subject so it never runs out. -/
def replaceAllAux (pat rep : List Char) : Nat → List Char → List Char
  | 0, l => l
  | _, [] => []
  | fuel + 1, c :: cs =>
    if pat ≠ [] ∧ pat.isPrefixOf (c :: cs) then
      rep ++ replaceAllAux pat rep fuel (List.drop (pat.length - 1) cs)
    else
      c :: replaceAllAux pat rep fuel cs

/-- Python `s.replace(pat, rep)` (for nonempty `pat`, the only use here). -/
def replaceAll (s pat rep : String) : String :=
  ⟨replaceAllAux pat.toList rep.toList s.toList.length s.toList⟩

example : replaceAll "/bin/u/m.py" ".py" ".pyc" = "/bin/u/m.pyc" := by decide
example : replaceAll "/a.python/x.py" ".py" ".pyc" = "/a.pycthon/x.pyc" := by decide

/-- Core of `ExtensionEngine._strip_leading_dir`: everything after the
first slash, or nothing when the path has no slash (the Python function
falls off its end and returns `None`). -/
def stripLeadDirL : List Char → Option (List Char)
  | [] => none
  | c :: cs => if c = '/' then some cs else stripLeadDirL cs

/-- `ExtensionEngine._strip_leading_dir(path)`. -/
def strip_leading_dir (p : String) : Option String :=
  (stripLeadDirL p.toList).map (fun l => ⟨l⟩)

example : strip_leading_dir "user/myext.py" = some "myext.py" := by decide
example : strip_leading_dir "pmon/user/m.py" = some "user/m.py" := by decide
example : strip_leading_dir "myext.py" = none := by decide

/-- The fixed `ExtensionEngine.target_dirs` table mapping a source prefix
to the logical root name. -/
def target_dirs : List (String × String) := [("bin", "BIN_ROOT"), ("skins", "SKIN_ROOT")]

/-- Outcome of classifying one `files` source prefix against
`target_dirs` (the inner `for directory in ExtensionEngine.target_dirs`
loop with its `else: sys.exit(...)` clause). -/
inductive SrcClass : Type where
  | matched : String → SrcClass
  | keyErr : String → SrcClass
  | noMatch : SrcClass
deriving DecidableEq

/-- Python `target_dirs[source_type]`. -/
def lookupTargetDirs (t : String) : Option String :=
  if t = "bin" then some "BIN_ROOT" else if t = "skins" then some "SKIN_ROOT" else none

/-- The source-prefix classification loop shared by `install_from_dir` and
`uninstall_files`: for each table key, `source_type` is the character-wise
common run of the source prefix and the key; the first nonempty one is
looked up in `target_dirs` (raising `KeyError` when the common run is a
proper fragment of a key), and if every common run is empty the `for`
loop's `else` clause calls `sys.exit`.  A source prefix can share a first
character with at most one of the two keys (`'b'` vs `'s'`), so the
outcome does not depend on the dictionary's iteration order. -/
def classifySrc (src : String) : SrcClass :=
  let t1 := commonPre2 src "bin"
  if t1 ≠ "" then
    match lookupTargetDirs t1 with
    | some r => .matched r
    | none => .keyErr t1
  else
    let t2 := commonPre2 src "skins"
    if t2 ≠ "" then
      match lookupTargetDirs t2 with
      | some r => .matched r
      | none => .keyErr t2
    else .noMatch

example : classifySrc "bin" = .matched "BIN_ROOT" := by decide
example : classifySrc "bin/user" = .matched "BIN_ROOT" := by decide
example : classifySrc "skins/pmon" = .matched "SKIN_ROOT" := by decide
example : classifySrc "util/apache" = .noMatch := by decide
example : classifySrc "b" = .keyErr "b" := by decide

/-- Dotted-path read in a configuration tree, e.g.
`config_dict["Engine"]["Services"][grp]`. -/
def lookupPath : Conf → List String → Option CVal
  | _, [] => none
  | C, [k] => C.lookup k
  | C, k :: rest =>
    match C.lookup k with
    | some (.sect S) => lookupPath S rest
    | _ => none

/-- Dotted-path write `config_dict[k1]..[kn] = v`: every key but the last
must already name a section (otherwise Python raises `KeyError`, here
`none`); the final assignment replaces or appends. -/
def updatePath : Conf → List String → CVal → Option Conf
  | _, [], _ => none
  | C, [k], v => some (C.update k v)
  | C, k :: rest, v =>
    match C.lookup k with
    | some (.sect S) => (updatePath S rest v).map (fun S' => C.update k (.sect S'))
    | _ => none

/-- Modelled from the spec: `weecfg.conditional_merge` (not under `src/`),
the "conditional structural merge (fragment values are inserted for
keys/sections not already present; pre-existing values in the live tree
are never overwritten)".  Fragment entries whose key is absent are
appended; when both sides hold a section the merge recurses; any other
pre-existing value is left untouched. -/
def conditional_merge (C : Conf) : Conf → Conf
  | .nil => C
  | .cons k fv rest =>
    let C' :=
      match C.lookup k, fv with
      | none, _ => C.append (.cons k fv .nil)
      | some (.sect S), .sect FS => C.update k (.sect (conditional_merge S FS))
      | some _, _ => C
    conditional_merge C' rest

/-- Modelled from the spec: `weecfg.remove_and_prune` (not under `src/`),
the "structural inverse of the conditional merge": every fragment leaf key
present in the live tree is popped, fragment sections recurse into
matching live sections and prune them once empty.  The second component
collects the keys popped at this level (used to drop the per-section
comments the install attached). -/
def remove_and_prune_top : Conf → Conf → Conf × List String
  | C, .nil => (C, [])
  | C, .cons k fv rest =>
    let step : Conf × Bool :=
      match fv with
      | .sect FS =>
        match C.lookup k with
        | some (.sect S) =>
          let S' := (remove_and_prune_top S FS).1
          if S' = .nil then (C.erase k, true) else (C.update k (.sect S'), false)
        | _ => (C, false)
      | _ => if (C.lookup k).isSome then (C.erase k, true) else (C, false)
    let r := remove_and_prune_top step.1 rest
    (r.1, if step.2 then k :: r.2 else r.2)

/-- `weecfg.remove_and_prune`, tree part only. -/
def remove_and_prune (C F : Conf) : Conf := (remove_and_prune_top C F).1

example :
    conditional_merge (.cons "A" (.leaf "1") .nil)
      (.cons "A" (.leaf "2") (.cons "B" (.sect (.cons "k" (.leaf "v") .nil)) .nil)) =
    .cons "A" (.leaf "1") (.cons "B" (.sect (.cons "k" (.leaf "v") .nil)) .nil) := by decide

example :
    remove_and_prune_top
      (.cons "A" (.leaf "1") (.cons "B" (.sect (.cons "k" (.leaf "v") .nil)) .nil))
      (.cons "B" (.sect (.cons "k" (.leaf "x") .nil)) .nil) =
    (.cons "A" (.leaf "1") .nil, ["B"]) := by decide

mutual
/-- Modelled from the spec: `weecfg.prepend_path` (not under `src/`),
which rewrites "any HTML-output path value inside the fragment by
prefixing it with the existing configuration's HTML-root path": sections
are traversed recursively, and every scalar bound to the label key is
replaced by `val ++ "/" ++ old`. -/
def prependC (lab val : String) : Conf → Conf
  | .nil => .nil
  | .cons k v rest => .cons k (prependV lab val k v) (prependC lab val rest)

/-- Value-level step of `prependC`: recurse into sections, rewrite a
scalar whose key is the label, leave everything else alone. -/
def prependV (lab val : String) (k : String) : CVal → CVal
  | .sect S => .sect (prependC lab val S)
  | .leaf s => if k = lab then .leaf (val ++ "/" ++ s) else .leaf s
  | .vlist l => .vlist l
end

example :
    prependC "HTML_ROOT" "public_html"
      (.cons "S" (.sect (.cons "HTML_ROOT" (.leaf "ext") .nil)) .nil) =
    .cons "S" (.sect (.cons "HTML_ROOT" (.leaf "public_html/ext") .nil)) .nil := by decide

/-- Python truthiness of an optional configuration value (`None`, the
empty string, the empty list and an empty section are falsy). -/
def pyTruthy : Option CVal → Bool
  | none => false
  | some (.leaf s) => s ≠ ""
  | some (.vlist l) => l ≠ []
  | some (.sect S) => S ≠ .nil

/-- Scalar read `d[k]` that must produce a string. -/
def pGetStr (C : Conf) (k : String) : Option String :=
  match C.lookup k with
  | some (.leaf s) => some s
  | _ => none

/-- One iteration of the database-massaging loop of `install_from_dir`
(lines 179-187).  The statements of the matched branch run in order; any
Python error (missing key, subscripting a non-section) aborts with the
mutations applied so far (`Except.error` carries the partially updated
entry), mirroring the surrounding bare `except: pass`. -/
def massage_db_entry (sq my : Option CVal) (db : CVal) : Except CVal CVal :=
  match db with
  | .sect es =>
    match es.lookup "driver" with
    | some (.leaf d) =>
      if d = "weedb.sqlite" ∧ pyTruthy sq then
        match sq with
        | some (.sect sqs) =>
          match pGetStr sqs "database_name", pGetStr es "database_name" with
          | some sdn, some dn =>
            let es1 := es.update "database_name" (.leaf (pjoin (dirname sdn) dn))
            match sqs.lookup "root" with
            | some rv => .ok (.sect (es1.update "root" rv))
            | none => .error (.sect es1)
          | _, _ => .error db
        | _ => .error db
      else if d = "weedb.mysql" ∧ pyTruthy my then
        match my with
        | some (.sect mys) =>
          match mys.lookup "host" with
          | some hv =>
            let es1 := es.update "host" hv
            match mys.lookup "user" with
            | some uv =>
              let es2 := es1.update "user" uv
              match mys.lookup "password" with
              | some pv => .ok (.sect (es2.update "password" pv))
              | none => .error (.sect es2)
            | none => .error (.sect es1)
          | none => .error db
        | _ => .error db
      else .ok db
    | some _ => .ok db
    | none => .error db
  | _ => .error db

/-- The `for i in cfg['Databases']` loop: entries are massaged in order;
the first Python error stops the loop, keeping the partially-updated entry
and leaving the rest untouched. -/
def massage_db_loop (sq my : Option CVal) : Conf → Conf
  | .nil => .nil
  | .cons k db rest =>
    match massage_db_entry sq my db with
    | .ok db' => .cons k db' (massage_db_loop sq my rest)
    | .error db' => .cons k db' rest

/-- Lines 172-189 of `install_from_dir`: massage the working copy's
`Databases` entries from the live configuration's `archive_sqlite` /
`archive_mysql` definitions.  Every failure path of the original is
absorbed by its bare `except: pass`, so this function always returns the
(possibly partially updated) fragment. -/
def massage_db (live cfg : Conf) : Conf :=
  match live.lookup "Databases" with
  | some (.sect liveDbs) =>
    let sq := liveDbs.lookup "archive_sqlite"
    let my := liveDbs.lookup "archive_mysql"
    match cfg.lookup "Databases" with
    | some (.sect dbs) => cfg.update "Databases" (.sect (massage_db_loop sq my dbs))
    | _ => cfg
  | _ => cfg

/-- A pipeline-group value as an extension manifest declares it: either a
single component identifier or a list of them. -/
inductive SVal : Type where
  | one : String → SVal
  | many : List String → SVal
deriving DecidableEq

/-- Modelled from the spec: `weeutil.weeutil.option_as_list` (not under
`src/`), "accepting either a single identifier or a list". -/
def option_as_list : SVal → List String
  | .one s => [s]
  | .many l => l

/-- `option_as_list` applied to a value read from the configuration tree:
a scalar becomes a one-element list, a list is returned as is; a section
has no meaningful list-of-identifiers reading (`none`). -/
def cval_as_list : CVal → Option (List String)
  | .leaf s => some [s]
  | .vlist l => some l
  | .sect _ => none

/-- Contiguous-substring test, the semantics of Python `x in s` on
strings (the empty pattern is contained in everything). -/
def isSubstrL (pat : List Char) : List Char → Bool
  | [] => pat.isEmpty
  | c :: cs => pat.isPrefixOf (c :: cs) || isSubstrL pat cs

example : isSubstrL "a".toList "ab".toList = true := by decide
example : isSubstrL "ab".toList "ab".toList = true := by decide
example : isSubstrL "ba".toList "ab".toList = false := by decide

/-- Python `x in installer[group]`: list membership for a declared list,
contiguous substring containment for a declared single string. -/
def pyInS (x : String) : SVal → Bool
  | .one s => isSubstrL x.toList s.toList
  | .many l => l.contains x

/-- The uninstall de-registration value
`filter(lambda x: x not in installer[group], existing)` (Python 2):
filtering a list yields the list of surviving elements; filtering a string
yields the string of surviving characters; filtering a section iterates
its keys and yields the surviving keys as a list. -/
def filterSvcVal (decl : SVal) : CVal → CVal
  | .vlist l => .vlist (l.filter (fun x => ¬ pyInS x decl))
  | .leaf s => .leaf ⟨s.toList.filter (fun c => ¬ pyInS ⟨[c]⟩ decl)⟩
  | .sect S => .vlist (S.keys.filter (fun x => ¬ pyInS x decl))

/-- The installer manifest (`install.py` dictionary): name, the ordered
`files` source tuples, the optional `config` fragment, and the declared
pipeline-group values keyed by group name. -/
structure Installer : Type where
  name : String
  files : List (String × List String)
  config : Option Conf
  services : List (String × SVal)
deriving DecidableEq

/-- The root mapping extracted from the main configuration (only the
entries this module consults). All are absolute, normalized paths, so
`os.path.abspath` is the identity on paths joined below them. -/
structure Roots : Type where
  bin_root : String
  skin_root : String
  ext_root : String
deriving DecidableEq

/-- `self.root_dict[root_type]` for the two root names `target_dirs` can
produce. -/
def Roots.get (R : Roots) (t : String) : String :=
  if t = "SKIN_ROOT" then R.skin_root else R.bin_root

/-- Observable system state: the set of files present under the target
roots, the live configuration tree, and the top-level comment blocks the
engine attaches (comment text abstracted to the owning extension's name). -/
structure SysState : Type where
  fs : List String
  config : Conf
  comments : List (String × String)
deriving DecidableEq

/-- Log lines the engine emits, one constructor per `logger.log` call
site, carrying the varying parts of the message. -/
inductive LogMsg : Type where
  | requestInstallDir : String → LogMsg
  | foundExtension : String → LogMsg
  | copyingNewFiles : LogMsg
  | copying : String → String → LogMsg
  | copiedCount : Nat → LogMsg
  | addingSections : LogMsg
  | addingSection : String → LogMsg
  | mergedSettings : LogMsg
  | addingServices : LogMsg
  | addedService : String → String → LogMsg
  | savingInstaller : String → LogMsg
  | savedBackup : LogMsg
  | requestRemove : String → LogMsg
  | removingFiles : LogMsg
  | deletingFile : String → LogMsg
  | deleteFailed : String → LogMsg
  | removedCount : Nat → LogMsg
  | dirNotEmpty : String → LogMsg
  | deletingDir : String → LogMsg
  | finishedRemove : String → LogMsg
deriving DecidableEq

/-- The log lines announcing a planned mutating action (file copy or
delete, directory delete, section addition, service registration,
manifest persistence), as opposed to phase banners, counts and error
reports. -/
def plannedAction : LogMsg → Bool
  | .copying _ _ => true
  | .addingSection _ => true
  | .addedService _ _ => true
  | .savingInstaller _ => true
  | .deletingFile _ => true
  | .deletingDir _ => true
  | _ => false

/-- Python-level failures that escape the engine: `KeyError`, `TypeError`,
`sys.exit(msg)`, the `NameError` for an unbound local, and the module's
own `InstallError`. -/
inductive PyErr : Type where
  | keyError : String → PyErr
  | typeError : PyErr
  | exit : String → PyErr
  | nameError : PyErr
  | installError : String → PyErr
deriving DecidableEq

/-- Running state plus accumulated log. -/
structure RunSt : Type where
  st : SysState
  logs : List LogMsg
deriving DecidableEq

/-- Append one log line. -/
def RunSt.plog (r : RunSt) (m : LogMsg) : RunSt := { r with logs := r.logs ++ [m] }

/-- Creating a file (an `shutil.copy` destination): set-insert. -/
def fsInsert (p : String) (fs : List String) : List String :=
  if fs.contains p then fs else fs ++ [p]

/-- `os.remove p`: drop the path. -/
def fsRemove (p : String) (fs : List String) : List String :=
  fs.filter (fun q => q ≠ p)

/-- String prefix test, expressed on the character lists. -/
def strPre (a b : String) : Bool := a.toList.isPrefixOf b.toList

/-- `shutil.rmtree d`: drop every file below the directory. -/
def fsRemoveTree (d : String) (fs : List String) : List String :=
  fs.filter (fun q => ¬ strPre (d ++ "/") q)

/-- Copy of a single manifest file (lines 140-153): log the planned copy;
unless dry-run, create missing parent directories (invisible at the file
granularity modelled here) and copy the file.  `_strip_leading_dir`
returning `None` makes the `os.path.join` raise `TypeError`. -/
def installCopyFile (dry : Bool) (ext_dir rootPath : String) (acc : RunSt × Nat)
    (f : String) : Except PyErr (RunSt × Nat) :=
  let source_path := pjoin ext_dir f
  match strip_leading_dir f with
  | none => .error .typeError
  | some dst_file =>
    let destination_path := pjoin rootPath dst_file
    let r := acc.1.plog (.copying source_path destination_path)
    if dry then .ok (r, acc.2)
    else .ok ({ r with st := { r.st with fs := fsInsert destination_path r.st.fs } }, acc.2 + 1)

/-- One `files` source tuple of the copy phase (lines 129-156): classify
the prefix, then copy each file under the resolved root; an unknown
destination terminates via `sys.exit`, and a proper fragment of a table
key raises `KeyError`. -/
def installCopyTuple (R : Roots) (dry : Bool) (ext_dir : String) (acc : RunSt × Nat)
    (tup : String × List String) : Except PyErr (RunSt × Nat) :=
  match classifySrc tup.1 with
  | .noMatch => .error (.exit ("Unknown destination for file " ++ tup.1))
  | .keyErr t => .error (.keyError t)
  | .matched root_type =>
    tup.2.foldlM (installCopyFile dry ext_dir (R.get root_type)) acc

/-- The whole copy phase, with its banner and final count line. -/
def installCopyPhase (R : Roots) (dry : Bool) (ext_dir : String)
    (files : List (String × List String)) (r : RunSt) : Except PyErr RunSt :=
  (files.foldlM (installCopyTuple R dry ext_dir) (r.plog .copyingNewFiles, 0)).map
    (fun rn => rn.1.plog (.copiedCount rn.2))

/-- Extend the comment table for a new top-level section (content
abstracted to the owning extension's name). -/
def commentsUpdate (cm : List (String × String)) (k name : String) : List (String × String) :=
  if (cm.lookup k).isSome then cm.map (fun kc => if kc.1 = k then (k, name) else kc)
  else cm ++ [(k, name)]

/-- The configuration-fragment phase of `install_from_dir` (lines
159-210): make the working copy, prepend the live `HTML_ROOT` to the
fragment's HTML paths, massage its database definitions, record new
top-level sections, and (non-dry-run) conditionally merge the massaged
copy into the live tree, attaching a comment block to each new top-level
section.  Returns the updated run state and the `save_config` flag. -/
def installConfigPhase (dry : Bool) (name : String) (frag? : Option Conf) (r : RunSt) :
    Except PyErr (RunSt × Bool) :=
  match frag? with
  | none => .ok (r, false)
  | some frag =>
    let r := r.plog .addingSections
    match lookupPath r.st.config ["StdReport", "HTML_ROOT"] with
    | none => .error (.keyError "HTML_ROOT")
    | some (.sect _) => .error .typeError
    | some (.vlist _) => .error .typeError
    | some (.leaf html) =>
      let cfg := massage_db r.st.config (prependC "HTML_ROOT" html frag)
      let new_top_level := cfg.keys.filter (fun k => (r.st.config.lookup k).isNone)
      let r := new_top_level.foldl (fun rr k => rr.plog (.addingSection k)) r
      let (r, save) :=
        if dry then (r, false)
        else
          let c1 := conditional_merge r.st.config cfg
          let comments1 := new_top_level.foldl (fun cm k => commentsUpdate cm k name) r.st.comments
          ({ r with st := { fs := r.st.fs, config := c1, comments := comments1 } }, true)
      .ok (r.plog .mergedSettings, save)

/-- Registration of one declared service into one pipeline group (lines
220-230), folded over the declared identifiers: an identifier already in
the group's list is skipped entirely; otherwise it is logged, and in
non-dry-run mode appended and written back, setting `save_config`. -/
def installSvcStep (dry : Bool) (grp : String) (acc : RunSt × Bool × List String)
    (svc : String) : Except PyErr (RunSt × Bool × List String) :=
  let (r, flag, lst) := acc
  if lst.contains svc then .ok acc
  else if dry then .ok (r.plog (.addedService svc grp), flag, lst)
  else
    match updatePath r.st.config ["Engine", "Services", grp] (.vlist (lst ++ [svc])) with
    | none => .error (.keyError grp)
    | some c' =>
      .ok (({ r with st := { r.st with config := c' } }).plog (.addedService svc grp),
        true, lst ++ [svc])

/-- One pipeline group of the registration phase (lines 215-230). -/
def installSvcGroup (dry : Bool) (services : List (String × SVal)) (acc : RunSt × Bool)
    (grp : String) : Except PyErr (RunSt × Bool) :=
  match services.lookup grp with
  | none => .ok acc
  | some v =>
    match lookupPath acc.1.st.config ["Engine", "Services", grp] with
    | none => .error (.keyError grp)
    | some cur =>
      match cval_as_list cur with
      | none => .error .typeError
      | some svc_list =>
        ((option_as_list v).foldlM (installSvcStep dry grp) (acc.1, acc.2, svc_list)).map
          (fun rfl3 => (rfl3.1, rfl3.2.1))

/-- The manifest-persistence step (lines 232-242): the installer file is
copied into `<EXT_ROOT>/<name>/`. -/
def installSaveInstaller (R : Roots) (dry : Bool) (name : String) (r : RunSt) : RunSt :=
  let d := pjoin R.ext_root name
  let r := r.plog (.savingInstaller d)
  if dry then r
  else { r with st := { r.st with fs := fsInsert (pjoin d "install.py") r.st.fs } }

/-- `ExtensionEngine.install_from_dir`, over a staged extension whose
loaded manifest is `inst` (the loading itself, `get_extension_installer`,
is an external collaborator).  `groups` is the injected
`all_service_groups` enumeration. -/
def install_from_dir (R : Roots) (groups : List String) (dry : Bool) (inst : Installer)
    (ext_dir : String) (st : SysState) : Except PyErr RunSt :=
  installCopyPhase R dry ext_dir inst.files
      ((RunSt.plog ⟨st, []⟩ (.requestInstallDir ext_dir)).plog (.foundExtension inst.name)) >>=
    fun r1 =>
  installConfigPhase dry inst.name inst.config r1 >>= fun rs =>
  groups.foldlM (installSvcGroup dry inst.services) (rs.1.plog .addingServices, rs.2) >>=
    fun rs2 =>
  pure (if rs2.2 then (installSaveInstaller R dry inst.name rs2.1).plog .savedBackup
    else installSaveInstaller R dry inst.name rs2.1)

/-- `ExtensionEngine.delete_file` (lines 331-347): always log the planned
deletion; unless dry-run attempt the removal, counting `1` on success; an
`OSError` (file absent) is absorbed, logged only when `report_errors`. -/
def delete_file (dry report : Bool) (r : RunSt) (f : String) : RunSt × Nat :=
  let r := r.plog (.deletingFile f)
  if dry then (r, 0)
  else if r.st.fs.contains f then
    ({ r with st := { r.st with fs := fsRemove f r.st.fs } }, 1)
  else (if report then r.plog (.deleteFailed f) else r, 0)

/-- `ExtensionEngine.delete_directory` (lines 349-367): a directory with
files beneath it is only logged; an empty one is logged and removed (a
no-op at the file granularity modelled here, which also conflates a
missing directory, whose `OSError` the original absorbs, with an empty
one). -/
def delete_directory (_dry : Bool) (r : RunSt) (d : String) : RunSt :=
  if r.st.fs.any (fun q => strPre (d ++ "/") q) then r.plog (.dirNotEmpty d)
  else r.plog (.deletingDir d)

/-- Deletion of the files of one source tuple during uninstall (lines
309-317): recompute each destination path, delete it, and for `.py`
destinations also delete the `.pyc`/`.pyo` siblings (unreported). -/
def uninstallFileOne (dry : Bool) (rootPath : String) (acc : RunSt × Nat) (f : String) :
    Except PyErr (RunSt × Nat) :=
  match strip_leading_dir f with
  | none => .error .typeError
  | some dst_file =>
    let destination_path := pjoin rootPath dst_file
    let (r, k1) := delete_file dry true acc.1 destination_path
    if strEnds destination_path ".py" then
      let (r, k2) := delete_file dry false r (replaceAll destination_path ".py" ".pyc")
      let (r, k3) := delete_file dry false r (replaceAll destination_path ".py" ".pyo")
      .ok (r, acc.2 + k1 + k2 + k3)
    else .ok (r, acc.2 + k1)

/-- One source tuple of `uninstall_files` (lines 298-328), including the
empty-skin-directory pruning for `SKIN_ROOT` tuples. -/
def uninstallFilesTuple (R : Roots) (dry : Bool) (acc : RunSt × Nat)
    (tup : String × List String) : Except PyErr (RunSt × Nat) :=
  match classifySrc tup.1 with
  | .noMatch => .error (.exit ("Unknown destination for file " ++ tup.1))
  | .keyErr t => .error (.keyError t)
  | .matched root_type =>
    tup.2.foldlM (uninstallFileOne dry (R.get root_type)) acc >>= fun rn =>
    if root_type = "SKIN_ROOT" then
      match strip_leading_dir tup.1 with
      | none => .error .typeError
      | some dst_dir => .ok (delete_directory dry rn.1 (pjoin R.skin_root dst_dir), rn.2)
    else .ok rn

/-- `ExtensionEngine.uninstall_files`. -/
def uninstall_files (R : Roots) (dry : Bool) (files : List (String × List String))
    (r : RunSt) : Except PyErr RunSt :=
  (files.foldlM (uninstallFilesTuple R dry) (r.plog .removingFiles, 0)).map
    (fun rn => rn.1.plog (.removedCount rn.2))

/-- De-registration of one pipeline group during uninstall (lines
270-276): the filtered list is computed unconditionally, and written back
(setting `save_config`) only in non-dry-run mode. -/
def uninstallSvcGroup (dry : Bool) (services : List (String × SVal)) (acc : RunSt × Bool)
    (grp : String) : Except PyErr (RunSt × Bool) :=
  match services.lookup grp with
  | none => .ok acc
  | some v =>
    match lookupPath acc.1.st.config ["Engine", "Services", grp] with
    | none => .error (.keyError grp)
    | some cur =>
      if dry then .ok acc
      else
        match updatePath acc.1.st.config ["Engine", "Services", grp] (filterSvcVal v cur) with
        | none => .error (.keyError grp)
        | some c' => .ok ({ acc.1 with st := { acc.1.st with config := c' } }, true)

/-- The tail of `uninstall_extension` after the de-registration loop:
config-section removal (lines 278-281), manifest-subdirectory removal
(lines 283-285) and the final log line.  The `save_with_backup` has no
modelled effect (see `uninstall_extension`). -/
def uninstallFinish (R : Roots) (dry : Bool) (inst : Installer) (r : RunSt) : RunSt :=
  let r :=
    match inst.config with
    | some frag =>
      if dry then r
      else
        let (c', popped) := remove_and_prune_top r.st.config frag
        let cm := r.st.comments.filter (fun kc : String × String => ¬ popped.contains kc.1)
        { r with st := { fs := r.st.fs, config := c', comments := cm } }
    | none => r
  let r :=
    if dry then r
    else { r with st := { r.st with fs := fsRemoveTree (pjoin R.ext_root inst.name) r.st.fs } }
  r.plog (.finishedRemove inst.name)

/-- `ExtensionEngine.uninstall_extension`, over the manifest read back
from the extension's installer subdirectory (locating and loading it is
the external `get_extension_installer`).  The final `save_with_backup`
writes the configuration file itself, which lives outside the modelled
file set (its backup is exactly the "backup artifact" the round-trip
property excepts), so the `save_config` flag has no modelled effect
here. -/
def uninstall_extension (R : Roots) (groups : List String) (dry : Bool) (inst : Installer)
    (st : SysState) : Except PyErr RunSt :=
  uninstall_files R dry inst.files ⟨st, [.requestRemove inst.name]⟩ >>= fun r1 =>
  groups.foldlM (uninstallSvcGroup dry inst.services) (r1, false) >>= fun rs =>
  pure (uninstallFinish R dry inst rs.1)

/-- Result of `weecfg.extract_tarball` (external collaborator): the
member names on success, or an extraction failure. -/
inductive TarResult : Type where
  | ok : List String → TarResult
  | err : TarResult
deriving DecidableEq

/-- What the archive branch of `install_extension` (lines 89-100) does up
to and including its `finally` clause: the directory handed on to
`install_from_dir` when staging succeeds, the exception replacing the
original control flow when it does not, and whether the `finally` block's
`shutil.rmtree(extension_dir, ignore_errors=True)` actually executed. -/
structure StageOutcome : Type where
  resolved : Option String
  raised : Option PyErr
  cleanupRan : Bool
deriving DecidableEq

/-- The archive branch of `ExtensionEngine.install_extension`.  The local
`extension_dir` is only assigned after the common-prefix test succeeds, so
on an extraction failure or an empty common prefix the `finally` block
reads an unbound local: Python raises `NameError` (replacing the original
`InstallError`), and the `rmtree` cleanup never runs.  Once `extension_dir`
is bound, the `finally` cleanup runs on every path, including when
`install_from_dir` raises. -/
def stage_archive (tmpdir : String) (tar : TarResult) : StageOutcome :=
  match tar with
  | .err => { resolved := none, raised := some .nameError, cleanupRan := false }
  | .ok member_names =>
    let extension_reldir := commonPreList member_names
    if extension_reldir = "" then
      { resolved := none, raised := some .nameError, cleanupRan := false }
    else
      { resolved := some (pjoin tmpdir extension_reldir), raised := none, cleanupRan := true }

theorem stripLeadDirL_eq_none : ∀ l : List Char, stripLeadDirL l = none ↔ '/' ∉ l
  | [] => by simp [stripLeadDirL]
  | c :: cs => by
    by_cases hc : c = '/'
    · subst hc; simp [stripLeadDirL]
    · simp [stripLeadDirL, hc, stripLeadDirL_eq_none cs, Ne.symm hc]

theorem stripLeadDirL_eq_some :
    ∀ l s : List Char, stripLeadDirL l = some s ↔ ∃ pre, '/' ∉ pre ∧ l = pre ++ '/' :: s
  | [], s => by
    simp only [stripLeadDirL]
    constructor
    · intro h; cases h
    · rintro ⟨pre, -, h⟩; cases pre <;> simp at h
  | c :: cs, s => by
    by_cases hc : c = '/'
    · subst hc
      rw [show stripLeadDirL ('/' :: cs) = some cs from by simp [stripLeadDirL]]
      simp only [Option.some.injEq]
      constructor
      · rintro rfl; exact ⟨[], by simp⟩
      · rintro ⟨pre, hp, he⟩
        cases pre with
        | nil => simpa using he
        | cons d ds =>
          simp only [List.cons_append, List.cons.injEq] at he
          exact absurd (he.1 ▸ List.mem_cons_self d ds) hp
    · rw [show stripLeadDirL (c :: cs) = stripLeadDirL cs from by simp [stripLeadDirL, hc],
        stripLeadDirL_eq_some cs s]
      constructor
      · rintro ⟨pre, hp, he⟩
        refine ⟨c :: pre, ?_, by simp [he]⟩
        intro hmem
        rcases List.mem_cons.1 hmem with h | h
        · exact hc h.symm
        · exact hp h
      · rintro ⟨pre, hp, he⟩
        cases pre with
        | nil =>
          simp only [List.nil_append, List.cons.injEq] at he
          exact absurd he.1 hc
        | cons d ds =>
          simp only [List.cons_append, List.cons.injEq] at he
          exact ⟨ds, fun h => hp (List.mem_cons_of_mem d h), he.2⟩

/-- C10: `_strip_leading_dir` returns the suffix after the first slash
when the path contains one and `None` otherwise, so every file path fed
to the copy phase and the removal phase must contain a slash for the
destination join to be defined (a slash-free path makes both phases
raise `TypeError` on `os.path.join(root, None)`). -/
theorem strip_leading_dir_spec (p : String) :
    (strip_leading_dir p = none ↔ '/' ∉ p.toList) ∧
    (∀ s : String, strip_leading_dir p = some s ↔
      ∃ pre : List Char, '/' ∉ pre ∧ p.toList = pre ++ '/' :: s.toList) ∧
    ('/' ∉ p.toList →
      (∀ dry ext_dir rootPath acc, installCopyFile dry ext_dir rootPath acc p =
        .error .typeError) ∧
      (∀ dry rootPath acc, uninstallFileOne dry rootPath acc p = .error .typeError)) := by
  have hnone : strip_leading_dir p = none ↔ '/' ∉ p.toList := by
    simp [strip_leading_dir, Option.map_eq_none', stripLeadDirL_eq_none]
  have key : ∀ s : String, strip_leading_dir p = some s ↔
      stripLeadDirL p.toList = some s.toList := by
    intro s
    constructor
    · intro h
      rcases Option.map_eq_some'.1 h with ⟨l, hl, hmk⟩
      cases hmk
      exact hl
    · intro h
      unfold strip_leading_dir
      rw [h]
      rfl
  refine ⟨hnone, ?_, ?_⟩
  · intro s
    exact (key s).trans (stripLeadDirL_eq_some p.toList s.toList)
  · intro hns
    have h0 : strip_leading_dir p = none := hnone.2 hns
    exact ⟨fun dry ext_dir rootPath acc => by simp [installCopyFile, h0],
      fun dry rootPath acc => by simp [uninstallFileOne, h0]⟩

/-- Witness for C10 at concrete inputs. -/
theorem strip_leading_dir_spec_witness :
    strip_leading_dir "pmon/user/m.py" = some "user/m.py" ∧
    installCopyFile false "/t" "/bin" (⟨⟨[], .nil, []⟩, []⟩, 0) "myext.py" =
      .error .typeError := by
  constructor
  · exact ((strip_leading_dir_spec "pmon/user/m.py").2.1 "user/m.py").mpr
      ⟨['p', 'm', 'o', 'n'], by decide, by decide⟩
  · exact ((strip_leading_dir_spec "myext.py").2.2 (by decide)).1 false "/t" "/bin" _

instance {ε α : Type} [DecidableEq ε] [DecidableEq α] : DecidableEq (Except ε α) := fun a b =>
  match a, b with
  | .ok x, .ok y =>
    if h : x = y then .isTrue (by rw [h]) else .isFalse (fun he => by cases he; exact h rfl)
  | .error x, .error y =>
    if h : x = y then .isTrue (by rw [h]) else .isFalse (fun he => by cases he; exact h rfl)
  | .ok _, .error _ => .isFalse (fun h => by cases h)
  | .error _, .ok _ => .isFalse (fun h => by cases h)

theorem lcpL_nil_right : ∀ l : List Char, lcpL l [] = []
  | [] => rfl
  | _ :: _ => rfl

theorem lcpL_cons_self (c : Char) (l w : List Char) :
    lcpL (c :: l) (c :: w) = c :: lcpL l w := by simp [lcpL]

theorem lcpL_of_pre : ∀ w l : List Char, w <+: l → lcpL l w = w
  | [], l, _ => lcpL_nil_right l
  | d :: ds, l, h => by
    rcases h with ⟨t, rfl⟩
    rw [List.cons_append, lcpL_cons_self, lcpL_of_pre ds (ds ++ t) ⟨t, rfl⟩]

theorem lcpL_pre_right : ∀ l w : List Char, lcpL l w <+: w
  | [], _ => by simp [lcpL]
  | _ :: _, [] => by simp [lcpL]
  | c :: cs, d :: ds => by
    by_cases h : c = d
    · subst h
      rw [lcpL_cons_self]
      exact List.cons_prefix_cons.2 ⟨rfl, lcpL_pre_right cs ds⟩
    · simp [lcpL, h]

theorem lcpL_eq_self_pre : ∀ l w : List Char, lcpL l w = w → w <+: l
  | _, [], _ => List.nil_prefix
  | [], _ :: _, h => by cases h
  | c :: cs, d :: ds, h => by
    by_cases hcd : c = d
    · subst hcd
      rw [lcpL_cons_self] at h
      simp only [List.cons.injEq, true_and] at h
      exact List.cons_prefix_cons.2 ⟨rfl, lcpL_eq_self_pre cs ds h⟩
    · simp [lcpL, hcd] at h

theorem lcpL_nil_of_head_ne {l : List Char} {c : Char} (w : List Char)
    (h : l.head? ≠ some c) : lcpL l (c :: w) = [] := by
  cases l with
  | nil => rfl
  | cons d ds =>
    have : d ≠ c := fun he => h (by simp [he])
    simp [lcpL, this]

theorem mkStr_ne_empty (c : Char) (u : List Char) : (⟨c :: u⟩ : String) ≠ "" := by
  intro h
  have := congrArg String.data h
  simp at this

/-- C6 counterexample: the source prefix `"b"` shares a nonempty
character run with the table key `"bin"` that is not itself a key, so
both the install copy phase and the uninstall removal phase raise an
unhandled `KeyError` instead of terminating via `sys.exit`. -/
theorem classify_counterexample :
    classifySrc "b" = .keyErr "b" ∧
    SrcClass.keyErr "b" ≠ SrcClass.noMatch ∧
    installCopyTuple ⟨"/bin", "/skins", "/ext"⟩ false "/t" (⟨⟨[], .nil, []⟩, []⟩, 0)
      ("b", ["u/x.py"]) = .error (.keyError "b") ∧
    uninstallFilesTuple ⟨"/bin", "/skins", "/ext"⟩ false (⟨⟨[], .nil, []⟩, []⟩, 0)
      ("b", ["u/x.py"]) = .error (.keyError "b") := by decide

/-- C6 (amended): a source prefix beginning with the full key `"bin"`
(resp. `"skins"`) is classified to `BIN_ROOT` (resp. `SKIN_ROOT`); a
prefix sharing no first character with either key makes the operation
terminate via `sys.exit`; but a prefix sharing a proper nonempty leading
character run with a key raises an unhandled `KeyError` rather than
exiting. -/
theorem classifySrc_amended (s : String) :
    (('b' :: 'i' :: 'n' :: []) <+: s.toList → classifySrc s = .matched "BIN_ROOT") ∧
    (('s' :: 'k' :: 'i' :: 'n' :: 's' :: []) <+: s.toList →
      classifySrc s = .matched "SKIN_ROOT") ∧
    (s.toList.head? ≠ some 'b' → s.toList.head? ≠ some 's' →
      classifySrc s = .noMatch) ∧
    (s.toList.head? = some 'b' → ¬ ('b' :: 'i' :: 'n' :: []) <+: s.toList →
      ∃ t, classifySrc s = .keyErr t) ∧
    (s.toList.head? = some 's' → ¬ ('s' :: 'k' :: 'i' :: 'n' :: 's' :: []) <+: s.toList →
      ∃ t, classifySrc s = .keyErr t) := by
  refine ⟨?_, ?_, ?_, ?_, ?_⟩
  · intro h
    have h1 : commonPre2 s "bin" = "bin" := by
      unfold commonPre2
      rw [show ("bin" : String).toList = ['b', 'i', 'n'] from rfl, lcpL_of_pre _ _ h]
    simp only [classifySrc, h1]
    rw [if_pos (by decide : ("bin" : String) ≠ "")]
    decide
  · intro h
    obtain ⟨t, ht⟩ := h
    have h1 : commonPre2 s "bin" = "" := by
      unfold commonPre2
      rw [← ht]
      rfl
    have h2 : commonPre2 s "skins" = "skins" := by
      unfold commonPre2
      rw [show ("skins" : String).toList = ['s', 'k', 'i', 'n', 's'] from rfl,
        lcpL_of_pre _ _ ⟨t, ht⟩]
    simp only [classifySrc, h1, h2]
    rw [if_neg (by decide : ¬ ("" : String) ≠ ""), if_pos (by decide : ("skins" : String) ≠ "")]
    decide
  · intro hb hs
    have h1 : commonPre2 s "bin" = "" := by
      unfold commonPre2
      rw [show ("bin" : String).toList = ['b', 'i', 'n'] from rfl, lcpL_nil_of_head_ne _ hb]
    have h2 : commonPre2 s "skins" = "" := by
      unfold commonPre2
      rw [show ("skins" : String).toList = ['s', 'k', 'i', 'n', 's'] from rfl,
        lcpL_nil_of_head_ne _ hs]
    simp only [classifySrc, h1, h2]
    rw [if_neg (by decide : ¬ ("" : String) ≠ ""), if_neg (by decide : ¬ ("" : String) ≠ "")]
  · intro hb hnp
    obtain ⟨l', hs'⟩ : ∃ l', s.toList = 'b' :: l' := by
      cases hl : s.toList with
      | nil => rw [hl] at hb; simp at hb
      | cons c cs =>
        rw [hl] at hb
        simp only [List.head?_cons, Option.some.injEq] at hb
        exact ⟨cs, by rw [hb]⟩
    set u := lcpL l' ['i', 'n'] with hu
    have h1 : commonPre2 s "bin" = ⟨'b' :: u⟩ := by
      unfold commonPre2
      rw [show ("bin" : String).toList = ['b', 'i', 'n'] from rfl, hs']
      simp [lcpL, hu]
    have hne : (⟨'b' :: u⟩ : String) ≠ "" := mkStr_ne_empty _ _
    have hnbin : (⟨'b' :: u⟩ : String) ≠ "bin" := by
      intro h
      have hd := congrArg String.data h
      simp only [show ("bin" : String).data = ['b', 'i', 'n'] from rfl,
        List.cons.injEq, true_and] at hd
      exact hnp (hs' ▸ List.cons_prefix_cons.2 ⟨rfl, lcpL_eq_self_pre _ _ (hu ▸ hd)⟩)
    have hnskins : (⟨'b' :: u⟩ : String) ≠ "skins" := by
      intro h
      have hd := congrArg String.data h
      simp only [show ("skins" : String).data = ['s', 'k', 'i', 'n', 's'] from rfl,
        List.cons.injEq] at hd
      exact absurd hd.1 (by decide)
    refine ⟨⟨'b' :: u⟩, ?_⟩
    simp only [classifySrc, h1]
    rw [if_pos hne, show lookupTargetDirs ⟨'b' :: u⟩ = none from by
      unfold lookupTargetDirs
      rw [if_neg hnbin, if_neg hnskins]]
  · intro hb hnp
    obtain ⟨l', hs'⟩ : ∃ l', s.toList = 's' :: l' := by
      cases hl : s.toList with
      | nil => rw [hl] at hb; simp at hb
      | cons c cs =>
        rw [hl] at hb
        simp only [List.head?_cons, Option.some.injEq] at hb
        exact ⟨cs, by rw [hb]⟩
    have h1 : commonPre2 s "bin" = "" := by
      unfold commonPre2
      rw [show ("bin" : String).toList = ['b', 'i', 'n'] from rfl, hs']
      rfl
    set u := lcpL l' ['k', 'i', 'n', 's'] with hu
    have h2 : commonPre2 s "skins" = ⟨'s' :: u⟩ := by
      unfold commonPre2
      rw [show ("skins" : String).toList = ['s', 'k', 'i', 'n', 's'] from rfl, hs']
      simp [lcpL, hu]
    have hne : (⟨'s' :: u⟩ : String) ≠ "" := mkStr_ne_empty _ _
    have hnbin : (⟨'s' :: u⟩ : String) ≠ "bin" := by
      intro h
      have hd := congrArg String.data h
      simp only [show ("bin" : String).data = ['b', 'i', 'n'] from rfl,
        List.cons.injEq] at hd
      exact absurd hd.1 (by decide)
    have hnskins : (⟨'s' :: u⟩ : String) ≠ "skins" := by
      intro h
      have hd := congrArg String.data h
      simp only [show ("skins" : String).data = ['s', 'k', 'i', 'n', 's'] from rfl,
        List.cons.injEq, true_and] at hd
      exact hnp (hs' ▸ List.cons_prefix_cons.2 ⟨rfl, lcpL_eq_self_pre _ _ (hu ▸ hd)⟩)
    refine ⟨⟨'s' :: u⟩, ?_⟩
    simp only [classifySrc, h1, h2]
    rw [if_neg (by decide : ¬ ("" : String) ≠ ""), if_pos hne,
      show lookupTargetDirs ⟨'s' :: u⟩ = none from by
        unfold lookupTargetDirs
        rw [if_neg hnbin, if_neg hnskins]]

/-- Witness for the amended C6 at concrete prefixes. -/
theorem classifySrc_amended_witness :
    classifySrc "bin/user" = .matched "BIN_ROOT" ∧
    classifySrc "skins/pmon" = .matched "SKIN_ROOT" ∧
    classifySrc "util" = .noMatch ∧
    (∃ t, classifySrc "bi" = .keyErr t) := by
  refine ⟨(classifySrc_amended "bin/user").1 (by decide),
    (classifySrc_amended "skins/pmon").2.1 (by decide),
    (classifySrc_amended "util").2.2.1 (by decide) (by decide),
    (classifySrc_amended "bi").2.2.2.1 (by decide) (by decide)⟩

/-- C5: the scratch-cleanup guarantee is broken.  On an extraction
failure and on the no-common-prefix path the `finally` block reads the
never-assigned local `extension_dir`, so a `NameError` replaces the
original error and the `rmtree` cleanup never runs; cleanup does run once
the directory was resolved. -/
theorem stage_archive_cleanup_bug :
    (stage_archive "/var/tmp" (.ok ["a/x", "b/y"])).cleanupRan = false ∧
    (stage_archive "/var/tmp" (.ok ["a/x", "b/y"])).raised = some .nameError ∧
    (stage_archive "/var/tmp" TarResult.err).cleanupRan = false ∧
    (stage_archive "/var/tmp" TarResult.err).raised = some .nameError ∧
    (stage_archive "/var/tmp" (.ok ["pmon/", "pmon/install.py"])).cleanupRan = true := by
  decide

/-- C7 counterexample: an archive whose member paths all share `"pmon/"`
can resolve past the `pmon` subdirectory, because `os.path.commonprefix`
is character-wise (`pmon/aa`, `pmon/ab` resolve to `.../pmon/a`); and an
archive with no common prefix surfaces a `NameError` from the broken
cleanup, not the `InstallError` the staging constructs. -/
theorem stage_archive_counterexample :
    (stage_archive "/tmp" (.ok ["pmon/aa", "pmon/ab"])).resolved = some "/tmp/pmon/a" ∧
    ("/tmp/pmon/a" : String) ≠ "/tmp/pmon" ∧
    ("/tmp/pmon/a" : String) ≠ "/tmp/pmon/" ∧
    (stage_archive "/tmp" (.ok ["a", "b"])).raised = some PyErr.nameError := by decide

/-- C7 (amended): staging resolves the extension directory to the
temporary directory joined with the character-wise longest common run of
the member names (so exactly `.../pmon/` only when that run is exactly
`"pmon/"`), and an empty common run aborts staging with a `NameError`
(superseding the constructed `InstallError`) without running cleanup. -/
theorem stage_archive_amended (tmpdir : String) (ms : List String) :
    (commonPreList ms = "pmon/" →
      (stage_archive tmpdir (.ok ms)).resolved = some (pjoin tmpdir "pmon/")) ∧
    (commonPreList ms = "" →
      (stage_archive tmpdir (.ok ms)).raised = some .nameError ∧
      (stage_archive tmpdir (.ok ms)).cleanupRan = false) ∧
    (commonPreList ms ≠ "" →
      (stage_archive tmpdir (.ok ms)).resolved = some (pjoin tmpdir (commonPreList ms)) ∧
      (stage_archive tmpdir (.ok ms)).cleanupRan = true) := by
  refine ⟨?_, ?_, ?_⟩
  · intro h
    simp only [stage_archive, h]
    rw [if_neg (by decide : ¬ ("pmon/" : String) = "")]
  · intro h
    simp [stage_archive, h]
  · intro h
    simp [stage_archive, h]

/-- Witness for the amended C7 on a well-formed pmon archive listing. -/
theorem stage_archive_amended_witness :
    (stage_archive "/var/tmp" (.ok ["pmon/", "pmon/install.py"])).resolved =
      some "/var/tmp/pmon/" := by
  have h := (stage_archive_amended "/var/tmp" ["pmon/", "pmon/install.py"]).1 (by decide)
  rw [h]
  decide

/-- C8: registering a component identifier that is already present in the
pipeline group's list is a complete no-op, for the single step and for a
whole declared list of already-present identifiers: the list is unchanged
(same elements, same order, nothing appended), the configuration-changed
flag is not set, and no log line is emitted. -/
theorem install_services_idempotent (dry : Bool) (grp : String) (r : RunSt) (flag : Bool)
    (lst : List String) (ext : List String) (h : ∀ s ∈ ext, s ∈ lst) :
    ext.foldlM (installSvcStep dry grp) (r, flag, lst) = .ok (r, flag, lst) := by
  induction ext with
  | nil => rfl
  | cons svc rest ih =>
    have hsvc : lst.contains svc = true := List.elem_eq_true_of_mem (h svc (by simp))
    have hstep : installSvcStep dry grp (r, flag, lst) svc = .ok (r, flag, lst) := by
      simp only [installSvcStep, hsvc]
      rfl
    simp only [List.foldlM, hstep]
    exact ih (fun s hs => h s (List.mem_cons_of_mem svc hs))

theorem lookup_cons_self (k : String) (v : CVal) (rest : Conf) :
    (Conf.cons k v rest).lookup k = some v := by simp [Conf.lookup]

theorem lookup_cons_ne {k' k : String} (v : CVal) (rest : Conf) (h : k' ≠ k) :
    (Conf.cons k' v rest).lookup k = rest.lookup k := by simp [Conf.lookup, h]

theorem lookup_update : ∀ (C : Conf) (j k : String) (v : CVal),
    (C.update k v).lookup j = if j = k then some v else C.lookup j
  | .nil, j, k, v => by
    by_cases h : j = k
    · subst h; simp [Conf.update, Conf.lookup]
    · simp [Conf.update, Conf.lookup, h, Ne.symm h]
  | .cons k' v' rest, j, k, v => by
    by_cases h1 : k' = k
    · subst h1
      by_cases h2 : j = k'
      · subst h2; simp [Conf.update, Conf.lookup]
      · simp [Conf.update, Conf.lookup, h2, Ne.symm h2]
    · by_cases h2 : k' = j
      · subst h2
        simp [Conf.update, Conf.lookup, h1, Ne.symm h1, fun h => h1 (h : k' = k)]
      · simp [Conf.update, Conf.lookup, h1, h2, lookup_update rest j k v]

theorem update_self_of_lookup : ∀ (C : Conf) (k : String) (v : CVal),
    C.lookup k = some v → C.update k v = C
  | .nil, _, _, h => by cases h
  | .cons k' v' rest, k, v, h => by
    by_cases h1 : k' = k
    · subst h1
      rw [lookup_cons_self] at h
      cases h
      simp [Conf.update]
    · rw [lookup_cons_ne v' rest h1] at h
      simp [Conf.update, h1, update_self_of_lookup rest k v h]

theorem update_update_self : ∀ (C : Conf) (k : String) (v w : CVal),
    (C.update k v).update k w = C.update k w
  | .nil, k, v, w => by simp [Conf.update]
  | .cons k' v' rest, k, v, w => by
    by_cases h1 : k' = k
    · subst h1
      simp [Conf.update]
    · simp [Conf.update, h1, update_update_self rest k v w]

theorem mem_keys_cons {k k' : String} {v : CVal} {rest : Conf} :
    k ∈ (Conf.cons k' v rest).keys ↔ k = k' ∨ k ∈ rest.keys := by
  simp [Conf.keys]

theorem keys_update_of_mem : ∀ (C : Conf) (k : String) (v : CVal), k ∈ C.keys →
    (C.update k v).keys = C.keys
  | .nil, _, _, h => by simp [Conf.keys] at h
  | .cons k' v' rest, k, v, h => by
    by_cases h1 : k' = k
    · subst h1
      simp [Conf.update, Conf.keys]
    · have hm : k ∈ rest.keys := by
        rcases mem_keys_cons.1 h with h2 | h2
        · exact absurd h2.symm h1
        · exact h2
      simp [Conf.update, Conf.keys, h1, keys_update_of_mem rest k v hm]

theorem update_comm : ∀ (C : Conf) (k1 k2 : String) (v1 v2 : CVal), k1 ≠ k2 →
    (k1 ∈ C.keys ∨ k2 ∈ C.keys) →
    (C.update k1 v1).update k2 v2 = (C.update k2 v2).update k1 v1
  | .nil, k1, k2, _, _, _, hm => by simp [Conf.keys] at hm
  | .cons k v rest, k1, k2, v1, v2, hne, hm => by
    by_cases h1 : k = k1
    · subst h1
      simp [Conf.update, hne, Ne.symm hne]
    · by_cases h2 : k = k2
      · subst h2
        simp [Conf.update, h1, Ne.symm hne]
      · have hm' : k1 ∈ rest.keys ∨ k2 ∈ rest.keys := by
          rcases hm with h | h
          · rcases mem_keys_cons.1 h with h' | h'
            · exact absurd h'.symm h1
            · exact Or.inl h'
          · rcases mem_keys_cons.1 h with h' | h'
            · exact absurd h'.symm h2
            · exact Or.inr h'
        simp [Conf.update, h1, h2, update_comm rest k1 k2 v1 v2 hne hm']

theorem lookup_eq_none_iff : ∀ (C : Conf) (k : String), C.lookup k = none ↔ k ∉ C.keys
  | .nil, k => by simp [Conf.lookup, Conf.keys]
  | .cons k' v rest, k => by
    by_cases h : k' = k
    · subst h
      simp [Conf.lookup, Conf.keys]
    · rw [lookup_cons_ne v rest h, lookup_eq_none_iff rest k]
      simp [Conf.keys, Ne.symm h]

theorem lookup_isSome_iff (C : Conf) (k : String) : (C.lookup k).isSome ↔ k ∈ C.keys := by
  rcases h : C.lookup k with _ | v
  · simpa using (lookup_eq_none_iff C k).1 h
  · have : k ∈ C.keys := by
      by_contra hk
      rw [(lookup_eq_none_iff C k).2 hk] at h
      cases h
    simpa using this

theorem lookup_append_of_some : ∀ {C : Conf} {j : String} {v : CVal} (D : Conf),
    C.lookup j = some v → (C.append D).lookup j = some v
  | .nil, _, _, _, h => by cases h
  | .cons k' v' rest, j, v, D, h => by
    by_cases h1 : k' = j
    · subst h1
      rw [lookup_cons_self] at h
      cases h
      show (Conf.cons k' v' (rest.append D)).lookup k' = some v'
      rw [lookup_cons_self]
    · rw [lookup_cons_ne v' rest h1] at h
      show (Conf.cons k' v' (rest.append D)).lookup j = some v
      rw [lookup_cons_ne v' (rest.append D) h1]
      exact lookup_append_of_some D h

theorem lookup_append_of_none : ∀ {C : Conf} {j : String} (D : Conf),
    C.lookup j = none → (C.append D).lookup j = D.lookup j
  | .nil, _, D, _ => rfl
  | .cons k' v' rest, j, D, h => by
    by_cases h1 : k' = j
    · subst h1
      rw [lookup_cons_self] at h
      cases h
    · rw [lookup_cons_ne v' rest h1] at h
      show (Conf.cons k' v' (rest.append D)).lookup j = D.lookup j
      rw [lookup_cons_ne v' (rest.append D) h1]
      exact lookup_append_of_none D h

theorem append_nil : ∀ C : Conf, C.append .nil = C
  | .nil => rfl
  | .cons k v rest => by simp [Conf.append, append_nil rest]

theorem append_assoc : ∀ C D E : Conf, (C.append D).append E = C.append (D.append E)
  | .nil, _, _ => rfl
  | .cons k v rest, D, E => by simp [Conf.append, append_assoc rest D E]

theorem erase_cons_self (k : String) (v : CVal) (rest : Conf) :
    (Conf.cons k v rest).erase k = rest := by simp [Conf.erase]

theorem erase_cons_ne {k' k : String} (v : CVal) (rest : Conf) (h : k' ≠ k) :
    (Conf.cons k' v rest).erase k = .cons k' v (rest.erase k) := by simp [Conf.erase, h]

theorem erase_of_lookup_none : ∀ (C : Conf) (k : String), C.lookup k = none → C.erase k = C
  | .nil, _, _ => rfl
  | .cons k' v rest, k, h => by
    by_cases h1 : k' = k
    · subst h1
      rw [lookup_cons_self] at h
      cases h
    · rw [lookup_cons_ne v rest h1] at h
      rw [erase_cons_ne v rest h1, erase_of_lookup_none rest k h]

theorem erase_append_left : ∀ {C : Conf} {k : String} (D : Conf), C.lookup k = none →
    (C.append D).erase k = C.append (D.erase k)
  | .nil, _, D, _ => rfl
  | .cons k' v rest, k, D, h => by
    by_cases h1 : k' = k
    · subst h1
      rw [lookup_cons_self] at h
      cases h
    · rw [lookup_cons_ne v rest h1] at h
      show (Conf.cons k' v (rest.append D)).erase k = _
      rw [erase_cons_ne v (rest.append D) h1, erase_append_left D h]
      rfl

theorem keys_append : ∀ C D : Conf, (C.append D).keys = C.keys ++ D.keys
  | .nil, _ => rfl
  | .cons k v rest, D => by simp [Conf.append, Conf.keys, keys_append rest D]

theorem update_append_left : ∀ {C : Conf} {k : String} (D : Conf) (v : CVal),
    k ∈ C.keys → (C.append D).update k v = (C.update k v).append D
  | .nil, k, D, v, h => by simp [Conf.keys] at h
  | .cons k' v' rest, k, D, v, h => by
    by_cases h1 : k' = k
    · subst h1
      simp [Conf.append, Conf.update]
    · have hm : k ∈ rest.keys := by
        rcases mem_keys_cons.1 h with h2 | h2
        · exact absurd h2.symm h1
        · exact h2
      simp [Conf.append, Conf.update, h1, update_append_left D v hm]

theorem updatePath3_of_sects (C : Conf) {E S : Conf} {a b : String} (k : String)
    (v : CVal) (hE : C.lookup a = some (.sect E)) (hS : E.lookup b = some (.sect S)) :
    updatePath C [a, b, k] v =
      some (C.update a (.sect (E.update b (.sect (S.update k v))))) := by
  simp [updatePath, hE, hS]

theorem lookupPath3_of_sects (C : Conf) {E S : Conf} {a b : String} (k : String)
    (hE : C.lookup a = some (.sect E)) (hS : E.lookup b = some (.sect S)) :
    lookupPath C [a, b, k] = S.lookup k := by
  simp [lookupPath, hE, hS]

theorem lookupPath3_cases {C : Conf} {a b k : String} {v : CVal}
    (h : lookupPath C [a, b, k] = some v) :
    ∃ E S, C.lookup a = some (.sect E) ∧ E.lookup b = some (.sect S) ∧
      S.lookup k = some v := by
  rcases hE : C.lookup a with _ | vE
  · simp [lookupPath, hE] at h
  · cases vE with
    | leaf s => simp [lookupPath, hE] at h
    | vlist l => simp [lookupPath, hE] at h
    | sect E =>
      rcases hS : E.lookup b with _ | vS
      · simp [lookupPath, hE, hS] at h
      · cases vS with
        | leaf s => simp [lookupPath, hE, hS] at h
        | vlist l => simp [lookupPath, hE, hS] at h
        | sect S =>
          refine ⟨E, S, rfl, hS, ?_⟩
          simpa [lookupPath, hE, hS] using h

theorem updatePath3_some_of_lookup {C : Conf} {a b k : String} {v0 : CVal}
    (h : lookupPath C [a, b, k] = some v0) (v : CVal) :
    ∃ C', updatePath C [a, b, k] v = some C' ∧
      lookupPath C' [a, b, k] = some v ∧
      (∀ k', k' ≠ k → lookupPath C' [a, b, k'] = lookupPath C [a, b, k']) := by
  rcases lookupPath3_cases h with ⟨E, S, hE, hS, hk⟩
  have hE' : (C.update a (.sect (E.update b (.sect (S.update k v))))).lookup a =
      some (.sect (E.update b (.sect (S.update k v)))) := by
    rw [lookup_update]; simp
  have hS' : (E.update b (.sect (S.update k v))).lookup b =
      some (.sect (S.update k v)) := by
    rw [lookup_update]; simp
  refine ⟨_, updatePath3_of_sects C k v hE hS, ?_, ?_⟩
  · rw [lookupPath3_of_sects _ k hE' hS', lookup_update]
    simp
  · intro k' hk'
    rw [lookupPath3_of_sects _ k' hE' hS', lookup_update, if_neg hk',
      lookupPath3_of_sects _ k' hE hS]

theorem updatePath3_write_same {C : Conf} {a b k : String} {v : CVal}
    (h : lookupPath C [a, b, k] = some v) :
    updatePath C [a, b, k] v = some C := by
  rcases lookupPath3_cases h with ⟨E, S, hE, hS, hk⟩
  rw [updatePath3_of_sects C k v hE hS, update_self_of_lookup S k v hk,
    update_self_of_lookup E b _ hS, update_self_of_lookup C a _ hE]


/-- A configuration tree holding one pipeline-group list, as the service
phases read it. -/
def svcConf (l : List String) : Conf :=
  .cons "Engine" (.sect (.cons "Services"
    (.sect (.cons "data_services" (.vlist l) .nil)) .nil)) .nil

/-- C9 counterexample: when the manifest's value for a group is a single
identifier string, the de-registration filter tests Python substring
membership, so an unrelated registered identifier that happens to be a
substring of the declared one (here `"a"` inside `"ab"`) is removed as
well: the resulting list is `[]` instead of `["a"]`. -/
theorem uninstall_services_counterexample :
    (match uninstallSvcGroup false [("data_services", SVal.one "ab")]
        (⟨⟨[], svcConf ["a", "ab"], []⟩, []⟩, false) "data_services" with
      | .ok acc => lookupPath acc.1.st.config ["Engine", "Services", "data_services"]
      | .error _ => none) = some (.vlist []) ∧
    some (CVal.vlist []) ≠ some (CVal.vlist ["a"]) := by decide

/-- C9 (amended): non-dry-run de-registration replaces the group's list
with `filter(lambda x: x not in declared, existing)`.  When the manifest
declares a list this is exactly the order-preserving set difference by
membership; when it declares a single identifier string the membership
test is substring containment, which also removes every existing
identifier occurring as a substring of the declared string. -/
theorem uninstallSvcGroup_amended
    (services : List (String × SVal)) (grp : String) (st : SysState) (logs : List LogMsg)
    (flag : Bool) (v : SVal) (cur : List String)
    (hv : services.lookup grp = some v)
    (hc : lookupPath st.config ["Engine", "Services", grp] = some (.vlist cur)) :
    ∃ c', uninstallSvcGroup false services (⟨st, logs⟩, flag) grp =
        .ok (⟨{ st with config := c' }, logs⟩, true) ∧
      lookupPath c' ["Engine", "Services", grp] = some (filterSvcVal v (.vlist cur)) ∧
      (∀ decl, v = .many decl →
        filterSvcVal v (.vlist cur) = .vlist (cur.filter (fun x => ¬ decl.contains x)) ∧
        (cur.filter (fun x => ¬ decl.contains x)).Sublist cur ∧
        (∀ x, x ∈ cur.filter (fun x => ¬ decl.contains x) ↔ x ∈ cur ∧ x ∉ decl)) ∧
      (∀ s, v = .one s →
        filterSvcVal v (.vlist cur) =
          .vlist (cur.filter (fun x => ¬ isSubstrL x.toList s.toList)) ∧
        (∀ x, x ∈ cur → isSubstrL x.toList s.toList = true →
          x ∉ cur.filter (fun x => ¬ isSubstrL x.toList s.toList))) := by
  obtain ⟨c', hup, hlk, -⟩ := updatePath3_some_of_lookup hc (filterSvcVal v (.vlist cur))
  refine ⟨c', ?_, hlk, ?_, ?_⟩
  · simp [uninstallSvcGroup, hv, hc, hup]
  · rintro decl rfl
    refine ⟨rfl, List.filter_sublist _, ?_⟩
    intro x
    simp [List.mem_filter, List.elem_iff]
  · rintro s rfl
    refine ⟨rfl, ?_⟩
    intro x hx hsub
    simp only [List.mem_filter, not_and]
    intro _
    simp only [decide_not, Bool.not_eq_true', decide_eq_false_iff_not, Decidable.not_not]
    exact hsub

/-- Witness for the amended C9 with a list-valued declaration. -/
theorem uninstallSvcGroup_amended_witness :
    ∃ c', uninstallSvcGroup false [("data_services", SVal.many ["p"])]
        (⟨⟨[], svcConf ["a", "p"], []⟩, []⟩, false) "data_services" =
      .ok (⟨⟨[], c', []⟩, []⟩, true) ∧
      lookupPath c' ["Engine", "Services", "data_services"] =
        some (filterSvcVal (.many ["p"]) (.vlist ["a", "p"])) := by
  obtain ⟨c', h1, h2, -, -⟩ := uninstallSvcGroup_amended
    [("data_services", SVal.many ["p"])] "data_services" ⟨[], svcConf ["a", "p"], []⟩
    [] false (.many ["p"]) ["a", "p"] (by decide) (by decide)
  exact ⟨c', h1, h2⟩

/-- Project a fragment through the sharing of `cfg = dict(installer['config'])`:
a top-level section binding is the same object in the copy and the
manifest, so after the copy is massaged the manifest shows the massaged
content; top-level scalar and list bindings were only rebound in the
copy, so the manifest keeps the original value. -/
def fragShare : Conf → Conf → Conf
  | .nil, _ => .nil
  | .cons k v rest, cfg =>
    .cons k
      (match v with
        | .sect _ => (cfg.lookup k).getD v
        | w => w)
      (fragShare rest cfg)

/-- The in-memory state of the manifest's own `config` dictionary after
the massaging phase of `install_from_dir` (lines 162-189).  The phase
works on the shallow copy `cfg = dict(installer['config'])` whose nested
section objects are shared with the manifest, so the HTML_ROOT rewriting
and the database massaging mutate the manifest's nested sections in
place.  (When the live configuration lacks `StdReport.HTML_ROOT`, the
argument evaluation raises `KeyError` before any rewriting, leaving the
manifest untouched.) -/
def fragAfterInstall (live frag : Conf) : Conf :=
  match lookupPath live ["StdReport", "HTML_ROOT"] with
  | some (.leaf html) => fragShare frag (massage_db live (prependC "HTML_ROOT" html frag))
  | _ => frag

/-- C4: evaluation at the failing input.  A manifest fragment with a
nested `HTML_ROOT` value is mutated in place by `install_from_dir`: after
the call its nested value reads `public_html/ext` instead of the declared
`ext`, because only a shallow copy of the fragment was made. -/
theorem manifest_mutation_bug :
    fragAfterInstall
      (.cons "StdReport" (.sect (.cons "HTML_ROOT" (.leaf "public_html") .nil)) .nil)
      (.cons "ExtSection" (.sect (.cons "HTML_ROOT" (.leaf "ext") .nil)) .nil) =
    .cons "ExtSection" (.sect (.cons "HTML_ROOT" (.leaf "public_html/ext") .nil)) .nil ∧
    Conf.cons "ExtSection" (.sect (.cons "HTML_ROOT" (.leaf "public_html/ext") .nil)) .nil ≠
    .cons "ExtSection" (.sect (.cons "HTML_ROOT" (.leaf "ext") .nil)) .nil := by decide

mutual
/-- Well-formedness of a fragment as a Python dictionary: keys are unique
at every level. -/
def confWF : Conf → Bool
  | .nil => true
  | .cons k v rest => !(rest.keys.contains k) && cvalWF v && confWF rest

/-- Value-level side of `confWF`. -/
def cvalWF : CVal → Bool
  | .sect S => confWF S
  | _ => true
end

/-- One fragment entry of `conditional_merge`: insert when the key is
absent, recurse when both sides are sections, otherwise keep the
pre-existing value. -/
def mergeStep (C : Conf) (k : String) (fv : CVal) : Conf :=
  match C.lookup k, fv with
  | none, _ => C.append (.cons k fv .nil)
  | some (.sect S), .sect FS => C.update k (.sect (conditional_merge S FS))
  | some _, _ => C

theorem mergeStep_eq_append {C : Conf} {k : String} (fv : CVal) (h : C.lookup k = none) :
    mergeStep C k fv = C.append (.cons k fv .nil) := by
  cases fv <;> simp [mergeStep, h]

theorem mergeStep_eq_update {C : Conf} {k : String} {S : Conf} (FS : Conf)
    (h : C.lookup k = some (.sect S)) :
    mergeStep C k (.sect FS) = C.update k (.sect (conditional_merge S FS)) := by
  simp [mergeStep, h]

theorem mergeStep_eq_self_of_nonsect_val {C : Conf} {k : String} {w : CVal} (fv : CVal)
    (h : C.lookup k = some w) (hw : ∀ S, w ≠ .sect S) : mergeStep C k fv = C := by
  cases w with
  | sect S => exact absurd rfl (hw S)
  | leaf s => cases fv <;> simp [mergeStep, h]
  | vlist l => cases fv <;> simp [mergeStep, h]

theorem mergeStep_eq_self_of_nonsect_frag {C : Conf} {k : String} {S : Conf} {fv : CVal}
    (h : C.lookup k = some (.sect S)) (hfv : ∀ FS, fv ≠ .sect FS) : mergeStep C k fv = C := by
  cases fv with
  | sect FS => exact absurd rfl (hfv FS)
  | leaf s => simp [mergeStep, h]
  | vlist l => simp [mergeStep, h]

theorem conditional_merge_cons (C : Conf) (k : String) (fv : CVal) (rest : Conf) :
    conditional_merge C (.cons k fv rest) = conditional_merge (mergeStep C k fv) rest := by
  rcases hC : C.lookup k with _ | w
  · cases fv <;> simp [conditional_merge, mergeStep, hC]
  · cases w <;> cases fv <;> simp [conditional_merge, mergeStep, hC]

theorem lookupPath_congr_head {C D : Conf} {j : String} (h : C.lookup j = D.lookup j) :
    ∀ p', lookupPath C (j :: p') = lookupPath D (j :: p')
  | [] => h
  | q :: rest => by
    rcases hC : C.lookup j with _ | w
    · have hD : D.lookup j = none := by rw [← h, hC]
      simp [lookupPath, hC, hD]
    · have hD : D.lookup j = some w := by rw [← h, hC]
      cases w <;> simp [lookupPath, hC, hD]

theorem lookupPath_cons₂_sect {C : Conf} {k : String} {S : Conf}
    (hC : C.lookup k = some (.sect S)) (q : String) (rest : List String) :
    lookupPath C (k :: q :: rest) = lookupPath S (q :: rest) := by
  simp [lookupPath, hC]

theorem lookupPath_cons₂_cases {C : Conf} {k q : String} {rest : List String} {v : CVal}
    (h : lookupPath C (k :: q :: rest) = some v) :
    ∃ S, C.lookup k = some (.sect S) ∧ lookupPath S (q :: rest) = some v := by
  rcases hC : C.lookup k with _ | w
  · simp [lookupPath, hC] at h
  · cases w with
    | leaf s => simp [lookupPath, hC] at h
    | vlist l => simp [lookupPath, hC] at h
    | sect S => exact ⟨S, rfl, by simpa [lookupPath, hC] using h⟩

theorem lookup_append_singleton_ne {C : Conf} {k j : String} (fv : CVal) (hjk : j ≠ k) :
    (C.append (.cons k fv .nil)).lookup j = C.lookup j := by
  rcases hj : C.lookup j with _ | wj
  · rw [lookup_append_of_none _ hj]
    simpa [Conf.lookup] using Ne.symm hjk
  · exact lookup_append_of_some _ hj

theorem mergeStep_lookup_ne {C : Conf} {k j : String} (fv : CVal) (hjk : j ≠ k) :
    (mergeStep C k fv).lookup j = C.lookup j := by
  rcases hC : C.lookup k with _ | w
  · rw [mergeStep_eq_append fv hC]
    exact lookup_append_singleton_ne fv hjk
  · cases w with
    | leaf s => rw [mergeStep_eq_self_of_nonsect_val fv hC (fun S h => CVal.noConfusion h)]
    | vlist l => rw [mergeStep_eq_self_of_nonsect_val fv hC (fun S h => CVal.noConfusion h)]
    | sect S =>
      cases fv with
      | leaf s => rw [mergeStep_eq_self_of_nonsect_frag hC (fun FS h => CVal.noConfusion h)]
      | vlist l => rw [mergeStep_eq_self_of_nonsect_frag hC (fun FS h => CVal.noConfusion h)]
      | sect FS => rw [mergeStep_eq_update FS hC, lookup_update, if_neg hjk]

theorem cm_path_preserved_not_key : ∀ (G : Conf) {k : String}, k ∉ G.keys →
    ∀ (C : Conf) (p' : List String),
      lookupPath (conditional_merge C G) (k :: p') = lookupPath C (k :: p')
  | .nil, _, _, _, _ => rfl
  | .cons j gv grest, k, hk, C, p' => by
    have hjk : k ≠ j := fun h => hk (by simp [Conf.keys, h])
    have hk' : k ∉ grest.keys := fun h => hk (by simp [Conf.keys, h])
    rw [conditional_merge_cons, cm_path_preserved_not_key grest hk' (mergeStep C j gv) p',
      lookupPath_congr_head (mergeStep_lookup_ne gv hjk) p']

mutual
theorem mergeStep_pres : ∀ (fv : CVal) (k : String) (C : Conf) (p : List String) (v : CVal),
    lookupPath C p = some v → (∀ S, v ≠ .sect S) →
    lookupPath (mergeStep C k fv) p = some v
  | fv, k, C, p, v, h, hns => by
    rcases hC : C.lookup k with _ | w
    · rw [mergeStep_eq_append fv hC]
      cases p with
      | nil => cases h
      | cons j p' =>
        cases p' with
        | nil => exact lookup_append_of_some _ h
        | cons q rest =>
          rcases lookupPath_cons₂_cases h with ⟨S, hj, hrest⟩
          rw [lookupPath_cons₂_sect (lookup_append_of_some _ hj) q rest]
          exact hrest
    · cases w with
      | leaf s =>
        rw [mergeStep_eq_self_of_nonsect_val fv hC (fun S hh => CVal.noConfusion hh)]
        exact h
      | vlist l =>
        rw [mergeStep_eq_self_of_nonsect_val fv hC (fun S hh => CVal.noConfusion hh)]
        exact h
      | sect S =>
        cases fv with
        | leaf s =>
          rw [mergeStep_eq_self_of_nonsect_frag hC (fun FS hh => CVal.noConfusion hh)]
          exact h
        | vlist l =>
          rw [mergeStep_eq_self_of_nonsect_frag hC (fun FS hh => CVal.noConfusion hh)]
          exact h
        | sect FS =>
          rw [mergeStep_eq_update FS hC]
          cases p with
          | nil => cases h
          | cons j p' =>
            by_cases hjk : j = k
            · subst hjk
              cases p' with
              | nil =>
                have h' : C.lookup j = some v := h
                rw [hC] at h'
                cases h'
                exact absurd rfl (hns S)
              | cons q rest =>
                rcases lookupPath_cons₂_cases h with ⟨S', hj', hrest⟩
                rw [hC] at hj'
                cases hj'
                rw [lookupPath_cons₂_sect
                  (show (C.update j (.sect (conditional_merge S FS))).lookup j =
                    some (.sect (conditional_merge S FS)) from by rw [lookup_update]; simp)
                  q rest]
                exact conditional_merge_pres FS S (q :: rest) v hrest hns
            · rw [lookupPath_congr_head
                (show (C.update k (.sect (conditional_merge S FS))).lookup j = C.lookup j from by
                  rw [lookup_update, if_neg hjk]) p']
              exact h

theorem conditional_merge_pres : ∀ (F C : Conf) (p : List String) (v : CVal),
    lookupPath C p = some v → (∀ S, v ≠ .sect S) →
    lookupPath (conditional_merge C F) p = some v
  | .nil, _, _, _, h, _ => h
  | .cons k fv rest, C, p, v, h, hns => by
    rw [conditional_merge_cons]
    exact conditional_merge_pres rest _ p v (mergeStep_pres fv k C p v h hns) hns
end

mutual
theorem mergeStep_new : ∀ (fv : CVal) (k : String) (C : Conf) (p : List String) (v : CVal),
    cvalWF fv = true → lookupPath C p = none →
    lookupPath (mergeStep C k fv) p = some v →
    lookupPath (.cons k fv .nil) p = some v
  | fv, k, C, p, v, hwf, h0, h => by
    rcases hC : C.lookup k with _ | w
    · rw [mergeStep_eq_append fv hC] at h
      cases p with
      | nil => cases h
      | cons j p' =>
        by_cases hjk : j = k
        · subst hjk
          have hlk : (C.append (.cons j fv .nil)).lookup j =
              (Conf.cons j fv Conf.nil).lookup j := lookup_append_of_none _ hC
          rw [← lookupPath_congr_head hlk p']
          exact h
        · rw [lookupPath_congr_head (lookup_append_singleton_ne fv hjk) p', h0] at h
          cases h
    · cases w with
      | leaf s =>
        rw [mergeStep_eq_self_of_nonsect_val fv hC (fun S hh => CVal.noConfusion hh),
          h0] at h
        cases h
      | vlist l =>
        rw [mergeStep_eq_self_of_nonsect_val fv hC (fun S hh => CVal.noConfusion hh),
          h0] at h
        cases h
      | sect S =>
        cases fv with
        | leaf s =>
          rw [mergeStep_eq_self_of_nonsect_frag hC (fun FS hh => CVal.noConfusion hh),
            h0] at h
          cases h
        | vlist l =>
          rw [mergeStep_eq_self_of_nonsect_frag hC (fun FS hh => CVal.noConfusion hh),
            h0] at h
          cases h
        | sect FS =>
          rw [mergeStep_eq_update FS hC] at h
          cases p with
          | nil => cases h
          | cons j p' =>
            by_cases hjk : j = k
            · subst hjk
              cases p' with
              | nil =>
                have h0' : C.lookup j = none := h0
                rw [hC] at h0'
                cases h0'
              | cons q rest =>
                rw [lookupPath_cons₂_sect hC q rest] at h0
                rw [lookupPath_cons₂_sect
                  (show (C.update j (.sect (conditional_merge S FS))).lookup j =
                    some (.sect (conditional_merge S FS)) from by rw [lookup_update]; simp)
                  q rest] at h
                rw [lookupPath_cons₂_sect
                  (show (Conf.cons j (CVal.sect FS) Conf.nil).lookup j = some (.sect FS) from by
                    simp [Conf.lookup]) q rest]
                exact conditional_merge_new FS S (q :: rest) v (by simpa [cvalWF] using hwf) h0 h
            · rw [lookupPath_congr_head
                (show (C.update k (.sect (conditional_merge S FS))).lookup j = C.lookup j from by
                  rw [lookup_update, if_neg hjk]) p', h0] at h
              cases h

theorem conditional_merge_new : ∀ (F C : Conf) (p : List String) (v : CVal),
    confWF F = true → lookupPath C p = none →
    lookupPath (conditional_merge C F) p = some v →
    lookupPath F p = some v
  | .nil, C, p, v, _, h0, h => by
    rw [show conditional_merge C .nil = C from rfl, h0] at h
    cases h
  | .cons k fv rest, C, p, v, hwf, h0, h => by
    have hwf' : (!(rest.keys.contains k) && cvalWF fv && confWF rest) = true := by
      simpa [confWF] using hwf
    have hwf1 : rest.keys.contains k = false := by
      rcases Bool.and_eq_true_iff.1 (Bool.and_eq_true_iff.1 hwf').1 with ⟨h1, -⟩
      simpa using h1
    have hwf2 : cvalWF fv = true :=
      (Bool.and_eq_true_iff.1 (Bool.and_eq_true_iff.1 hwf').1).2
    have hwf3 : confWF rest = true := (Bool.and_eq_true_iff.1 hwf').2
    have hkmem : k ∉ rest.keys := by
      intro hm
      have hx : rest.keys.contains k = true := List.elem_eq_true_of_mem hm
      rw [hwf1] at hx
      cases hx
    rw [conditional_merge_cons] at h
    cases p with
    | nil => cases h
    | cons j p' =>
      rcases hmid : lookupPath (mergeStep C k fv) (j :: p') with _ | w
      · have hres : lookupPath rest (j :: p') = some v :=
          conditional_merge_new rest (mergeStep C k fv) (j :: p') v hwf3 hmid h
        have hjk : j ≠ k := by
          intro hj
          subst hj
          have hsome : (rest.lookup j).isSome := by
            cases p' with
            | nil =>
              have : rest.lookup j = some v := hres
              simp [this]
            | cons q r =>
              rcases lookupPath_cons₂_cases hres with ⟨S, hS, -⟩
              simp [hS]
          exact hkmem ((lookup_isSome_iff rest j).1 hsome)
        rw [lookupPath_congr_head (show (Conf.cons k fv rest).lookup j = rest.lookup j from
          lookup_cons_ne fv rest (Ne.symm hjk)) p']
        exact hres
      · have hjk : j = k := by
          by_contra hjk
          rw [lookupPath_congr_head (mergeStep_lookup_ne fv hjk) p', h0] at hmid
          cases hmid
        subst hjk
        have hsur : lookupPath (conditional_merge (mergeStep C j fv) rest) (j :: p') =
            lookupPath (mergeStep C j fv) (j :: p') :=
          cm_path_preserved_not_key rest hkmem (mergeStep C j fv) p'
        rw [hsur, hmid] at h
        have hwv : w = v := by injection h
        subst hwv
        have hone : lookupPath (.cons j fv .nil) (j :: p') = some w :=
          mergeStep_new fv j C (j :: p') w hwf2 h0 hmid
        rw [lookupPath_congr_head (show (Conf.cons j fv rest).lookup j =
          (Conf.cons j fv Conf.nil).lookup j from by simp [Conf.lookup]) p']
        exact hone
end


/-- C2: the conditional merge never overwrites: every path holding a
non-section value in the existing tree holds the same value after the
merge, and every path the merge introduces (defined after, undefined
before) carries exactly the fragment's value at that path. -/
theorem conditional_merge_spec (C F : Conf) (hWF : confWF F = true) :
    (∀ p v, lookupPath C p = some v → (∀ S, v ≠ CVal.sect S) →
      lookupPath (conditional_merge C F) p = some v) ∧
    (∀ p v, lookupPath C p = none → lookupPath (conditional_merge C F) p = some v →
      lookupPath F p = some v) :=
  ⟨fun p v h hns => conditional_merge_pres F C p v h hns,
   fun p v h0 h => conditional_merge_new F C p v hWF h0 h⟩

/-- Witness for C2: an existing scalar survives a conflicting fragment,
and a genuinely new key comes from the fragment. -/
theorem conditional_merge_spec_witness :
    lookupPath
      (conditional_merge (.cons "A" (.leaf "1") .nil)
        (.cons "A" (.leaf "2") (.cons "B" (.leaf "3") .nil))) ["A"] = some (.leaf "1") ∧
    lookupPath (.cons "A" (.leaf "2") (.cons "B" (.leaf "3") .nil)) ["B"] =
      some (.leaf "3") := by
  constructor
  · exact (conditional_merge_spec (.cons "A" (.leaf "1") .nil)
      (.cons "A" (.leaf "2") (.cons "B" (.leaf "3") .nil)) (by decide)).1 ["A"] (.leaf "1")
      (by decide) (fun S h => CVal.noConfusion h)
  · exact (conditional_merge_spec (.cons "A" (.leaf "1") .nil)
      (.cons "A" (.leaf "2") (.cons "B" (.leaf "3") .nil)) (by decide)).2 ["B"] (.leaf "3")
      (by decide) (by decide)

/-- The destination path the copy and removal phases compute for one
manifest file under a resolved root. -/
def destOf (rootPath f : String) : Option String :=
  (strip_leading_dir f).map (fun d => pjoin rootPath d)

/-- Destination paths of one source tuple (empty unless the prefix
classifies). -/
def tupleDests (R : Roots) (tup : String × List String) : List String :=
  match classifySrc tup.1 with
  | .matched rt => tup.2.filterMap (destOf (R.get rt))
  | _ => []

/-- All destination paths the copy phase creates. -/
def instDests (R : Roots) (files : List (String × List String)) : List String :=
  (files.map (tupleDests R)).flatten

/-- The planned-copy log lines of one source tuple. -/
def copyLogsTuple (R : Roots) (ext_dir : String) (tup : String × List String) :
    List LogMsg :=
  match classifySrc tup.1 with
  | .matched rt => tup.2.filterMap (fun f =>
      (strip_leading_dir f).map (fun d =>
        LogMsg.copying (pjoin ext_dir f) (pjoin (R.get rt) d)))
  | _ => []

/-- The planned-copy log lines of the whole copy phase. -/
def copyLogs (R : Roots) (ext_dir : String) (files : List (String × List String)) :
    List LogMsg :=
  (files.map (copyLogsTuple R ext_dir)).flatten

/-- Set-insert a batch of paths. -/
def fsInsertAll (ps : List String) (fs : List String) : List String :=
  ps.foldl (fun a p => fsInsert p a) fs

/-- The file set after a copy run: unchanged in dry-run mode, extended by
the destination paths otherwise. -/
def fsIfWet (dry : Bool) (ps : List String) (fs : List String) : List String :=
  match dry with
  | true => fs
  | false => fsInsertAll ps fs

/-- Decidable well-formedness of a manifest's `files`: every prefix
classifies to a root and every file path has a directory component. -/
def filesOK (files : List (String × List String)) : Bool :=
  files.all (fun tup =>
    (match classifySrc tup.1 with
      | .matched _ => true
      | _ => false) &&
    tup.2.all (fun f => (strip_leading_dir f).isSome))

theorem plog_foldl_addingSection : ∀ (ks : List String) (r : RunSt),
    ks.foldl (fun rr k => rr.plog (.addingSection k)) r =
      ⟨r.st, r.logs ++ ks.map .addingSection⟩
  | [], r => by simp [RunSt.plog]
  | k :: ks, r => by
    rw [List.foldl_cons, plog_foldl_addingSection ks (r.plog (.addingSection k))]
    simp [RunSt.plog]

theorem fsInsertAll_append (ps qs : List String) (fs : List String) :
    fsInsertAll (ps ++ qs) fs = fsInsertAll qs (fsInsertAll ps fs) := by
  simp [fsInsertAll, List.foldl_append]

theorem copyFileFold_char (dry : Bool) (ext_dir rootPath : String) :
    ∀ (fls : List String) (r : RunSt) (n₀ : Nat),
    fls.all (fun f => (strip_leading_dir f).isSome) = true →
    ∃ n, fls.foldlM (installCopyFile dry ext_dir rootPath) (r, n₀) =
      .ok (⟨⟨fsIfWet dry (fls.filterMap (destOf rootPath)) r.st.fs,
        r.st.config, r.st.comments⟩,
        r.logs ++ fls.filterMap (fun f => (strip_leading_dir f).map (fun d =>
          LogMsg.copying (pjoin ext_dir f) (pjoin rootPath d)))⟩, n)
  | [], r, n₀, _ => by
    refine ⟨n₀, ?_⟩
    show Except.ok (r, n₀) = _
    cases dry <;> simp [fsIfWet, fsInsertAll]
  | f :: fls, r, n₀, hok => by
    have hf : (strip_leading_dir f).isSome = true := by
      have := (List.all_eq_true.1 hok) f (by simp)
      simpa using this
    rcases hs : strip_leading_dir f with _ | d
    · rw [hs] at hf; cases hf
    have hok' : fls.all (fun f => (strip_leading_dir f).isSome) = true := by
      rw [List.all_eq_true] at hok ⊢
      exact fun x hx => hok x (by simp [hx])
    cases dry with
    | true =>
      rcases copyFileFold_char true ext_dir rootPath fls
        ⟨r.st, r.logs ++ [.copying (pjoin ext_dir f) (pjoin rootPath d)]⟩ n₀ hok' with ⟨n, hrest⟩
      refine ⟨n, ?_⟩
      rw [List.foldlM_cons,
        show installCopyFile true ext_dir rootPath (r, n₀) f =
          .ok (⟨r.st, r.logs ++ [.copying (pjoin ext_dir f) (pjoin rootPath d)]⟩, n₀) from by
            simp [installCopyFile, hs, RunSt.plog]]
      show List.foldlM _ _ fls = _
      rw [hrest]
      simp [hs, destOf, Option.map_some', fsIfWet]
    | false =>
      rcases copyFileFold_char false ext_dir rootPath fls
        ⟨{ r.st with fs := fsInsert (pjoin rootPath d) r.st.fs },
          r.logs ++ [.copying (pjoin ext_dir f) (pjoin rootPath d)]⟩ (n₀ + 1) hok' with ⟨n, hrest⟩
      refine ⟨n, ?_⟩
      rw [List.foldlM_cons,
        show installCopyFile false ext_dir rootPath (r, n₀) f =
          .ok (⟨{ r.st with fs := fsInsert (pjoin rootPath d) r.st.fs },
            r.logs ++ [.copying (pjoin ext_dir f) (pjoin rootPath d)]⟩, n₀ + 1) from by
            simp [installCopyFile, hs, RunSt.plog]]
      show List.foldlM _ _ fls = _
      rw [hrest]
      simp only [List.filterMap_cons, destOf, hs, Option.map_some', fsIfWet]
      simp [fsInsertAll, List.append_assoc]

theorem ok_bind {ε α β : Type} (a : α) (f : α → Except ε β) :
    (Except.ok a : Except ε α) >>= f = f a := rfl

theorem filesOK_head {tup : String × List String} {files : List (String × List String)}
    (h : filesOK (tup :: files) = true) :
    (∃ rt, classifySrc tup.1 = .matched rt) ∧
    tup.2.all (fun f => (strip_leading_dir f).isSome) = true ∧ filesOK files = true := by
  rw [filesOK, List.all_cons, Bool.and_eq_true_iff] at h
  rcases h with ⟨h1, h2⟩
  rcases Bool.and_eq_true_iff.1 h1 with ⟨hm, hs⟩
  refine ⟨?_, hs, h2⟩
  rcases hcl : classifySrc tup.1 with rt | t
  · exact ⟨rt, rfl⟩
  · rw [hcl] at hm; cases hm
  · rw [hcl] at hm; cases hm

theorem fsIfWet_comp (dry : Bool) (ps qs fs : List String) :
    fsIfWet dry qs (fsIfWet dry ps fs) = fsIfWet dry (ps ++ qs) fs := by
  cases dry <;> simp [fsIfWet, fsInsertAll_append]

theorem copyFold_char (R : Roots) (dry : Bool) (ext_dir : String) :
    ∀ (files : List (String × List String)) (r : RunSt) (n₀ : Nat),
    filesOK files = true →
    ∃ n, files.foldlM (installCopyTuple R dry ext_dir) (r, n₀) =
      .ok (⟨⟨fsIfWet dry (instDests R files) r.st.fs,
        r.st.config, r.st.comments⟩, r.logs ++ copyLogs R ext_dir files⟩, n)
  | [], r, n₀, _ => by
    refine ⟨n₀, ?_⟩
    show Except.ok (r, n₀) = _
    cases dry <;> simp [fsIfWet, fsInsertAll, instDests, copyLogs]
  | tup :: files, r, n₀, hok => by
    rcases filesOK_head hok with ⟨⟨rt, hcl⟩, hstr, hok'⟩
    rcases copyFileFold_char dry ext_dir (R.get rt) tup.2 r n₀ hstr with ⟨n1, hf⟩
    have hdests : instDests R (tup :: files) =
        tup.2.filterMap (destOf (R.get rt)) ++ instDests R files := by
      simp [instDests, tupleDests, hcl]
    have hlogs : copyLogs R ext_dir (tup :: files) =
        tup.2.filterMap (fun f => (strip_leading_dir f).map (fun d =>
          LogMsg.copying (pjoin ext_dir f) (pjoin (R.get rt) d))) ++
        copyLogs R ext_dir files := by
      simp [copyLogs, copyLogsTuple, hcl]
    rcases copyFold_char R dry ext_dir files
      ⟨⟨fsIfWet dry (tup.2.filterMap (destOf (R.get rt))) r.st.fs, r.st.config,
        r.st.comments⟩,
        r.logs ++ tup.2.filterMap (fun f => (strip_leading_dir f).map (fun d =>
          LogMsg.copying (pjoin ext_dir f) (pjoin (R.get rt) d)))⟩ n1 hok' with ⟨n, hrest⟩
    refine ⟨n, ?_⟩
    rw [List.foldlM_cons,
      show installCopyTuple R dry ext_dir (r, n₀) tup =
        tup.2.foldlM (installCopyFile dry ext_dir (R.get rt)) (r, n₀) from by
          simp [installCopyTuple, hcl],
      hf, ok_bind]
    show List.foldlM _ _ files = _
    rw [hrest]
    simp [hdests, hlogs, fsIfWet_comp, List.append_assoc]

theorem installCopyPhase_char (R : Roots) (dry : Bool) (ext_dir : String)
    (files : List (String × List String)) (r : RunSt) (h : filesOK files = true) :
    ∃ n, installCopyPhase R dry ext_dir files r =
      .ok ⟨⟨fsIfWet dry (instDests R files) r.st.fs,
        r.st.config, r.st.comments⟩,
        r.logs ++ [.copyingNewFiles] ++ copyLogs R ext_dir files ++ [.copiedCount n]⟩ := by
  rcases copyFold_char R dry ext_dir files (r.plog .copyingNewFiles) 0 h with ⟨n, hf⟩
  refine ⟨n, ?_⟩
  unfold installCopyPhase
  rw [hf]
  simp [RunSt.plog, Except.map, List.append_assoc]

/-- The massaged working copy of the fragment (HTML-root prepending, then
database massaging). -/
def massagedFrag (C : Conf) (html : String) (frag : Conf) : Conf :=
  massage_db C (prependC "HTML_ROOT" html frag)

/-- The new top-level section names the merge will introduce. -/
def newTops (C cfg : Conf) : List String :=
  cfg.keys.filter (fun k => (C.lookup k).isNone)

/-- The configuration tree after the merge phase: untouched in dry-run
mode. -/
def cfgIfWet (dry : Bool) (C cfg : Conf) : Conf :=
  match dry with
  | true => C
  | false => conditional_merge C cfg

/-- The comment table after the merge phase. -/
def cmtsIfWet (dry : Bool) (name : String) (tops : List String)
    (cm : List (String × String)) : List (String × String) :=
  match dry with
  | true => cm
  | false => tops.foldl (fun c k => commentsUpdate c k name) cm

theorem installConfigPhase_none (dry : Bool) (name : String) (r : RunSt) :
    installConfigPhase dry name none r = .ok (r, false) := rfl

theorem installConfigPhase_char (dry : Bool) (name : String) (frag : Conf) (r : RunSt)
    (html : String)
    (hhtml : lookupPath r.st.config ["StdReport", "HTML_ROOT"] = some (.leaf html)) :
    installConfigPhase dry name (some frag) r =
      .ok (⟨⟨r.st.fs, cfgIfWet dry r.st.config (massagedFrag r.st.config html frag),
        cmtsIfWet dry name (newTops r.st.config (massagedFrag r.st.config html frag))
          r.st.comments⟩,
        r.logs ++ [.addingSections] ++
          (newTops r.st.config (massagedFrag r.st.config html frag)).map .addingSection ++
          [.mergedSettings]⟩, !dry) := by
  have hhtml' : lookupPath (r.plog .addingSections).st.config ["StdReport", "HTML_ROOT"] =
      some (.leaf html) := hhtml
  have hfold : ∀ (ks : List String) (rr : RunSt),
      ks.foldl (fun rr k =>
        ({ st := rr.st, logs := rr.logs ++ [LogMsg.addingSection k] } : RunSt)) rr =
        ⟨rr.st, rr.logs ++ ks.map .addingSection⟩ := fun ks rr =>
    plog_foldl_addingSection ks rr
  simp only [installConfigPhase]
  rw [hhtml']
  cases dry <;>
    simp [plog_foldl_addingSection, hfold, massagedFrag, newTops, cfgIfWet, cmtsIfWet,
      RunSt.plog, List.append_assoc]

/-- The identifiers the registration loop appends: declared identifiers
not in the list, in order, deduplicated against the growing list. -/
def svcNew (lst : List String) : List String → List String
  | [] => []
  | s :: rest => if s ∈ lst then svcNew lst rest else s :: svcNew (lst ++ [s]) rest

/-- Write a pipeline-group list into the configuration (total wrapper
around `updatePath`, used only where the path is known to exist). -/
def applySvcUpd (C : Conf) (grp : String) (l : List String) : Conf :=
  (updatePath C ["Engine", "Services", grp] (.vlist l)).getD C

/-- The configuration after the registration loop for one group: written
back only when something was appended. -/
def svcConfAfter (C : Conf) (grp : String) (lst svcs : List String) : Conf :=
  match svcNew lst svcs with
  | [] => C
  | _ => applySvcUpd C grp (lst ++ svcNew lst svcs)

theorem applySvcUpd_eq {C : Conf} {grp : String} {v0 : CVal}
    (h : lookupPath C ["Engine", "Services", grp] = some v0) (l : List String) :
    updatePath C ["Engine", "Services", grp] (.vlist l) = some (applySvcUpd C grp l) ∧
    lookupPath (applySvcUpd C grp l) ["Engine", "Services", grp] = some (.vlist l) ∧
    (∀ g', g' ≠ grp → lookupPath (applySvcUpd C grp l) ["Engine", "Services", g'] =
      lookupPath C ["Engine", "Services", g']) := by
  obtain ⟨C', h1, h2, h3⟩ := updatePath3_some_of_lookup h (.vlist l)
  have he : applySvcUpd C grp l = C' := by simp [applySvcUpd, h1]
  exact ⟨by rw [he]; exact h1, by rw [he]; exact h2, fun g' hg => by rw [he]; exact h3 g' hg⟩

theorem applySvcUpd_collapse {C : Conf} {grp : String} {v0 : CVal}
    (h : lookupPath C ["Engine", "Services", grp] = some v0) (l1 l2 : List String) :
    applySvcUpd (applySvcUpd C grp l1) grp l2 = applySvcUpd C grp l2 := by
  rcases lookupPath3_cases h with ⟨E, S, hE, hS, hk⟩
  have h1 : applySvcUpd C grp l1 =
      C.update "Engine" (.sect (E.update "Services" (.sect (S.update grp (.vlist l1))))) := by
    simp [applySvcUpd, updatePath3_of_sects C grp _ hE hS]
  have h2 : applySvcUpd C grp l2 =
      C.update "Engine" (.sect (E.update "Services" (.sect (S.update grp (.vlist l2))))) := by
    simp [applySvcUpd, updatePath3_of_sects C grp _ hE hS]
  have hE' : (applySvcUpd C grp l1).lookup "Engine" =
      some (.sect (E.update "Services" (.sect (S.update grp (.vlist l1))))) := by
    rw [h1, lookup_update]
    simp
  have hS' : (E.update "Services" (.sect (S.update grp (.vlist l1)))).lookup "Services" =
      some (.sect (S.update grp (.vlist l1))) := by
    rw [lookup_update]
    simp
  have h3 : applySvcUpd (applySvcUpd C grp l1) grp l2 =
      (updatePath (applySvcUpd C grp l1) ["Engine", "Services", grp] (.vlist l2)).getD
        (applySvcUpd C grp l1) := rfl
  rw [h3, updatePath3_of_sects _ grp _ hE' hS', Option.getD_some, h1, h2,
    update_update_self, update_update_self, update_update_self]

theorem svcConfAfter_lookup_ne {C : Conf} {grp : String} {v0 : CVal}
    (h : lookupPath C ["Engine", "Services", grp] = some v0) (lst svcs : List String)
    {g' : String} (hg : g' ≠ grp) :
    lookupPath (svcConfAfter C grp lst svcs) ["Engine", "Services", g'] =
      lookupPath C ["Engine", "Services", g'] := by
  unfold svcConfAfter
  cases svcNew lst svcs with
  | nil => rfl
  | cons a l => exact (applySvcUpd_eq h _).2.2 g' hg

theorem svcConfAfter_lookup_self {C : Conf} {grp : String} {lst : List String}
    (h : lookupPath C ["Engine", "Services", grp] = some (.vlist lst)) (svcs : List String) :
    lookupPath (svcConfAfter C grp lst svcs) ["Engine", "Services", grp] =
      some (.vlist (lst ++ svcNew lst svcs)) := by
  unfold svcConfAfter
  rcases hsn : svcNew lst svcs with _ | ⟨a, l⟩
  · simpa using h
  · show lookupPath (applySvcUpd C grp (lst ++ a :: l)) _ = _
    exact (applySvcUpd_eq h (lst ++ a :: l)).2.1

theorem svcConfAfter_step {C : Conf} {grp : String} {v0 : CVal}
    (h : lookupPath C ["Engine", "Services", grp] = some v0) {s : String}
    {lst : List String} (hs : s ∉ lst) (rest : List String) :
    svcConfAfter (applySvcUpd C grp (lst ++ [s])) grp (lst ++ [s]) rest =
      svcConfAfter C grp lst (s :: rest) := by
  have hns : svcNew lst (s :: rest) = s :: svcNew (lst ++ [s]) rest := by
    simp [svcNew, hs]
  rcases hsn : svcNew (lst ++ [s]) rest with _ | ⟨a, l⟩
  · unfold svcConfAfter
    rw [hsn, hns, hsn]
  · unfold svcConfAfter
    rw [hsn, hns, hsn]
    show applySvcUpd (applySvcUpd C grp (lst ++ [s])) grp ((lst ++ [s]) ++ a :: l) = _
    rw [applySvcUpd_collapse h]
    simp

theorem svcFold_wet_char (grp : String) :
    ∀ (svcs : List String) (r : RunSt) (flag : Bool) (lst : List String) (v0 : CVal),
    lookupPath r.st.config ["Engine", "Services", grp] = some v0 →
    svcs.foldlM (installSvcStep false grp) (r, flag, lst) =
      .ok (⟨⟨r.st.fs, svcConfAfter r.st.config grp lst svcs, r.st.comments⟩,
        r.logs ++ (svcNew lst svcs).map (fun s => LogMsg.addedService s grp)⟩,
        flag || !(svcNew lst svcs).isEmpty, lst ++ svcNew lst svcs)
  | [], r, flag, lst, v0, h => by
    show Except.ok (r, flag, lst) = _
    simp [svcConfAfter, svcNew]
  | s :: rest, r, flag, lst, v0, h => by
    by_cases hs : s ∈ lst
    · have hc : lst.contains s = true := List.elem_eq_true_of_mem hs
      rw [List.foldlM_cons,
        show installSvcStep false grp (r, flag, lst) s = .ok (r, flag, lst) from by
          simp only [installSvcStep, hc]
          rfl, ok_bind, svcFold_wet_char grp rest r flag lst v0 h]
      simp [svcNew, svcConfAfter, hs]
    · have hc : lst.contains s = false := by
        rcases hcc : lst.contains s with _ | _
        · rfl
        · exact absurd (List.mem_of_elem_eq_true hcc) hs
      have hup := applySvcUpd_eq h (lst ++ [s])
      have hstep : installSvcStep false grp (r, flag, lst) s =
          .ok (⟨⟨r.st.fs, applySvcUpd r.st.config grp (lst ++ [s]), r.st.comments⟩,
            r.logs ++ [.addedService s grp]⟩, true, lst ++ [s]) := by
        simp only [installSvcStep, hc, Bool.false_eq_true, if_false, hup.1]
        rfl
      have hrest := svcFold_wet_char grp rest
        ⟨⟨r.st.fs, applySvcUpd r.st.config grp (lst ++ [s]), r.st.comments⟩,
          r.logs ++ [LogMsg.addedService s grp]⟩ true (lst ++ [s]) (.vlist (lst ++ [s]))
        hup.2.1
      rw [List.foldlM_cons, hstep, ok_bind, hrest]
      rw [svcConfAfter_step h hs rest]
      have hns : svcNew lst (s :: rest) = s :: svcNew (lst ++ [s]) rest := by
        simp [svcNew, hs]
      simp [hns, List.append_assoc]

theorem svcFold_dry_char (grp : String) :
    ∀ (svcs : List String) (r : RunSt) (flag : Bool) (lst : List String),
    svcs.foldlM (installSvcStep true grp) (r, flag, lst) =
      .ok (⟨r.st, r.logs ++ (svcs.filter (fun s => ¬ lst.contains s)).map
        (fun s => LogMsg.addedService s grp)⟩, flag, lst)
  | [], r, flag, lst => by
    show Except.ok (r, flag, lst) = _
    simp
  | s :: rest, r, flag, lst => by
    by_cases hs : s ∈ lst
    · have hc : lst.contains s = true := List.elem_eq_true_of_mem hs
      rw [List.foldlM_cons,
        show installSvcStep true grp (r, flag, lst) s = .ok (r, flag, lst) from by
          simp only [installSvcStep, hc]
          rfl, ok_bind, svcFold_dry_char grp rest r flag lst]
      simp [List.filter_cons, hs]
    · have hc : lst.contains s = false := by
        rcases hcc : lst.contains s with _ | _
        · rfl
        · exact absurd (List.mem_of_elem_eq_true hcc) hs
      rw [List.foldlM_cons,
        show installSvcStep true grp (r, flag, lst) s =
            .ok (r.plog (.addedService s grp), flag, lst) from by
          simp only [installSvcStep, hc]
          rfl, ok_bind,
        svcFold_dry_char grp rest (r.plog (.addedService s grp)) flag lst]
      simp [List.filter_cons, hs, RunSt.plog, List.append_assoc]

theorem svcNew_eq_filter : ∀ (svcs lst : List String), svcs.Nodup →
    svcNew lst svcs = svcs.filter (fun s => ¬ lst.contains s)
  | [], _, _ => rfl
  | s :: rest, lst, hnd => by
    have hs : s ∉ rest := (List.nodup_cons.1 hnd).1
    have hnd' : rest.Nodup := (List.nodup_cons.1 hnd).2
    by_cases hm : s ∈ lst
    · have hc : lst.contains s = true := List.elem_eq_true_of_mem hm
      simp only [svcNew, if_pos hm, List.filter_cons, hc]
      simp [svcNew_eq_filter rest lst hnd']
    · have hc : lst.contains s = false := by
        rcases hcc : lst.contains s with _ | _
        · rfl
        · exact absurd (List.mem_of_elem_eq_true hcc) hm
      simp only [svcNew, if_neg hm, List.filter_cons, hc]
      rw [svcNew_eq_filter rest (lst ++ [s]) hnd']
      simp only [decide_not]
      congr 1
      apply List.filter_congr
      intro x hx
      have hxs : x ≠ s := fun he => hs (he ▸ hx)
      simp [List.mem_append, hxs]

theorem err_bind {ε α β : Type} (e : ε) (f : α → Except ε β) :
    (Except.error e : Except ε α) >>= f = Except.error e := rfl

theorem map_ok {ε α β : Type} (f : α → β) (a : α) :
    Except.map f (.ok a : Except ε α) = .ok (f a) := rfl

theorem map_err {ε α β : Type} (f : α → β) (e : ε) :
    Except.map f (.error e : Except ε α) = .error e := rfl

theorem copyFileFold_dry_st (ext_dir rootPath : String) :
    ∀ (fls : List String) (r0 : RunSt) (n0 : Nat) (r' : RunSt) (n' : Nat),
    fls.foldlM (installCopyFile true ext_dir rootPath) (r0, n0) = .ok (r', n') →
    r'.st = r0.st
  | [], r0, n0, r', n', h => by
    simp only [List.foldlM_nil] at h
    cases h
    rfl
  | f :: fls, r0, n0, r', n', h => by
    rw [List.foldlM_cons] at h
    rcases hs : strip_leading_dir f with _ | d
    · rw [show installCopyFile true ext_dir rootPath (r0, n0) f = .error .typeError from by
        simp [installCopyFile, hs], err_bind] at h
      cases h
    · rw [show installCopyFile true ext_dir rootPath (r0, n0) f =
          .ok (r0.plog (.copying (pjoin ext_dir f) (pjoin rootPath d)), n0) from by
        simp [installCopyFile, hs], ok_bind] at h
      exact copyFileFold_dry_st ext_dir rootPath fls
        (r0.plog (.copying (pjoin ext_dir f) (pjoin rootPath d))) n0 r' n' h

theorem copyTupleFold_dry_st (R : Roots) (ext_dir : String) :
    ∀ (files : List (String × List String)) (r0 : RunSt) (n0 : Nat) (r' : RunSt) (n' : Nat),
    files.foldlM (installCopyTuple R true ext_dir) (r0, n0) = .ok (r', n') →
    r'.st = r0.st
  | [], r0, n0, r', n', h => by
    simp only [List.foldlM_nil] at h
    cases h
    rfl
  | tup :: files, r0, n0, r', n', h => by
    rw [List.foldlM_cons] at h
    rcases hcl : classifySrc tup.1 with rt | t
    · rw [show installCopyTuple R true ext_dir (r0, n0) tup =
          tup.2.foldlM (installCopyFile true ext_dir (R.get rt)) (r0, n0) from by
        simp [installCopyTuple, hcl]] at h
      rcases hmid : tup.2.foldlM (installCopyFile true ext_dir (R.get rt)) (r0, n0)
        with e | ⟨r1, n1⟩
      · rw [hmid, err_bind] at h
        cases h
      · rw [hmid, ok_bind] at h
        exact (copyTupleFold_dry_st R ext_dir files r1 n1 r' n' h).trans
          (copyFileFold_dry_st ext_dir (R.get rt) tup.2 r0 n0 r1 n1 hmid)
    · rw [show installCopyTuple R true ext_dir (r0, n0) tup = .error (.keyError t) from by
        simp [installCopyTuple, hcl], err_bind] at h
      cases h
    · rw [show installCopyTuple R true ext_dir (r0, n0) tup =
          .error (.exit ("Unknown destination for file " ++ tup.1)) from by
        simp [installCopyTuple, hcl], err_bind] at h
      cases h

theorem installCopyPhase_dry_st (R : Roots) (ext_dir : String)
    (files : List (String × List String)) (r r' : RunSt)
    (h : installCopyPhase R true ext_dir files r = .ok r') : r'.st = r.st := by
  unfold installCopyPhase at h
  rcases hmid : files.foldlM (installCopyTuple R true ext_dir) (r.plog .copyingNewFiles, 0)
    with e | ⟨r1, n1⟩
  · rw [hmid, map_err] at h
    cases h
  · rw [hmid, map_ok] at h
    cases h
    exact copyTupleFold_dry_st R ext_dir files (r.plog .copyingNewFiles) 0 r1 n1 hmid

theorem installConfigPhase_dry_st (name : String) (frag? : Option Conf) (r : RunSt)
    (r' : RunSt) (b : Bool)
    (h : installConfigPhase true name frag? r = .ok (r', b)) : r'.st = r.st := by
  cases frag? with
  | none =>
    rw [installConfigPhase_none] at h
    cases h
    rfl
  | some frag =>
    rcases hlk : lookupPath r.st.config ["StdReport", "HTML_ROOT"] with _ | v
    · simp only [installConfigPhase, RunSt.plog] at h
      rw [hlk] at h
      cases h
    · cases v with
      | leaf html =>
        rw [installConfigPhase_char true name frag r html hlk] at h
        cases h
        rfl
      | vlist l =>
        simp only [installConfigPhase, RunSt.plog] at h
        rw [hlk] at h
        cases h
      | sect S =>
        simp only [installConfigPhase, RunSt.plog] at h
        rw [hlk] at h
        cases h

theorem installSvcGroup_dry_st (services : List (String × SVal)) (r : RunSt) (flag : Bool)
    (grp : String) (r' : RunSt) (b : Bool)
    (h : installSvcGroup true services (r, flag) grp = .ok (r', b)) : r'.st = r.st := by
  rcases hlk : services.lookup grp with _ | v
  · simp only [installSvcGroup, hlk] at h
    cases h
    rfl
  · rcases hlp : lookupPath r.st.config ["Engine", "Services", grp] with _ | cv
    · simp only [installSvcGroup, hlk, hlp] at h
      cases h
    · rcases hcl : cval_as_list cv with _ | lst
      · simp only [installSvcGroup, hlk, hlp, hcl] at h
        cases h
      · simp only [installSvcGroup, hlk, hlp, hcl,
          svcFold_dry_char grp (option_as_list v) r flag lst, map_ok] at h
        cases h
        rfl

theorem svcGroupsFold_dry_st (services : List (String × SVal)) :
    ∀ (groups : List String) (r : RunSt) (flag : Bool) (r' : RunSt) (b : Bool),
    groups.foldlM (installSvcGroup true services) (r, flag) = .ok (r', b) → r'.st = r.st
  | [], r, flag, r', b, h => by
    simp only [List.foldlM_nil] at h
    cases h
    rfl
  | g :: gs, r, flag, r', b, h => by
    rw [List.foldlM_cons] at h
    rcases hmid : installSvcGroup true services (r, flag) g with e | ⟨r1, b1⟩
    · rw [hmid, err_bind] at h
      cases h
    · rw [hmid, ok_bind] at h
      exact (svcGroupsFold_dry_st services gs r1 b1 r' b h).trans
        (installSvcGroup_dry_st services r flag g r1 b1 hmid)

theorem installSaveInstaller_dry (R : Roots) (name : String) (r : RunSt) :
    installSaveInstaller R true name r = r.plog (.savingInstaller (pjoin R.ext_root name)) :=
  rfl

theorem install_dry_noop (R : Roots) (groups : List String) (inst : Installer)
    (ext_dir : String) (st : SysState) (r : RunSt)
    (h : install_from_dir R groups true inst ext_dir st = .ok r) : r.st = st := by
  unfold install_from_dir at h
  rcases h1 : installCopyPhase R true ext_dir inst.files
      ((RunSt.plog ⟨st, []⟩ (.requestInstallDir ext_dir)).plog (.foundExtension inst.name))
    with e | r1
  · rw [h1, err_bind] at h
    cases h
  · rw [h1, ok_bind] at h
    have hst1 : r1.st = st := installCopyPhase_dry_st R ext_dir inst.files _ r1 h1
    rcases h2 : installConfigPhase true inst.name inst.config r1 with e | ⟨r2, b2⟩
    · rw [h2, err_bind] at h
      cases h
    · rw [h2, ok_bind] at h
      have hst2 : r2.st = r1.st := installConfigPhase_dry_st inst.name inst.config r1 r2 b2 h2
      rcases h3 : groups.foldlM (installSvcGroup true inst.services)
          (r2.plog .addingServices, b2) with e | ⟨r3, b3⟩
      · rw [h3, err_bind] at h
        cases h
      · rw [h3, ok_bind] at h
        have hst3 : r3.st = r2.st :=
          svcGroupsFold_dry_st inst.services groups (r2.plog .addingServices) b2 r3 b3 h3
        have hr : r = (if b3 then (installSaveInstaller R true inst.name r3).plog .savedBackup
            else installSaveInstaller R true inst.name r3) := by
          cases h
          rfl
        cases b3 with
        | true =>
          rw [if_pos rfl] at hr
          rw [hr]
          show r3.st = st
          rw [hst3, hst2, hst1]
        | false =>
          rw [if_neg (by simp)] at hr
          rw [hr]
          show r3.st = st
          rw [hst3, hst2, hst1]

theorem delete_file_dry (rep : Bool) (r : RunSt) (f : String) :
    delete_file true rep r f = (r.plog (.deletingFile f), 0) := rfl

theorem delete_directory_st (b : Bool) (r : RunSt) (d : String) :
    (delete_directory b r d).st = r.st := by
  unfold delete_directory
  split <;> rfl

theorem uninstallFileOne_dry_st (rootPath : String) (r0 : RunSt) (n0 : Nat) (f : String)
    (r' : RunSt) (n' : Nat)
    (h : uninstallFileOne true rootPath (r0, n0) f = .ok (r', n')) : r'.st = r0.st := by
  rcases hs : strip_leading_dir f with _ | d
  · simp only [uninstallFileOne, hs] at h
    cases h
  · simp only [uninstallFileOne, hs, delete_file_dry] at h
    split at h <;> (cases h; rfl)

theorem uninstallFileFold_dry_st (rootPath : String) :
    ∀ (fls : List String) (r0 : RunSt) (n0 : Nat) (r' : RunSt) (n' : Nat),
    fls.foldlM (uninstallFileOne true rootPath) (r0, n0) = .ok (r', n') → r'.st = r0.st
  | [], r0, n0, r', n', h => by
    simp only [List.foldlM_nil] at h
    cases h
    rfl
  | f :: fls, r0, n0, r', n', h => by
    rw [List.foldlM_cons] at h
    rcases hmid : uninstallFileOne true rootPath (r0, n0) f with e | ⟨r1, n1⟩
    · rw [hmid, err_bind] at h
      cases h
    · rw [hmid, ok_bind] at h
      exact (uninstallFileFold_dry_st rootPath fls r1 n1 r' n' h).trans
        (uninstallFileOne_dry_st rootPath r0 n0 f r1 n1 hmid)

theorem uninstallTupleFold_dry_st (R : Roots) :
    ∀ (files : List (String × List String)) (r0 : RunSt) (n0 : Nat) (r' : RunSt) (n' : Nat),
    files.foldlM (uninstallFilesTuple R true) (r0, n0) = .ok (r', n') → r'.st = r0.st
  | [], r0, n0, r', n', h => by
    simp only [List.foldlM_nil] at h
    cases h
    rfl
  | tup :: files, r0, n0, r', n', h => by
    rw [List.foldlM_cons] at h
    rcases hmid : uninstallFilesTuple R true (r0, n0) tup with e | ⟨r1, n1⟩
    · rw [hmid, err_bind] at h
      cases h
    · rw [hmid, ok_bind] at h
      refine (uninstallTupleFold_dry_st R files r1 n1 r' n' h).trans ?_
      rcases hcl : classifySrc tup.1 with rt | t
      · rcases hf : tup.2.foldlM (uninstallFileOne true (R.get rt)) (r0, n0) with e | ⟨r2, n2⟩
        · rw [show uninstallFilesTuple R true (r0, n0) tup = .error e from by
            simp [uninstallFilesTuple, hcl, hf, err_bind]] at hmid
          cases hmid
        · have h2 : r2.st = r0.st := uninstallFileFold_dry_st (R.get rt) tup.2 r0 n0 r2 n2 hf
          by_cases hrt : rt = "SKIN_ROOT"
          · subst hrt
            rcases hsd : strip_leading_dir tup.1 with _ | dd
            · rw [show uninstallFilesTuple R true (r0, n0) tup = .error .typeError from by
                simp [uninstallFilesTuple, hcl, hf, hsd, ok_bind]] at hmid
              cases hmid
            · rw [show uninstallFilesTuple R true (r0, n0) tup =
                  .ok (delete_directory true r2 (pjoin R.skin_root dd), n2) from by
                simp [uninstallFilesTuple, hcl, hf, hsd, ok_bind]] at hmid
              cases hmid
              exact (delete_directory_st true r2 (pjoin R.skin_root dd)).trans h2
          · rw [show uninstallFilesTuple R true (r0, n0) tup = .ok (r2, n2) from by
              simp [uninstallFilesTuple, hcl, hf, hrt, ok_bind]] at hmid
            cases hmid
            exact h2
      · rw [show uninstallFilesTuple R true (r0, n0) tup = .error (.keyError t) from by
          simp [uninstallFilesTuple, hcl]] at hmid
        cases hmid
      · rw [show uninstallFilesTuple R true (r0, n0) tup =
            .error (.exit ("Unknown destination for file " ++ tup.1)) from by
          simp [uninstallFilesTuple, hcl]] at hmid
        cases hmid

theorem uninstall_files_dry_st (R : Roots) (files : List (String × List String))
    (r r' : RunSt) (h : uninstall_files R true files r = .ok r') : r'.st = r.st := by
  unfold uninstall_files at h
  rcases hmid : files.foldlM (uninstallFilesTuple R true) (r.plog .removingFiles, 0)
    with e | ⟨r1, n1⟩
  · rw [hmid, map_err] at h
    cases h
  · rw [hmid, map_ok] at h
    cases h
    exact uninstallTupleFold_dry_st R files (r.plog .removingFiles) 0 r1 n1 hmid

theorem uninstallSvcGroup_dry_acc (services : List (String × SVal)) (r : RunSt)
    (flag : Bool) (grp : String) (r' : RunSt) (b : Bool)
    (h : uninstallSvcGroup true services (r, flag) grp = .ok (r', b)) :
    r' = r ∧ b = flag := by
  rcases hlk : services.lookup grp with _ | v
  · simp only [uninstallSvcGroup, hlk] at h
    cases h
    exact ⟨rfl, rfl⟩
  · rcases hlp : lookupPath r.st.config ["Engine", "Services", grp] with _ | cv
    · simp only [uninstallSvcGroup, hlk, hlp] at h
      cases h
    · simp only [uninstallSvcGroup, hlk, hlp] at h
      cases h
      exact ⟨rfl, rfl⟩

theorem uninstallSvcFold_dry_acc (services : List (String × SVal)) :
    ∀ (groups : List String) (r : RunSt) (flag : Bool) (r' : RunSt) (b : Bool),
    groups.foldlM (uninstallSvcGroup true services) (r, flag) = .ok (r', b) →
    r' = r ∧ b = flag
  | [], r, flag, r', b, h => by
    simp only [List.foldlM_nil] at h
    cases h
    exact ⟨rfl, rfl⟩
  | g :: gs, r, flag, r', b, h => by
    rw [List.foldlM_cons] at h
    rcases hmid : uninstallSvcGroup true services (r, flag) g with e | ⟨r1, b1⟩
    · rw [hmid, err_bind] at h
      cases h
    · rw [hmid, ok_bind] at h
      rcases uninstallSvcGroup_dry_acc services r flag g r1 b1 hmid with ⟨he1, he2⟩
      rcases uninstallSvcFold_dry_acc services gs r1 b1 r' b h with ⟨he3, he4⟩
      exact ⟨he3.trans he1, he4.trans he2⟩

theorem uninstallFinish_dry (R : Roots) (inst : Installer) (r : RunSt) :
    uninstallFinish R true inst r = r.plog (.finishedRemove inst.name) := by
  unfold uninstallFinish
  cases inst.config <;> rfl

theorem uninstall_dry_noop (R : Roots) (groups : List String) (inst : Installer)
    (st : SysState) (r : RunSt)
    (h : uninstall_extension R groups true inst st = .ok r) : r.st = st := by
  unfold uninstall_extension at h
  rcases h1 : uninstall_files R true inst.files ⟨st, [.requestRemove inst.name]⟩ with e | r1
  · rw [h1, err_bind] at h
    cases h
  · rw [h1, ok_bind] at h
    have hst1 : r1.st = st := uninstall_files_dry_st R inst.files _ r1 h1
    rcases h2 : groups.foldlM (uninstallSvcGroup true inst.services) (r1, false)
      with e | ⟨r2, b2⟩
    · rw [h2, err_bind] at h
      cases h
    · rw [h2, ok_bind] at h
      rcases uninstallSvcFold_dry_acc inst.services groups r1 false r2 b2 h2 with ⟨he, _⟩
      have hr : r = uninstallFinish R true inst r2 := by
        cases h
        rfl
      rw [hr, uninstallFinish_dry]
      show r2.st = st
      rw [he, hst1]

/-- The list registered for a pipeline group, as the registration loop
reads it. -/
def svcGrpList (C : Conf) (grp : String) : List String :=
  match lookupPath C ["Engine", "Services", grp] with
  | some cv => (cval_as_list cv).getD []
  | none => []

/-- Whether the registration loop's reads succeed for one group. -/
def svcGroupOK (services : List (String × SVal)) (C : Conf) (grp : String) : Bool :=
  match services.lookup grp with
  | none => true
  | some _ =>
    match lookupPath C ["Engine", "Services", grp] with
    | none => false
    | some cv => (cval_as_list cv).isSome

/-- The configuration after one group of the non-dry-run registration
loop. -/
def svcStepW (services : List (String × SVal)) (C : Conf) (grp : String) : Conf :=
  match services.lookup grp with
  | none => C
  | some v => svcConfAfter C grp (svcGrpList C grp) (option_as_list v)

/-- The log lines of one group of the non-dry-run registration loop. -/
def svcLogsStepW (services : List (String × SVal)) (C : Conf) (grp : String) :
    List LogMsg :=
  match services.lookup grp with
  | none => []
  | some v => (svcNew (svcGrpList C grp) (option_as_list v)).map
      (fun s => LogMsg.addedService s grp)

/-- Configuration and log lines of the whole non-dry-run registration
loop. -/
def svcFoldW (services : List (String × SVal)) : List String → Conf → Conf × List LogMsg
  | [], C => (C, [])
  | g :: gs, C =>
    let p := svcFoldW services gs (svcStepW services C g)
    (p.1, svcLogsStepW services C g ++ p.2)

/-- All reads of the non-dry-run registration loop succeed along the
run. -/
def svcAllOKW (services : List (String × SVal)) : List String → Conf → Bool
  | [], _ => true
  | g :: gs, C => svcGroupOK services C g && svcAllOKW services gs (svcStepW services C g)

/-- The log lines of one group of the dry-run registration loop. -/
def svcLogsStepD (services : List (String × SVal)) (C : Conf) (grp : String) :
    List LogMsg :=
  match services.lookup grp with
  | none => []
  | some v => ((option_as_list v).filter (fun s => ¬ (svcGrpList C grp).contains s)).map
      (fun s => LogMsg.addedService s grp)

/-- The log lines of the whole dry-run registration loop (the configuration
is never written back). -/
def svcFoldD (services : List (String × SVal)) (C : Conf) : List String → List LogMsg
  | [] => []
  | g :: gs => svcLogsStepD services C g ++ svcFoldD services C gs

/-- The `save_config` flag after one group of the non-dry-run registration
loop. -/
def svcGroupFlagW (services : List (String × SVal)) (C : Conf) (grp : String)
    (flag : Bool) : Bool :=
  match services.lookup grp with
  | none => flag
  | some v => flag || !(svcNew (svcGrpList C grp) (option_as_list v)).isEmpty

/-- The `save_config` flag after the whole non-dry-run registration loop. -/
def svcFlagW (services : List (String × SVal)) : List String → Conf → Bool → Bool
  | [], _, flag => flag
  | g :: gs, C, flag =>
    svcFlagW services gs (svcStepW services C g) (svcGroupFlagW services C g flag)

theorem installSvcGroup_wet_char (services : List (String × SVal)) (r : RunSt)
    (flag : Bool) (grp : String)
    (hok : svcGroupOK services r.st.config grp = true) :
    installSvcGroup false services (r, flag) grp =
      .ok (⟨⟨r.st.fs, svcStepW services r.st.config grp, r.st.comments⟩,
        r.logs ++ svcLogsStepW services r.st.config grp⟩,
        svcGroupFlagW services r.st.config grp flag) := by
  rcases hlk : services.lookup grp with _ | v
  · simp only [installSvcGroup, hlk]
    simp [svcStepW, svcLogsStepW, svcGroupFlagW, hlk]
  · rcases hlp : lookupPath r.st.config ["Engine", "Services", grp] with _ | cv
    · simp only [svcGroupOK, hlk, hlp] at hok
      cases hok
    · rcases hcl : cval_as_list cv with _ | lst
      · simp only [svcGroupOK, hlk, hlp, hcl, Option.isSome] at hok
        cases hok
      · have hf := svcFold_wet_char grp (option_as_list v) r flag lst cv hlp
        simp only [installSvcGroup, hlk, hlp, hcl, hf, map_ok]
        have hgl : svcGrpList r.st.config grp = lst := by
          simp [svcGrpList, hlp, hcl]
        simp [svcStepW, svcLogsStepW, svcGroupFlagW, hlk, hgl]

theorem svcGroupsFold_wet_char (services : List (String × SVal)) :
    ∀ (groups : List String) (r : RunSt) (flag : Bool),
    svcAllOKW services groups r.st.config = true →
    groups.foldlM (installSvcGroup false services) (r, flag) =
      .ok (⟨⟨r.st.fs, (svcFoldW services groups r.st.config).1, r.st.comments⟩,
        r.logs ++ (svcFoldW services groups r.st.config).2⟩,
        svcFlagW services groups r.st.config flag)
  | [], r, flag, _ => by
    show Except.ok (r, flag) = _
    simp [svcFoldW, svcFlagW]
  | g :: gs, r, flag, hok => by
    rw [svcAllOKW, Bool.and_eq_true_iff] at hok
    rcases hok with ⟨hok1, hok2⟩
    rw [List.foldlM_cons, installSvcGroup_wet_char services r flag g hok1, ok_bind,
      svcGroupsFold_wet_char services gs
        ⟨⟨r.st.fs, svcStepW services r.st.config g, r.st.comments⟩,
          r.logs ++ svcLogsStepW services r.st.config g⟩
        (svcGroupFlagW services r.st.config g flag) hok2]
    show _ = Except.ok (⟨⟨r.st.fs, (svcFoldW services (g :: gs) r.st.config).1, r.st.comments⟩,
      r.logs ++ (svcFoldW services (g :: gs) r.st.config).2⟩,
      svcFlagW services (g :: gs) r.st.config flag)
    simp [svcFoldW, svcFlagW, List.append_assoc]

theorem installSvcGroup_dry_char (services : List (String × SVal)) (r : RunSt)
    (flag : Bool) (grp : String)
    (hok : svcGroupOK services r.st.config grp = true) :
    installSvcGroup true services (r, flag) grp =
      .ok (⟨r.st, r.logs ++ svcLogsStepD services r.st.config grp⟩, flag) := by
  rcases hlk : services.lookup grp with _ | v
  · simp only [installSvcGroup, hlk]
    simp [svcLogsStepD, hlk]
  · rcases hlp : lookupPath r.st.config ["Engine", "Services", grp] with _ | cv
    · simp only [svcGroupOK, hlk, hlp] at hok
      cases hok
    · rcases hcl : cval_as_list cv with _ | lst
      · simp only [svcGroupOK, hlk, hlp, hcl, Option.isSome] at hok
        cases hok
      · simp only [installSvcGroup, hlk, hlp, hcl,
          svcFold_dry_char grp (option_as_list v) r flag lst, map_ok]
        have hgl : svcGrpList r.st.config grp = lst := by
          simp [svcGrpList, hlp, hcl]
        simp [svcLogsStepD, hlk, hgl]

theorem svcGroupsFold_dry_char (services : List (String × SVal)) :
    ∀ (groups : List String) (r : RunSt) (flag : Bool),
    groups.all (svcGroupOK services r.st.config) = true →
    groups.foldlM (installSvcGroup true services) (r, flag) =
      .ok (⟨r.st, r.logs ++ svcFoldD services r.st.config groups⟩, flag)
  | [], r, flag, _ => by
    show Except.ok (r, flag) = _
    simp [svcFoldD]
  | g :: gs, r, flag, hok => by
    rw [List.all_cons, Bool.and_eq_true_iff] at hok
    rcases hok with ⟨hok1, hok2⟩
    rw [List.foldlM_cons, installSvcGroup_dry_char services r flag g hok1, ok_bind,
      svcGroupsFold_dry_char services gs ⟨r.st, r.logs ++ svcLogsStepD services r.st.config g⟩
        flag hok2]
    simp [svcFoldD, List.append_assoc]

theorem svcStepW_lookup_ne (services : List (String × SVal)) (C : Conf) {g g' : String}
    (hne : g' ≠ g) (hok : svcGroupOK services C g = true) :
    lookupPath (svcStepW services C g) ["Engine", "Services", g'] =
      lookupPath C ["Engine", "Services", g'] := by
  rcases hlk : services.lookup g with _ | v
  · simp [svcStepW, hlk]
  · rcases hlp : lookupPath C ["Engine", "Services", g] with _ | cv
    · simp only [svcGroupOK, hlk, hlp] at hok
      cases hok
    · simp only [svcStepW, hlk]
      exact svcConfAfter_lookup_ne hlp _ _ hne

theorem svcGrpList_congr {C C' : Conf} (g : String)
    (h : lookupPath C' ["Engine", "Services", g] = lookupPath C ["Engine", "Services", g]) :
    svcGrpList C' g = svcGrpList C g := by
  unfold svcGrpList
  rw [h]

theorem svcLogsStepD_congr (services : List (String × SVal)) {C C' : Conf} (g : String)
    (h : svcGrpList C' g = svcGrpList C g) :
    svcLogsStepD services C' g = svcLogsStepD services C g := by
  rcases hlk : services.lookup g with _ | v
  · simp [svcLogsStepD, hlk]
  · simp [svcLogsStepD, hlk, h]

theorem svcFoldD_congr (services : List (String × SVal)) :
    ∀ (gs : List String) (C C' : Conf),
    (∀ g ∈ gs, lookupPath C' ["Engine", "Services", g] =
      lookupPath C ["Engine", "Services", g]) →
    svcFoldD services C' gs = svcFoldD services C gs
  | [], _, _, _ => rfl
  | g :: gs, C, C', h => by
    show svcLogsStepD services C' g ++ svcFoldD services C' gs =
      svcLogsStepD services C g ++ svcFoldD services C gs
    rw [svcFoldD_congr services gs C C' (fun x hx => h x (by simp [hx])),
      svcLogsStepD_congr services g (svcGrpList_congr g (h g (by simp)))]

theorem svcFoldW_logs_eq (services : List (String × SVal)) :
    ∀ (groups : List String) (C : Conf),
    groups.Nodup →
    svcAllOKW services groups C = true →
    (∀ g ∈ groups, ∀ v, services.lookup g = some v → (option_as_list v).Nodup) →
    (svcFoldW services groups C).2 = svcFoldD services C groups
  | [], _, _, _, _ => rfl
  | g :: gs, C, hnd, hok, hdn => by
    rw [List.nodup_cons] at hnd
    rw [svcAllOKW, Bool.and_eq_true_iff] at hok
    rcases hok with ⟨hok1, hok2⟩
    show svcLogsStepW services C g ++ (svcFoldW services gs (svcStepW services C g)).2 =
      svcLogsStepD services C g ++ svcFoldD services C gs
    have h1 : svcLogsStepW services C g = svcLogsStepD services C g := by
      rcases hlk : services.lookup g with _ | v
      · simp [svcLogsStepW, svcLogsStepD, hlk]
      · simp only [svcLogsStepW, svcLogsStepD, hlk]
        rw [svcNew_eq_filter (option_as_list v) (svcGrpList C g) (hdn g (by simp) v hlk)]
    have h2 : (svcFoldW services gs (svcStepW services C g)).2 =
        svcFoldD services C gs := by
      rw [svcFoldW_logs_eq services gs (svcStepW services C g) hnd.2 hok2
        (fun x hx v hv => hdn x (by simp [hx]) v hv)]
      exact svcFoldD_congr services gs C (svcStepW services C g)
        (fun x hx => svcStepW_lookup_ne services C (fun he => hnd.1 (he ▸ hx)) hok1)
    rw [h1, h2]

/-- Decidable form of "every group the manifest declares services for has
an `[Engine][Services]` list value to read". -/
def svcReadsOK (services : List (String × SVal)) (C : Conf) (groups : List String) : Bool :=
  groups.all (fun g =>
    match services.lookup g with
    | none => true
    | some _ =>
      match lookupPath C ["Engine", "Services", g] with
      | some (.vlist _) => true
      | _ => false)

/-- Decidable form of "every declared per-group identifier list is free of
duplicates". -/
def svcDeclNodup (services : List (String × SVal)) (groups : List String) : Bool :=
  groups.all (fun g =>
    match services.lookup g with
    | none => true
    | some v => decide (option_as_list v).Nodup)

theorem svcReadsOK_spec {services : List (String × SVal)} {C : Conf}
    {groups : List String} (h : svcReadsOK services C groups = true) :
    ∀ g ∈ groups, ∀ v, services.lookup g = some v →
      ∃ l, lookupPath C ["Engine", "Services", g] = some (.vlist l) := by
  rw [svcReadsOK, List.all_eq_true] at h
  intro g hg v hv
  have hh := h g hg
  rcases hlp : lookupPath C ["Engine", "Services", g] with _ | cv
  · simp [hv, hlp] at hh
  · cases cv with
    | vlist l => exact ⟨l, rfl⟩
    | leaf s => simp [hv, hlp] at hh
    | sect S => simp [hv, hlp] at hh

theorem svcDeclNodup_spec {services : List (String × SVal)} {groups : List String}
    (h : svcDeclNodup services groups = true) :
    ∀ g ∈ groups, ∀ v, services.lookup g = some v → (option_as_list v).Nodup := by
  rw [svcDeclNodup, List.all_eq_true] at h
  intro g hg v hv
  have hh := h g hg
  simp only [hv, decide_eq_true_eq] at hh
  exact hh

theorem svcAllOKW_of_reads (services : List (String × SVal)) :
    ∀ (groups : List String) (C : Conf),
    groups.Nodup →
    (∀ g ∈ groups, ∀ v, services.lookup g = some v →
      ∃ l, lookupPath C ["Engine", "Services", g] = some (.vlist l)) →
    svcAllOKW services groups C = true
  | [], _, _, _ => rfl
  | g :: gs, C, hnd, hrd => by
    rw [List.nodup_cons] at hnd
    have hok1 : svcGroupOK services C g = true := by
      rcases hlk : services.lookup g with _ | v
      · simp [svcGroupOK, hlk]
      · rcases hrd g (by simp) v hlk with ⟨l, hl⟩
        simp [svcGroupOK, hlk, hl, cval_as_list]
    rw [svcAllOKW, Bool.and_eq_true_iff]
    refine ⟨hok1, svcAllOKW_of_reads services gs (svcStepW services C g) hnd.2 ?_⟩
    intro x hx v hv
    rcases hrd x (by simp [hx]) v hv with ⟨l, hl⟩
    exact ⟨l, by
      rw [svcStepW_lookup_ne services C
        (show x ≠ g by intro he; subst he; exact hnd.1 hx) hok1, hl]⟩

theorem svcAllOKD_of_reads (services : List (String × SVal)) (groups : List String)
    (C : Conf)
    (hrd : ∀ g ∈ groups, ∀ v, services.lookup g = some v →
      ∃ l, lookupPath C ["Engine", "Services", g] = some (.vlist l)) :
    groups.all (svcGroupOK services C) = true := by
  rw [List.all_eq_true]
  intro g hg
  rcases hlk : services.lookup g with _ | v
  · simp [svcGroupOK, hlk]
  · rcases hrd g hg v hlk with ⟨l, hl⟩
    simp [svcGroupOK, hlk, hl, cval_as_list]

/-- The log block of the configuration-fragment phase (identical in dry-run
and non-dry-run mode, both reading the pre-merge configuration). -/
def instCfgLogs (frag? : Option Conf) (C : Conf) (html : String) : List LogMsg :=
  match frag? with
  | none => []
  | some frag => [.addingSections] ++
      (newTops C (massagedFrag C html frag)).map .addingSection ++ [.mergedSettings]

/-- The configuration tree after the non-dry-run fragment phase. -/
def instCfgW (frag? : Option Conf) (C : Conf) (html : String) : Conf :=
  match frag? with
  | none => C
  | some frag => conditional_merge C (massagedFrag C html frag)

/-- The comment table after the non-dry-run fragment phase. -/
def instCmtsW (name : String) (frag? : Option Conf) (C : Conf) (html : String)
    (cm : List (String × String)) : List (String × String) :=
  match frag? with
  | none => cm
  | some frag => (newTops C (massagedFrag C html frag)).foldl
      (fun c k => commentsUpdate c k name) cm

theorem install_dry_char (R : Roots) (groups : List String) (inst : Installer)
    (ext_dir : String) (st : SysState) (html : String)
    (hfx : filesOK inst.files = true)
    (hh : lookupPath st.config ["StdReport", "HTML_ROOT"] = some (.leaf html))
    (hok : groups.all (svcGroupOK inst.services st.config) = true) :
    ∃ n, install_from_dir R groups true inst ext_dir st =
      .ok ⟨st, [.requestInstallDir ext_dir, .foundExtension inst.name, .copyingNewFiles] ++
        copyLogs R ext_dir inst.files ++ [.copiedCount n] ++
        instCfgLogs inst.config st.config html ++
        [.addingServices] ++ svcFoldD inst.services st.config groups ++
        [.savingInstaller (pjoin R.ext_root inst.name)]⟩ := by
  rcases installCopyPhase_char R true ext_dir inst.files
    ((RunSt.plog ⟨st, []⟩ (.requestInstallDir ext_dir)).plog (.foundExtension inst.name)) hfx
    with ⟨n, h1⟩
  refine ⟨n, ?_⟩
  unfold install_from_dir
  rw [h1, ok_bind]
  cases hcfg : inst.config with
  | none =>
    rw [installConfigPhase_none, ok_bind,
      svcGroupsFold_dry_char inst.services groups _ false hok, ok_bind]
    simp [RunSt.plog, installSaveInstaller_dry, instCfgLogs, fsIfWet, List.append_assoc]
    rfl
  | some frag =>
    rw [installConfigPhase_char true inst.name frag _ html hh, ok_bind]
    simp only [Bool.not_true]
    rw [svcGroupsFold_dry_char inst.services groups _ false hok, ok_bind]
    simp [RunSt.plog, installSaveInstaller_dry, instCfgLogs, fsIfWet, cfgIfWet, cmtsIfWet,
      List.append_assoc]
    rfl

/-- The `save_config` flag handed to the registration loop: set exactly
when a fragment was merged. -/
def instFlag0 : Option Conf → Bool
  | none => false
  | some _ => true

theorem install_wet_char (R : Roots) (groups : List String) (inst : Installer)
    (ext_dir : String) (st : SysState) (html : String)
    (hfx : filesOK inst.files = true)
    (hh : lookupPath st.config ["StdReport", "HTML_ROOT"] = some (.leaf html))
    (hok : svcAllOKW inst.services groups (instCfgW inst.config st.config html) = true) :
    ∃ n, install_from_dir R groups false inst ext_dir st =
      .ok ⟨⟨fsInsert (pjoin (pjoin R.ext_root inst.name) "install.py")
            (fsInsertAll (instDests R inst.files) st.fs),
          (svcFoldW inst.services groups (instCfgW inst.config st.config html)).1,
          instCmtsW inst.name inst.config st.config html st.comments⟩,
        [.requestInstallDir ext_dir, .foundExtension inst.name, .copyingNewFiles] ++
          copyLogs R ext_dir inst.files ++ [.copiedCount n] ++
          instCfgLogs inst.config st.config html ++
          [.addingServices] ++
          (svcFoldW inst.services groups (instCfgW inst.config st.config html)).2 ++
          [.savingInstaller (pjoin R.ext_root inst.name)] ++
          (if svcFlagW inst.services groups (instCfgW inst.config st.config html)
              (instFlag0 inst.config) then [.savedBackup] else [])⟩ := by
  rcases installCopyPhase_char R false ext_dir inst.files
    ((RunSt.plog ⟨st, []⟩ (.requestInstallDir ext_dir)).plog (.foundExtension inst.name)) hfx
    with ⟨n, h1⟩
  refine ⟨n, ?_⟩
  unfold install_from_dir
  rw [h1, ok_bind]
  cases hcfg : inst.config with
  | none =>
    rw [hcfg] at hok
    rw [installConfigPhase_none, ok_bind,
      svcGroupsFold_wet_char inst.services groups _ false hok, ok_bind]
    have hb : instCfgW none st.config html = st.config := rfl
    simp only [hb, instFlag0]
    cases hfw : svcFlagW inst.services groups st.config false with
    | true =>
      simp [RunSt.plog, installSaveInstaller, instCfgLogs, instCmtsW, fsIfWet, hfw,
        List.append_assoc]
      rfl
    | false =>
      simp [RunSt.plog, installSaveInstaller, instCfgLogs, instCmtsW, fsIfWet, hfw,
        List.append_assoc]
      rfl
  | some frag =>
    rw [hcfg] at hok
    rw [installConfigPhase_char false inst.name frag _ html hh, ok_bind]
    simp only [Bool.not_false]
    rw [svcGroupsFold_wet_char inst.services groups _ true hok, ok_bind]
    simp only [RunSt.plog]
    have hb : cfgIfWet false st.config (massagedFrag st.config html frag) =
        instCfgW (some frag) st.config html := rfl
    simp only [hb, instFlag0]
    by_cases hfw : svcFlagW inst.services groups (instCfgW (some frag) st.config html) true
      = true
    · simp [RunSt.plog, installSaveInstaller, instCfgLogs, instCmtsW, fsIfWet,
        cfgIfWet, cmtsIfWet, hfw, List.append_assoc]
      rfl
    · simp [RunSt.plog, installSaveInstaller, instCfgLogs, instCmtsW, fsIfWet,
        cfgIfWet, cmtsIfWet, hfw, List.append_assoc]
      rfl

theorem svcFoldD_congr_decl (services : List (String × SVal)) :
    ∀ (gs : List String) (C C' : Conf),
    (∀ g ∈ gs, ∀ v, services.lookup g = some v →
      lookupPath C' ["Engine", "Services", g] = lookupPath C ["Engine", "Services", g]) →
    svcFoldD services C' gs = svcFoldD services C gs
  | [], _, _, _ => rfl
  | g :: gs, C, C', h => by
    show svcLogsStepD services C' g ++ svcFoldD services C' gs =
      svcLogsStepD services C g ++ svcFoldD services C gs
    rw [svcFoldD_congr_decl services gs C C' (fun x hx => h x (by simp [hx]))]
    rcases hlk : services.lookup g with _ | v
    · simp [svcLogsStepD, hlk]
    · rw [svcLogsStepD_congr services g (svcGrpList_congr g (h g (by simp) v hlk))]

theorem install_planned_logs_eq (R : Roots) (groups : List String) (inst : Installer)
    (ext_dir : String) (st : SysState) (html : String)
    (hfx : filesOK inst.files = true)
    (hh : lookupPath st.config ["StdReport", "HTML_ROOT"] = some (.leaf html))
    (hnd : groups.Nodup)
    (hrd : svcReadsOK inst.services st.config groups = true)
    (hdn : svcDeclNodup inst.services groups = true) :
    ∃ rd rw1, install_from_dir R groups true inst ext_dir st = .ok rd ∧
      install_from_dir R groups false inst ext_dir st = .ok rw1 ∧
      rd.logs.filter plannedAction = rw1.logs.filter plannedAction := by
  have hreads := svcReadsOK_spec hrd
  have hpres : ∀ g ∈ groups, ∀ v, inst.services.lookup g = some v →
      lookupPath (instCfgW inst.config st.config html) ["Engine", "Services", g] =
        lookupPath st.config ["Engine", "Services", g] := by
    intro g hg v hv
    rcases hreads g hg v hv with ⟨l, hl⟩
    cases hcfg : inst.config with
    | none => rfl
    | some frag =>
      rw [hl]
      exact conditional_merge_pres _ _ _ _ hl (fun S hS => by cases hS)
  have hreadsW : ∀ g ∈ groups, ∀ v, inst.services.lookup g = some v →
      ∃ l, lookupPath (instCfgW inst.config st.config html) ["Engine", "Services", g] =
        some (.vlist l) := by
    intro g hg v hv
    rcases hreads g hg v hv with ⟨l, hl⟩
    exact ⟨l, (hpres g hg v hv).trans hl⟩
  have hallW : svcAllOKW inst.services groups (instCfgW inst.config st.config html) = true :=
    svcAllOKW_of_reads inst.services groups _ hnd hreadsW
  have hallD : groups.all (svcGroupOK inst.services st.config) = true :=
    svcAllOKD_of_reads inst.services groups _ hreads
  rcases install_dry_char R groups inst ext_dir st html hfx hh hallD with ⟨nd, hD⟩
  rcases install_wet_char R groups inst ext_dir st html hfx hh hallW with ⟨nw, hW⟩
  refine ⟨_, _, hD, hW, ?_⟩
  have hsw : (svcFoldW inst.services groups (instCfgW inst.config st.config html)).2 =
      svcFoldD inst.services st.config groups := by
    rw [svcFoldW_logs_eq inst.services groups _ hnd hallW (svcDeclNodup_spec hdn)]
    exact svcFoldD_congr_decl inst.services groups st.config _ hpres
  show ([LogMsg.requestInstallDir ext_dir, LogMsg.foundExtension inst.name,
      LogMsg.copyingNewFiles] ++
      copyLogs R ext_dir inst.files ++ [LogMsg.copiedCount nd] ++
      instCfgLogs inst.config st.config html ++ [LogMsg.addingServices] ++
      svcFoldD inst.services st.config groups ++
      [LogMsg.savingInstaller (pjoin R.ext_root inst.name)]).filter plannedAction = _
  rw [show (⟨⟨fsInsert (pjoin (pjoin R.ext_root inst.name) "install.py")
        (fsInsertAll (instDests R inst.files) st.fs),
      (svcFoldW inst.services groups (instCfgW inst.config st.config html)).1,
      instCmtsW inst.name inst.config st.config html st.comments⟩,
    [.requestInstallDir ext_dir, .foundExtension inst.name, .copyingNewFiles] ++
      copyLogs R ext_dir inst.files ++ [.copiedCount nw] ++
      instCfgLogs inst.config st.config html ++
      [.addingServices] ++
      (svcFoldW inst.services groups (instCfgW inst.config st.config html)).2 ++
      [.savingInstaller (pjoin R.ext_root inst.name)] ++
      (if svcFlagW inst.services groups (instCfgW inst.config st.config html)
          (instFlag0 inst.config) then [.savedBackup] else [])⟩ : RunSt).logs =
    [.requestInstallDir ext_dir, .foundExtension inst.name, .copyingNewFiles] ++
      copyLogs R ext_dir inst.files ++ [.copiedCount nw] ++
      instCfgLogs inst.config st.config html ++
      [.addingServices] ++
      (svcFoldW inst.services groups (instCfgW inst.config st.config html)).2 ++
      [.savingInstaller (pjoin R.ext_root inst.name)] ++
      (if svcFlagW inst.services groups (instCfgW inst.config st.config html)
          (instFlag0 inst.config) then [.savedBackup] else []) from rfl, hsw]
  by_cases hfw : svcFlagW inst.services groups (instCfgW inst.config st.config html)
      (instFlag0 inst.config) = true
  · simp [hfw, List.filter_append, plannedAction]
  · simp [hfw, List.filter_append, plannedAction]

/-- The planned-deletion log lines for one manifest file path. -/
def delPlanFile (rootPath f : String) : List LogMsg :=
  match strip_leading_dir f with
  | none => []
  | some d =>
    LogMsg.deletingFile (pjoin rootPath d) ::
      (if strEnds (pjoin rootPath d) ".py" then
        [LogMsg.deletingFile (replaceAll (pjoin rootPath d) ".py" ".pyc"),
         LogMsg.deletingFile (replaceAll (pjoin rootPath d) ".py" ".pyo")]
      else [])

/-- The planned-deletion log lines for one source tuple. -/
def delPlanTuple (R : Roots) (tup : String × List String) : List LogMsg :=
  match classifySrc tup.1 with
  | .matched rt => (tup.2.map (delPlanFile (R.get rt))).flatten
  | _ => []

/-- The planned-deletion log lines of the whole file-removal phase. -/
def delPlans (R : Roots) (files : List (String × List String)) : List LogMsg :=
  (files.map (delPlanTuple R)).flatten

/-- No source tuple classifies to the skin root (the skin-subdirectory
pruning is the one removal step whose log output depends on the file
set). -/
def noSkins (files : List (String × List String)) : Bool :=
  files.all (fun tup =>
    match classifySrc tup.1 with
    | .matched rt => !(rt == "SKIN_ROOT")
    | _ => true)

theorem delete_file_char (dry rep : Bool) (r : RunSt) (f : String) :
    (delete_file dry rep r f).1.logs.filter plannedAction =
      r.logs.filter plannedAction ++ [.deletingFile f] ∧
    (delete_file dry rep r f).1.st.config = r.st.config ∧
    (delete_file dry rep r f).1.st.comments = r.st.comments := by
  unfold delete_file
  cases dry with
  | true => simp [RunSt.plog, List.filter_append, plannedAction]
  | false =>
    by_cases hm : f ∈ r.st.fs
    · simp [hm, RunSt.plog, List.filter_append, plannedAction]
    · cases rep <;> simp [hm, RunSt.plog, List.filter_append, plannedAction]

theorem uninstallFileOne_char (dry : Bool) (rootPath : String) (r0 : RunSt) (n0 : Nat)
    (f : String) (d : String) (hs : strip_leading_dir f = some d) :
    ∃ r' n', uninstallFileOne dry rootPath (r0, n0) f = .ok (r', n') ∧
      r'.logs.filter plannedAction =
        r0.logs.filter plannedAction ++ delPlanFile rootPath f ∧
      r'.st.config = r0.st.config ∧ r'.st.comments = r0.st.comments := by
  rcases hd1 : delete_file dry true r0 (pjoin rootPath d) with ⟨r1, k1⟩
  have hc1 := delete_file_char dry true r0 (pjoin rootPath d)
  rw [hd1] at hc1
  by_cases he : strEnds (pjoin rootPath d) ".py"
  · rcases hd2 : delete_file dry false r1 (replaceAll (pjoin rootPath d) ".py" ".pyc")
      with ⟨r2, k2⟩
    have hc2 := delete_file_char dry false r1 (replaceAll (pjoin rootPath d) ".py" ".pyc")
    rw [hd2] at hc2
    rcases hd3 : delete_file dry false r2 (replaceAll (pjoin rootPath d) ".py" ".pyo")
      with ⟨r3, k3⟩
    have hc3 := delete_file_char dry false r2 (replaceAll (pjoin rootPath d) ".py" ".pyo")
    rw [hd3] at hc3
    refine ⟨r3, n0 + k1 + k2 + k3, ?_, ?_, ?_, ?_⟩
    · simp only [uninstallFileOne, hs, hd1, hd2, hd3, if_pos he]
    · rw [hc3.1, hc2.1, hc1.1]
      simp [delPlanFile, hs, he, List.append_assoc]
    · rw [hc3.2.1, hc2.2.1, hc1.2.1]
    · rw [hc3.2.2, hc2.2.2, hc1.2.2]
  · refine ⟨r1, n0 + k1, ?_, ?_, ?_, ?_⟩
    · simp only [uninstallFileOne, hs, hd1, if_neg he]
    · rw [hc1.1]
      simp [delPlanFile, hs, he]
    · exact hc1.2.1
    · exact hc1.2.2

theorem uninstallFileFold_char (dry : Bool) (rootPath : String) :
    ∀ (fls : List String) (r0 : RunSt) (n0 : Nat),
    fls.all (fun f => (strip_leading_dir f).isSome) = true →
    ∃ r' n', fls.foldlM (uninstallFileOne dry rootPath) (r0, n0) = .ok (r', n') ∧
      r'.logs.filter plannedAction = r0.logs.filter plannedAction ++
        (fls.map (delPlanFile rootPath)).flatten ∧
      r'.st.config = r0.st.config ∧ r'.st.comments = r0.st.comments
  | [], r0, n0, _ => ⟨r0, n0, rfl, by simp, rfl, rfl⟩
  | f :: fls, r0, n0, hok => by
    have hf : (strip_leading_dir f).isSome = true := by
      have := (List.all_eq_true.1 hok) f (by simp)
      simpa using this
    rcases hsd : strip_leading_dir f with _ | d
    · rw [hsd] at hf
      cases hf
    have hok' : fls.all (fun f => (strip_leading_dir f).isSome) = true := by
      rw [List.all_eq_true] at hok ⊢
      exact fun x hx => hok x (by simp [hx])
    rcases uninstallFileOne_char dry rootPath r0 n0 f d hsd with ⟨r1, n1, h1, hl1, hcf1, hcm1⟩
    rcases uninstallFileFold_char dry rootPath fls r1 n1 hok' with ⟨r', n', h2, hl2, hcf2, hcm2⟩
    refine ⟨r', n', ?_, ?_, hcf2.trans hcf1, hcm2.trans hcm1⟩
    · rw [List.foldlM_cons, h1, ok_bind, h2]
    · rw [hl2, hl1]
      simp [List.append_assoc]

theorem uninstallTuple_char (R : Roots) (dry : Bool) (r0 : RunSt) (n0 : Nat)
    (tup : String × List String) (rt : String) (hcl : classifySrc tup.1 = .matched rt)
    (hrt : rt ≠ "SKIN_ROOT")
    (hstr : tup.2.all (fun f => (strip_leading_dir f).isSome) = true) :
    ∃ r' n', uninstallFilesTuple R dry (r0, n0) tup = .ok (r', n') ∧
      r'.logs.filter plannedAction = r0.logs.filter plannedAction ++ delPlanTuple R tup ∧
      r'.st.config = r0.st.config ∧ r'.st.comments = r0.st.comments := by
  rcases uninstallFileFold_char dry (R.get rt) tup.2 r0 n0 hstr
    with ⟨r', n', h1, hl1, hcf1, hcm1⟩
  refine ⟨r', n', ?_, ?_, hcf1, hcm1⟩
  · simp only [uninstallFilesTuple, hcl, h1, ok_bind, if_neg hrt]
  · rw [hl1]
    simp [delPlanTuple, hcl]

theorem noSkins_head {tup : String × List String} {files : List (String × List String)}
    {rt : String} (h : noSkins (tup :: files) = true)
    (hcl : classifySrc tup.1 = .matched rt) : rt ≠ "SKIN_ROOT" ∧ noSkins files = true := by
  rw [noSkins, List.all_cons, Bool.and_eq_true_iff] at h
  rcases h with ⟨h1, h2⟩
  rw [hcl] at h1
  refine ⟨?_, h2⟩
  intro he
  rw [he] at h1
  simp at h1

theorem uninstallTupleFold_char (R : Roots) (dry : Bool) :
    ∀ (files : List (String × List String)) (r0 : RunSt) (n0 : Nat),
    filesOK files = true → noSkins files = true →
    ∃ r' n', files.foldlM (uninstallFilesTuple R dry) (r0, n0) = .ok (r', n') ∧
      r'.logs.filter plannedAction = r0.logs.filter plannedAction ++
        (files.map (delPlanTuple R)).flatten ∧
      r'.st.config = r0.st.config ∧ r'.st.comments = r0.st.comments
  | [], r0, n0, _, _ => ⟨r0, n0, rfl, by simp, rfl, rfl⟩
  | tup :: files, r0, n0, hok, hsk => by
    rcases filesOK_head hok with ⟨⟨rt, hcl⟩, hstr, hok'⟩
    rcases noSkins_head hsk hcl with ⟨hrt, hsk'⟩
    rcases uninstallTuple_char R dry r0 n0 tup rt hcl hrt hstr
      with ⟨r1, n1, h1, hl1, hcf1, hcm1⟩
    rcases uninstallTupleFold_char R dry files r1 n1 hok' hsk'
      with ⟨r', n', h2, hl2, hcf2, hcm2⟩
    refine ⟨r', n', ?_, ?_, hcf2.trans hcf1, hcm2.trans hcm1⟩
    · rw [List.foldlM_cons, h1, ok_bind, h2]
    · rw [hl2, hl1]
      simp [List.append_assoc]

theorem uninstall_files_char (R : Roots) (dry : Bool)
    (files : List (String × List String)) (r : RunSt)
    (hok : filesOK files = true) (hsk : noSkins files = true) :
    ∃ r', uninstall_files R dry files r = .ok r' ∧
      r'.logs.filter plannedAction = r.logs.filter plannedAction ++ delPlans R files ∧
      r'.st.config = r.st.config ∧ r'.st.comments = r.st.comments := by
  rcases uninstallTupleFold_char R dry files (r.plog .removingFiles) 0 hok hsk
    with ⟨r1, n1, h1, hl1, hcf1, hcm1⟩
  refine ⟨r1.plog (.removedCount n1), ?_, ?_, hcf1, hcm1⟩
  · unfold uninstall_files
    rw [h1, map_ok]
  · show (r1.logs ++ [LogMsg.removedCount n1]).filter plannedAction = _
    rw [List.filter_append, hl1]
    simp [RunSt.plog, List.filter_append, plannedAction, delPlans]

/-- The configuration after one group of the non-dry-run de-registration
loop. -/
def unsvcStep (services : List (String × SVal)) (C : Conf) (grp : String) : Conf :=
  match services.lookup grp with
  | none => C
  | some v =>
    match lookupPath C ["Engine", "Services", grp] with
    | none => C
    | some cur => (updatePath C ["Engine", "Services", grp] (filterSvcVal v cur)).getD C

/-- The configuration after the whole non-dry-run de-registration loop. -/
def unsvcFold (services : List (String × SVal)) : List String → Conf → Conf
  | [], C => C
  | g :: gs, C => unsvcFold services gs (unsvcStep services C g)

/-- Whether the de-registration loop's read succeeds for one group. -/
def unsvcGroupOK (services : List (String × SVal)) (C : Conf) (grp : String) : Bool :=
  match services.lookup grp with
  | none => true
  | some _ => (lookupPath C ["Engine", "Services", grp]).isSome

/-- All reads of the non-dry-run de-registration loop succeed along the
run. -/
def unsvcAllOK (services : List (String × SVal)) : List String → Conf → Bool
  | [], _ => true
  | g :: gs, C => unsvcGroupOK services C g && unsvcAllOK services gs (unsvcStep services C g)

theorem uninstallSvcGroup_wet_char (services : List (String × SVal)) (r : RunSt)
    (flag : Bool) (grp : String)
    (hok : unsvcGroupOK services r.st.config grp = true) :
    ∃ b, uninstallSvcGroup false services (r, flag) grp =
      .ok (⟨⟨r.st.fs, unsvcStep services r.st.config grp, r.st.comments⟩, r.logs⟩, b) := by
  rcases hlk : services.lookup grp with _ | v
  · refine ⟨flag, ?_⟩
    simp only [uninstallSvcGroup, hlk]
    simp [unsvcStep, hlk]
  · rcases hlp : lookupPath r.st.config ["Engine", "Services", grp] with _ | cur
    · simp only [unsvcGroupOK, hlk, hlp, Option.isSome] at hok
      cases hok
    · rcases updatePath3_some_of_lookup hlp (filterSvcVal v cur) with ⟨C', hup, _, _⟩
      refine ⟨true, ?_⟩
      simp only [uninstallSvcGroup, hlk, hlp, hup]
      have hst : unsvcStep services r.st.config grp = C' := by
        simp [unsvcStep, hlk, hlp, hup]
      rw [hst]
      simp

theorem uninstallSvcFold_wet_char (services : List (String × SVal)) :
    ∀ (groups : List String) (r : RunSt) (flag : Bool),
    unsvcAllOK services groups r.st.config = true →
    ∃ b, groups.foldlM (uninstallSvcGroup false services) (r, flag) =
      .ok (⟨⟨r.st.fs, unsvcFold services groups r.st.config, r.st.comments⟩, r.logs⟩, b)
  | [], r, flag, _ => by
    refine ⟨flag, ?_⟩
    show Except.ok (r, flag) = _
    simp [unsvcFold]
  | g :: gs, r, flag, hok => by
    rw [unsvcAllOK, Bool.and_eq_true_iff] at hok
    rcases hok with ⟨hok1, hok2⟩
    rcases uninstallSvcGroup_wet_char services r flag g hok1 with ⟨b1, h1⟩
    rcases uninstallSvcFold_wet_char services gs
      ⟨⟨r.st.fs, unsvcStep services r.st.config g, r.st.comments⟩, r.logs⟩ b1 hok2
      with ⟨b, h2⟩
    refine ⟨b, ?_⟩
    rw [List.foldlM_cons, h1, ok_bind, h2]
    show _ = Except.ok (⟨⟨r.st.fs, unsvcFold services (g :: gs) r.st.config, r.st.comments⟩,
      r.logs⟩, b)
    simp [unsvcFold]

theorem unsvcStep_lookup_isSome (services : List (String × SVal)) (C : Conf)
    (g g' : String) (h : (lookupPath C ["Engine", "Services", g']).isSome = true) :
    (lookupPath (unsvcStep services C g) ["Engine", "Services", g']).isSome = true := by
  rcases hlk : services.lookup g with _ | v
  · simpa [unsvcStep, hlk] using h
  · rcases hlp : lookupPath C ["Engine", "Services", g] with _ | cur
    · simpa [unsvcStep, hlk, hlp] using h
    · rcases updatePath3_some_of_lookup hlp (filterSvcVal v cur) with ⟨C', hup, hself, hne⟩
      have hst : unsvcStep services C g = C' := by
        simp [unsvcStep, hlk, hlp, hup]
      rw [hst]
      by_cases hgg : g' = g
      · rw [hgg, hself]
        rfl
      · rw [hne g' hgg]
        exact h

theorem unsvcAllOK_of_reads (services : List (String × SVal)) :
    ∀ (groups : List String) (C : Conf),
    (∀ g ∈ groups, ∀ v, services.lookup g = some v →
      (lookupPath C ["Engine", "Services", g]).isSome = true) →
    unsvcAllOK services groups C = true
  | [], _, _ => rfl
  | g :: gs, C, hrd => by
    rw [unsvcAllOK, Bool.and_eq_true_iff]
    constructor
    · rcases hlk : services.lookup g with _ | v
      · simp [unsvcGroupOK, hlk]
      · simp only [unsvcGroupOK, hlk]
        exact hrd g (by simp) v hlk
    · apply unsvcAllOK_of_reads services gs (unsvcStep services C g)
      intro x hx v hv
      exact unsvcStep_lookup_isSome services C g x (hrd x (by simp [hx]) v hv)

theorem uninstallSvcFold_dry_ok (services : List (String × SVal)) :
    ∀ (groups : List String) (r : RunSt) (flag : Bool),
    groups.all (unsvcGroupOK services r.st.config) = true →
    groups.foldlM (uninstallSvcGroup true services) (r, flag) = .ok (r, flag)
  | [], r, flag, _ => rfl
  | g :: gs, r, flag, hok => by
    rw [List.all_cons, Bool.and_eq_true_iff] at hok
    rcases hok with ⟨hok1, hok2⟩
    have hstep : uninstallSvcGroup true services (r, flag) g = .ok (r, flag) := by
      rcases hlk : services.lookup g with _ | v
      · simp only [uninstallSvcGroup, hlk]
      · rcases hlp : lookupPath r.st.config ["Engine", "Services", g] with _ | cur
        · simp only [unsvcGroupOK, hlk, hlp, Option.isSome] at hok1
          cases hok1
        · simp [uninstallSvcGroup, hlk, hlp]
    rw [List.foldlM_cons, hstep, ok_bind, uninstallSvcFold_dry_ok services gs r flag hok2]

/-- The configuration after the non-dry-run prune of the manifest's
fragment sections. -/
def unFinishCfg (frag? : Option Conf) (C : Conf) : Conf :=
  match frag? with
  | none => C
  | some frag => (remove_and_prune_top C frag).1

/-- The comment table after the non-dry-run prune. -/
def unFinishCmts (frag? : Option Conf) (C : Conf)
    (cm : List (String × String)) : List (String × String) :=
  match frag? with
  | none => cm
  | some frag => cm.filter (fun kc : String × String =>
      ¬ (remove_and_prune_top C frag).2.contains kc.1)

theorem uninstallFinish_wet (R : Roots) (inst : Installer) (r : RunSt) :
    uninstallFinish R false inst r =
      ⟨⟨fsRemoveTree (pjoin R.ext_root inst.name) r.st.fs,
        unFinishCfg inst.config r.st.config,
        unFinishCmts inst.config r.st.config r.st.comments⟩,
        r.logs ++ [.finishedRemove inst.name]⟩ := by
  unfold uninstallFinish
  cases hcfg : inst.config with
  | none => simp [unFinishCfg, unFinishCmts, RunSt.plog]
  | some frag =>
    rcases hrp : remove_and_prune_top r.st.config frag with ⟨c', popped⟩
    simp only [hrp, RunSt.plog]
    simp [unFinishCfg, unFinishCmts, hrp]

theorem uninstall_wet_char (R : Roots) (groups : List String) (inst : Installer)
    (st : SysState)
    (hok : filesOK inst.files = true) (hsk : noSkins inst.files = true)
    (hsv : unsvcAllOK inst.services groups st.config = true) :
    ∃ r', uninstall_extension R groups false inst st = .ok r' ∧
      r'.st = ⟨fsRemoveTree (pjoin R.ext_root inst.name)
          ((uninstall_files R false inst.files
            ⟨st, [.requestRemove inst.name]⟩).toOption.map (fun x => x.st.fs)
            |>.getD st.fs),
        unFinishCfg inst.config (unsvcFold inst.services groups st.config),
        unFinishCmts inst.config (unsvcFold inst.services groups st.config) st.comments⟩ ∧
      r'.logs.filter plannedAction = delPlans R inst.files := by
  rcases uninstall_files_char R false inst.files ⟨st, [.requestRemove inst.name]⟩ hok hsk
    with ⟨r1, h1, hl1, hcf1, hcm1⟩
  have hsv1 : unsvcAllOK inst.services groups r1.st.config = true := by
    rw [hcf1]
    exact hsv
  rcases uninstallSvcFold_wet_char inst.services groups r1 false hsv1 with ⟨b, h2⟩
  refine ⟨uninstallFinish R false inst
      ⟨⟨r1.st.fs, unsvcFold inst.services groups r1.st.config, r1.st.comments⟩, r1.logs⟩,
    ?_, ?_, ?_⟩
  · unfold uninstall_extension
    rw [h1, ok_bind, h2, ok_bind]
    rfl
  · rw [uninstallFinish_wet]
    show (⟨fsRemoveTree (pjoin R.ext_root inst.name) r1.st.fs,
        unFinishCfg inst.config (unsvcFold inst.services groups r1.st.config),
        unFinishCmts inst.config (unsvcFold inst.services groups r1.st.config)
          r1.st.comments⟩ : SysState) = _
    rw [hcf1, hcm1, h1]
    rfl
  · rw [uninstallFinish_wet]
    show (r1.logs ++ [LogMsg.finishedRemove inst.name]).filter plannedAction = _
    rw [List.filter_append, hl1]
    simp [plannedAction]

theorem uninstall_dry_char (R : Roots) (groups : List String) (inst : Installer)
    (st : SysState)
    (hok : filesOK inst.files = true) (hsk : noSkins inst.files = true)
    (hsv : groups.all (unsvcGroupOK inst.services st.config) = true) :
    ∃ r', uninstall_extension R groups true inst st = .ok r' ∧ r'.st = st ∧
      r'.logs.filter plannedAction = delPlans R inst.files := by
  rcases uninstall_files_char R true inst.files ⟨st, [.requestRemove inst.name]⟩ hok hsk
    with ⟨r1, h1, hl1, _, _⟩
  have hst1 : r1.st = st := uninstall_files_dry_st R inst.files _ r1 h1
  have hsv1 : groups.all (unsvcGroupOK inst.services r1.st.config) = true := by
    rw [hst1]
    exact hsv
  refine ⟨uninstallFinish R true inst r1, ?_, ?_, ?_⟩
  · unfold uninstall_extension
    rw [h1, ok_bind, uninstallSvcFold_dry_ok inst.services groups r1 false hsv1, ok_bind]
    rfl
  · rw [uninstallFinish_dry]
    exact hst1
  · rw [uninstallFinish_dry]
    show (r1.logs ++ [LogMsg.finishedRemove inst.name]).filter plannedAction = _
    rw [List.filter_append, hl1]
    simp [plannedAction]

/-- Fixture: a manifest declaring the same service identifier twice. -/
def instC3 : Installer :=
  ⟨"dup", [], none, [("data_services", .many ["user.x.S", "user.x.S"])]⟩

/-- Fixture: an empty `data_services` pipeline group, no files, no
comments. -/
def stC3 : SysState := ⟨[], svcConf [], []⟩

/-- Fixture roots. -/
def RC3 : Roots := ⟨"/b", "/s", "/x"⟩

/-- C3, counterexample: dry-run and non-dry-run install do NOT always
produce the same planned-action log lines.  A manifest declaring the same
service identifier twice makes the dry run announce the registration twice
(it never extends the in-memory list, so the duplicate is not filtered),
while the real run announces it once — three planned lines against two. -/
theorem dry_run_counterexample :
    (install_from_dir RC3 ["data_services"] true instC3 "/e" stC3).map
        (fun r => r.logs.filter plannedAction) ≠
      (install_from_dir RC3 ["data_services"] false instC3 "/e" stC3).map
        (fun r => r.logs.filter plannedAction) := by decide

/-- C3 (amended): the dry-run flag suppresses every modelled mutation
unconditionally — any successful dry-run install or uninstall returns the
exact initial state — and the planned-action log lines (copies, section
additions, service registrations, installer persistence, deletions)
coincide between the dry run and the real run provided the fixed prefix
table resolves every file group, the live `StdReport.HTML_ROOT` is a
scalar, the pipeline groups are distinct, every group with declared
services holds a list value under `[Engine][Services]`, no declared
per-group list repeats an identifier, and no file group is a skin (an
emptied skin directory is announced for removal only by the real run;
duplicated identifiers break the service lines, see the
counterexample). -/
theorem dry_run_amended (R : Roots) (groups : List String) (inst : Installer)
    (ext_dir : String) (st : SysState) (html : String)
    (hfx : filesOK inst.files = true)
    (hh : lookupPath st.config ["StdReport", "HTML_ROOT"] = some (.leaf html))
    (hnd : groups.Nodup)
    (hrd : svcReadsOK inst.services st.config groups = true)
    (hdn : svcDeclNodup inst.services groups = true)
    (hsk : noSkins inst.files = true) :
    (∀ r, install_from_dir R groups true inst ext_dir st = .ok r → r.st = st) ∧
    (∀ r, uninstall_extension R groups true inst st = .ok r → r.st = st) ∧
    (∃ rd rw1, install_from_dir R groups true inst ext_dir st = .ok rd ∧
      install_from_dir R groups false inst ext_dir st = .ok rw1 ∧
      rd.logs.filter plannedAction = rw1.logs.filter plannedAction) ∧
    (∃ ud uw, uninstall_extension R groups true inst st = .ok ud ∧
      uninstall_extension R groups false inst st = .ok uw ∧
      ud.logs.filter plannedAction = uw.logs.filter plannedAction) := by
  have hreads := svcReadsOK_spec hrd
  have hisome : ∀ g ∈ groups, ∀ v, inst.services.lookup g = some v →
      (lookupPath st.config ["Engine", "Services", g]).isSome = true := by
    intro g hg v hv
    rcases hreads g hg v hv with ⟨l, hl⟩
    rw [hl]
    rfl
  refine ⟨fun r h => install_dry_noop R groups inst ext_dir st r h,
    fun r h => uninstall_dry_noop R groups inst st r h,
    install_planned_logs_eq R groups inst ext_dir st html hfx hh hnd hrd hdn, ?_⟩
  have hdryok : groups.all (unsvcGroupOK inst.services st.config) = true := by
    rw [List.all_eq_true]
    intro g hg
    rcases hlk : inst.services.lookup g with _ | v
    · simp [unsvcGroupOK, hlk]
    · simp only [unsvcGroupOK, hlk]
      exact hisome g hg v hlk
  have hwetok : unsvcAllOK inst.services groups st.config = true :=
    unsvcAllOK_of_reads inst.services groups st.config hisome
  rcases uninstall_dry_char R groups inst st hfx hsk hdryok with ⟨ud, hu1, _, hul⟩
  rcases uninstall_wet_char R groups inst st hfx hsk hwetok with ⟨uw, hw1, _, hwl⟩
  exact ⟨ud, uw, hu1, hw1, hul.trans hwl.symm⟩

/-- Fixture: a well-formed one-file, one-service, one-section manifest. -/
def instW3 : Installer :=
  ⟨"pmon", [("bin", ["bin/user/pmon.py"])],
    some (.cons "PMon" (.sect (.cons "interval" (.leaf "5") .nil)) .nil),
    [("data_services", .one "user.pmon.P")]⟩

/-- Fixture: a live configuration with an empty `data_services` group and a
scalar `HTML_ROOT`. -/
def stW3 : SysState :=
  ⟨[], .cons "Engine" (.sect (.cons "Services"
      (.sect (.cons "data_services" (.vlist []) .nil)) .nil))
    (.cons "StdReport" (.sect (.cons "HTML_ROOT" (.leaf "public_html") .nil)) .nil), []⟩

/-- Witness for the amended C3 at a concrete manifest and configuration. -/
theorem dry_run_amended_witness :
    (filesOK instW3.files = true ∧
      lookupPath stW3.config ["StdReport", "HTML_ROOT"] = some (.leaf "public_html") ∧
      ["data_services"].Nodup ∧
      svcReadsOK instW3.services stW3.config ["data_services"] = true ∧
      svcDeclNodup instW3.services ["data_services"] = true ∧
      noSkins instW3.files = true) ∧
    ((∀ r, install_from_dir RC3 ["data_services"] true instW3 "/e" stW3 = .ok r →
        r.st = stW3) ∧
      (∀ r, uninstall_extension RC3 ["data_services"] true instW3 stW3 = .ok r →
        r.st = stW3) ∧
      (∃ rd rw1, install_from_dir RC3 ["data_services"] true instW3 "/e" stW3 = .ok rd ∧
        install_from_dir RC3 ["data_services"] false instW3 "/e" stW3 = .ok rw1 ∧
        rd.logs.filter plannedAction = rw1.logs.filter plannedAction) ∧
      (∃ ud uw, uninstall_extension RC3 ["data_services"] true instW3 stW3 = .ok ud ∧
        uninstall_extension RC3 ["data_services"] false instW3 stW3 = .ok uw ∧
        ud.logs.filter plannedAction = uw.logs.filter plannedAction)) :=
  ⟨⟨by decide, by decide, by decide, by decide, by decide, by decide⟩,
    dry_run_amended RC3 ["data_services"] instW3 "/e" stW3 "public_html"
      (by decide) (by decide) (by decide) (by decide) (by decide) (by decide)⟩

/-- A write at one `[Engine][Services]` path, total via `getD` (used only
where the path is known to exist). -/
def pathUpd (C : Conf) (grp : String) (v : CVal) : Conf :=
  (updatePath C ["Engine", "Services", grp] v).getD C

theorem applySvcUpd_eq_pathUpd (C : Conf) (grp : String) (l : List String) :
    applySvcUpd C grp l = pathUpd C grp (.vlist l) := rfl

theorem pathUpd_of_sects {C E S : Conf} {g : String}
    (hE : C.lookup "Engine" = some (.sect E))
    (hS : E.lookup "Services" = some (.sect S)) (v : CVal) :
    pathUpd C g v =
      C.update "Engine" (.sect (E.update "Services" (.sect (S.update g v)))) := by
  unfold pathUpd
  rw [updatePath3_of_sects C g v hE hS, Option.getD_some]

theorem pathUpd_lookup {C : Conf} {g : String} {w : CVal}
    (h : lookupPath C ["Engine", "Services", g] = some w) (v : CVal) :
    lookupPath (pathUpd C g v) ["Engine", "Services", g] = some v ∧
    ∀ g', g' ≠ g → lookupPath (pathUpd C g v) ["Engine", "Services", g'] =
      lookupPath C ["Engine", "Services", g'] := by
  rcases updatePath3_some_of_lookup h v with ⟨C', hup, hself, hne⟩
  have he : pathUpd C g v = C' := by
    unfold pathUpd
    rw [hup]
    rfl
  rw [he]
  exact ⟨hself, hne⟩

theorem pathUpd_write_same {C : Conf} {g : String} {v : CVal}
    (h : lookupPath C ["Engine", "Services", g] = some v) :
    pathUpd C g v = C := by
  unfold pathUpd
  rw [updatePath3_write_same h]
  rfl

theorem pathUpd_comm {C : Conf} {g g' : String} (hne : g ≠ g')
    {w1 w2 : CVal}
    (h1 : lookupPath C ["Engine", "Services", g] = some w1)
    (h2 : lookupPath C ["Engine", "Services", g'] = some w2)
    (v1 v2 : CVal) :
    pathUpd (pathUpd C g v1) g' v2 = pathUpd (pathUpd C g' v2) g v1 := by
  rcases lookupPath3_cases h1 with ⟨E, S, hE, hS, hk1⟩
  rcases lookupPath3_cases h2 with ⟨E2, S2, hE2, hS2, hk2⟩
  rw [hE] at hE2
  cases hE2
  rw [hS] at hS2
  cases hS2
  have hL : pathUpd (pathUpd C g v1) g' v2 =
      C.update "Engine" (.sect (E.update "Services"
        (.sect ((S.update g v1).update g' v2)))) := by
    rw [pathUpd_of_sects hE hS v1,
      pathUpd_of_sects
        (show (C.update "Engine" (.sect (E.update "Services"
            (.sect (S.update g v1))))).lookup "Engine" =
          some (.sect (E.update "Services" (.sect (S.update g v1)))) from by
            rw [lookup_update]
            simp)
        (show (E.update "Services" (.sect (S.update g v1))).lookup "Services" =
          some (.sect (S.update g v1)) from by
            rw [lookup_update]
            simp) v2,
      update_update_self, update_update_self]
  have hR : pathUpd (pathUpd C g' v2) g v1 =
      C.update "Engine" (.sect (E.update "Services"
        (.sect ((S.update g' v2).update g v1)))) := by
    rw [pathUpd_of_sects hE hS v2,
      pathUpd_of_sects
        (show (C.update "Engine" (.sect (E.update "Services"
            (.sect (S.update g' v2))))).lookup "Engine" =
          some (.sect (E.update "Services" (.sect (S.update g' v2)))) from by
            rw [lookup_update]
            simp)
        (show (E.update "Services" (.sect (S.update g' v2))).lookup "Services" =
          some (.sect (S.update g' v2)) from by
            rw [lookup_update]
            simp) v1,
      update_update_self, update_update_self]
  rw [hL, hR, update_comm S g g' v1 v2 hne
    (Or.inl ((lookup_isSome_iff S g).1 (by simp [hk1])))]

theorem isPrefixOf_self_true : ∀ l : List Char, l.isPrefixOf l = true
  | [] => rfl
  | c :: cs => by simp [List.isPrefixOf, isPrefixOf_self_true cs]

theorem pyInS_of_mem {x : String} {v : SVal} (h : x ∈ option_as_list v) :
    pyInS x v = true := by
  cases v with
  | one s =>
    simp only [option_as_list, List.mem_singleton] at h
    subst h
    show isSubstrL x.toList x.toList = true
    cases hx : x.toList with
    | nil => rfl
    | cons c cs =>
      show ((c :: cs).isPrefixOf (c :: cs) || isSubstrL (c :: cs) cs) = true
      rw [isPrefixOf_self_true]
      rfl
  | many l =>
    simp only [option_as_list] at h
    exact List.elem_eq_true_of_mem h

theorem svcNew_subset : ∀ (lst svcs : List String) (x : String),
    x ∈ svcNew lst svcs → x ∈ svcs
  | _, [], x, h => by cases h
  | lst, s :: rest, x, h => by
    by_cases hs : s ∈ lst
    · simp only [svcNew, if_pos hs] at h
      exact List.mem_cons_of_mem s (svcNew_subset lst rest x h)
    · simp only [svcNew, if_neg hs] at h
      rcases List.mem_cons.1 h with h | h
      · exact h ▸ List.mem_cons_self s rest
      · exact List.mem_cons_of_mem s (svcNew_subset (lst ++ [s]) rest x h)

theorem filterSvc_restore {l : List String} {v : SVal}
    (hkeep : l.all (fun x => !(pyInS x v)) = true) :
    filterSvcVal v (.vlist (l ++ svcNew l (option_as_list v))) = .vlist l := by
  show CVal.vlist ((l ++ svcNew l (option_as_list v)).filter (fun x => ¬ pyInS x v)) = _
  rw [List.filter_append]
  have h1 : l.filter (fun x => ¬ pyInS x v) = l := by
    rw [List.filter_eq_self]
    intro a ha
    have := (List.all_eq_true.1 hkeep) a ha
    simpa using this
  have h2 : (svcNew l (option_as_list v)).filter (fun x => ¬ pyInS x v) = [] := by
    rw [List.filter_eq_nil_iff]
    intro a ha
    simp [pyInS_of_mem (svcNew_subset l (option_as_list v) a ha)]
  rw [h1, h2, List.append_nil]

theorem svcConfAfter_undo {C : Conf} {g : String} {l : List String}
    (h : lookupPath C ["Engine", "Services", g] = some (.vlist l)) (decl : List String) :
    applySvcUpd (svcConfAfter C g l decl) g l = C := by
  unfold svcConfAfter
  rcases hsn : svcNew l decl with _ | ⟨a, rest⟩
  · show applySvcUpd C g l = C
    exact pathUpd_write_same h
  · show applySvcUpd (applySvcUpd C g (l ++ a :: rest)) g l = C
    rw [applySvcUpd_collapse h]
    exact pathUpd_write_same h

theorem svcStepW_isSome (services : List (String × SVal)) (C : Conf) (g q : String)
    (hok : svcGroupOK services C g = true)
    (h : (lookupPath C ["Engine", "Services", q]).isSome = true) :
    (lookupPath (svcStepW services C g) ["Engine", "Services", q]).isSome = true := by
  rcases hlk : services.lookup g with _ | v
  · simpa [svcStepW, hlk] using h
  · rcases hlp : lookupPath C ["Engine", "Services", g] with _ | cv
    · simp only [svcGroupOK, hlk, hlp] at hok
      cases hok
    · simp only [svcStepW, hlk]
      unfold svcConfAfter
      rcases hsn : svcNew (svcGrpList C g) (option_as_list v) with _ | ⟨a, rest⟩
      · exact h
      · rw [applySvcUpd_eq_pathUpd]
        by_cases hq : q = g
        · subst hq
          rw [(pathUpd_lookup hlp _).1]
          rfl
        · rw [(pathUpd_lookup hlp _).2 q hq]
          exact h

theorem svcFoldW_lookup_ne (services : List (String × SVal)) :
    ∀ (gs : List String) (C : Conf) {g : String},
    g ∉ gs → svcAllOKW services gs C = true →
    lookupPath (svcFoldW services gs C).1 ["Engine", "Services", g] =
      lookupPath C ["Engine", "Services", g]
  | [], _, _, _, _ => rfl
  | g' :: gs, C, g, hg, hok => by
    rw [svcAllOKW, Bool.and_eq_true_iff] at hok
    show lookupPath (svcFoldW services gs (svcStepW services C g')).1 _ = _
    rw [svcFoldW_lookup_ne services gs (svcStepW services C g')
      (fun h => hg (List.mem_cons_of_mem g' h)) hok.2]
    exact svcStepW_lookup_ne services C
      (show g ≠ g' from fun he => hg (by rw [he]; exact List.mem_cons_self g' gs)) hok.1

theorem svcFoldW_isSome (services : List (String × SVal)) :
    ∀ (gs : List String) (C : Conf) (q : String),
    svcAllOKW services gs C = true →
    (lookupPath C ["Engine", "Services", q]).isSome = true →
    (lookupPath (svcFoldW services gs C).1 ["Engine", "Services", q]).isSome = true
  | [], _, _, _, h => h
  | g :: gs, C, q, hok, h => by
    rw [svcAllOKW, Bool.and_eq_true_iff] at hok
    show (lookupPath (svcFoldW services gs (svcStepW services C g)).1 _).isSome = true
    exact svcFoldW_isSome services gs _ q hok.2 (svcStepW_isSome services C g q hok.1 h)

theorem unsvcStep_eq_pathUpd {services : List (String × SVal)} {C : Conf} {g : String}
    {v : SVal} {cur : CVal} (hlk : services.lookup g = some v)
    (hlp : lookupPath C ["Engine", "Services", g] = some cur) :
    unsvcStep services C g = pathUpd C g (filterSvcVal v cur) := by
  simp [unsvcStep, hlk, hlp, pathUpd]

theorem unsvcFold_pathUpd_comm (services : List (String × SVal)) :
    ∀ (gs : List String) (X : Conf) {g : String} (v : CVal), g ∉ gs →
    (lookupPath X ["Engine", "Services", g]).isSome = true →
    (∀ g' ∈ gs, ∀ vv, services.lookup g' = some vv →
      (lookupPath X ["Engine", "Services", g']).isSome = true) →
    unsvcFold services gs (pathUpd X g v) = pathUpd (unsvcFold services gs X) g v
  | [], _, _, _, _, _, _ => rfl
  | g' :: gs, X, g, v, hg, hgs, hrd => by
    have hne : g ≠ g' := fun he => hg (by rw [he]; exact List.mem_cons_self g' gs)
    obtain ⟨w, hw⟩ := Option.isSome_iff_exists.1 hgs
    rcases hlk : services.lookup g' with _ | vv
    · show unsvcFold services gs (unsvcStep services (pathUpd X g v) g') = _
      rw [show unsvcStep services (pathUpd X g v) g' = pathUpd X g v from by
          simp [unsvcStep, hlk],
        show unsvcFold services (g' :: gs) X = unsvcFold services gs X from by
          show unsvcFold services gs (unsvcStep services X g') = _
          rw [show unsvcStep services X g' = X from by simp [unsvcStep, hlk]]]
      exact unsvcFold_pathUpd_comm services gs X v
        (fun h => hg (List.mem_cons_of_mem g' h)) hgs
        (fun x hx vv hv => hrd x (List.mem_cons_of_mem g' hx) vv hv)
    · obtain ⟨cur, hcur⟩ :=
        Option.isSome_iff_exists.1 (hrd g' (List.mem_cons_self g' gs) vv hlk)
      have hcur' : lookupPath (pathUpd X g v) ["Engine", "Services", g'] = some cur := by
        rw [(pathUpd_lookup hw v).2 g' (Ne.symm hne), hcur]
      show unsvcFold services gs (unsvcStep services (pathUpd X g v) g') = _
      rw [unsvcStep_eq_pathUpd hlk hcur', pathUpd_comm hne hw hcur v (filterSvcVal vv cur),
        show unsvcFold services (g' :: gs) X =
            unsvcFold services gs (pathUpd X g' (filterSvcVal vv cur)) from by
          show unsvcFold services gs (unsvcStep services X g') = _
          rw [unsvcStep_eq_pathUpd hlk hcur]]
      exact unsvcFold_pathUpd_comm services gs (pathUpd X g' (filterSvcVal vv cur)) v
        (fun h => hg (List.mem_cons_of_mem g' h))
        (by rw [(pathUpd_lookup hcur _).2 g hne, hw]; rfl)
        (fun x hx vv2 hv2 => by
          by_cases hxg : x = g'
          · subst hxg
            rw [(pathUpd_lookup hcur _).1]
            rfl
          · rw [(pathUpd_lookup hcur _).2 x hxg]
            exact hrd x (List.mem_cons_of_mem g' hx) vv2 hv2)

theorem unsvc_undo (services : List (String × SVal)) :
    ∀ (groups : List String) (D : Conf),
    groups.Nodup →
    (∀ g ∈ groups, ∀ v, services.lookup g = some v →
      ∃ l, lookupPath D ["Engine", "Services", g] = some (.vlist l) ∧
        l.all (fun x => !(pyInS x v)) = true) →
    unsvcFold services groups ((svcFoldW services groups D).1) = D
  | [], _, _, _ => rfl
  | g :: gs, D, hnd, hrd => by
    rw [List.nodup_cons] at hnd
    rcases hlk : services.lookup g with _ | v
    · have hstep : svcStepW services D g = D := by simp [svcStepW, hlk]
      show unsvcFold services gs
        (unsvcStep services (svcFoldW services gs (svcStepW services D g)).1 g) = D
      rw [hstep, show unsvcStep services (svcFoldW services gs D).1 g =
          (svcFoldW services gs D).1 from by simp [unsvcStep, hlk]]
      exact unsvc_undo services gs D hnd.2
        (fun x hx v hv => hrd x (List.mem_cons_of_mem g hx) v hv)
    · rcases hrd g (List.mem_cons_self g gs) v hlk with ⟨l, hl, hkeep⟩
      have hok : svcGroupOK services D g = true := by
        simp [svcGroupOK, hlk, hl, cval_as_list]
      have hgl : svcGrpList D g = l := by simp [svcGrpList, hl, cval_as_list]
      have hD1self : lookupPath (svcStepW services D g) ["Engine", "Services", g] =
          some (.vlist (l ++ svcNew l (option_as_list v))) := by
        simp only [svcStepW, hlk, hgl]
        exact svcConfAfter_lookup_self hl (option_as_list v)
      have hrd1 : ∀ x ∈ gs, ∀ vv, services.lookup x = some vv →
          ∃ l2, lookupPath (svcStepW services D g) ["Engine", "Services", x] =
            some (.vlist l2) ∧ l2.all (fun y => !(pyInS y vv)) = true := by
        intro x hx vv hv
        rcases hrd x (List.mem_cons_of_mem g hx) vv hv with ⟨l2, hl2, hk2⟩
        refine ⟨l2, ?_, hk2⟩
        rw [svcStepW_lookup_ne services D
          (show x ≠ g from fun he => hnd.1 (by rw [← he]; exact hx)) hok, hl2]
      have hAllOK : svcAllOKW services gs (svcStepW services D g) = true :=
        svcAllOKW_of_reads services gs _ hnd.2
          (fun x hx vv hv => (hrd1 x hx vv hv).imp (fun l2 h2 => h2.1))
      have hXg : lookupPath (svcFoldW services gs (svcStepW services D g)).1
          ["Engine", "Services", g] = some (.vlist (l ++ svcNew l (option_as_list v))) := by
        rw [svcFoldW_lookup_ne services gs (svcStepW services D g) hnd.1 hAllOK, hD1self]
      show unsvcFold services gs
        (unsvcStep services (svcFoldW services gs (svcStepW services D g)).1 g) = D
      rw [unsvcStep_eq_pathUpd hlk hXg, filterSvc_restore hkeep,
        unsvcFold_pathUpd_comm services gs _ (.vlist l) hnd.1
          (by rw [hXg]; rfl)
          (fun x hx vv hv => by
            rcases hrd1 x hx vv hv with ⟨l2, hl2, _⟩
            exact svcFoldW_isSome services gs (svcStepW services D g) x hAllOK
              (by rw [hl2]; rfl)),
        unsvc_undo services gs (svcStepW services D g) hnd.2 hrd1]
      show applySvcUpd (svcStepW services D g) g l = D
      simp only [svcStepW, hlk, hgl]
      exact svcConfAfter_undo hl (option_as_list v)

mutual
/-- Key-structure equality of two section bodies: the same keys in the
same order, sections aligned with sections. -/
def skelEqC : Conf → Conf → Bool
  | .nil, .nil => true
  | .cons k v r, .cons k' v' r' => k == k' && skelEqV v v' && skelEqC r r'
  | _, _ => false

/-- Value-level side of `skelEqC`. -/
def skelEqV : CVal → CVal → Bool
  | .sect S, .sect F => skelEqC S F
  | .sect _, _ => false
  | _, .sect _ => false
  | _, _ => true
end

theorem skelEqC_keys : ∀ {A B : Conf}, skelEqC A B = true → A.keys = B.keys
  | .nil, .nil, _ => rfl
  | .nil, .cons _ _ _, h => Bool.noConfusion h
  | .cons _ _ _, .nil, h => Bool.noConfusion h
  | .cons k v r, .cons k' v' r', h => by
    simp only [skelEqC, Bool.and_eq_true_iff, beq_iff_eq] at h
    obtain ⟨⟨hk, _⟩, hr⟩ := h
    simp [Conf.keys, hk, skelEqC_keys hr]

mutual
theorem skelEq_prependC (lab val : String) : ∀ F : Conf,
    skelEqC (prependC lab val F) F = true
  | .nil => rfl
  | .cons k v rest => by
    show (k == k && skelEqV (prependV lab val k v) v &&
      skelEqC (prependC lab val rest) rest) = true
    rw [skelEq_prependC lab val rest, skelEqV_prependV lab val k v]
    simp

theorem skelEqV_prependV (lab val k : String) : ∀ v : CVal,
    skelEqV (prependV lab val k v) v = true
  | .sect S => skelEq_prependC lab val S
  | .leaf s => by
    show skelEqV (if k = lab then .leaf (val ++ "/" ++ s) else .leaf s) (.leaf s) = true
    by_cases hk : k = lab
    · rw [if_pos hk]
      rfl
    · rw [if_neg hk]
      rfl
  | .vlist l => rfl
end

theorem prune_skel : ∀ (S F : Conf), skelEqC S F = true →
    remove_and_prune_top S F = (.nil, F.keys)
  | .nil, .nil, _ => rfl
  | .nil, .cons _ _ _, h => Bool.noConfusion h
  | .cons _ _ _, .nil, h => Bool.noConfusion h
  | .cons k v r, .cons k' fv r', h => by
    simp only [skelEqC, Bool.and_eq_true_iff, beq_iff_eq] at h
    obtain ⟨⟨hk, hv⟩, hr⟩ := h
    subst hk
    cases fv with
    | sect FS =>
      cases v with
      | sect SS =>
        have hss : skelEqC SS FS = true := hv
        simp [remove_and_prune_top, Conf.lookup, Conf.erase, Conf.keys,
          prune_skel SS FS hss, prune_skel r r' hr]
      | leaf s => exact Bool.noConfusion hv
      | vlist l => exact Bool.noConfusion hv
    | leaf s =>
      cases v with
      | sect SS => exact Bool.noConfusion hv
      | leaf t =>
        simp [remove_and_prune_top, Conf.lookup, Conf.erase, Conf.keys, prune_skel r r' hr]
      | vlist t =>
        simp [remove_and_prune_top, Conf.lookup, Conf.erase, Conf.keys, prune_skel r r' hr]
    | vlist l =>
      cases v with
      | sect SS => exact Bool.noConfusion hv
      | leaf t =>
        simp [remove_and_prune_top, Conf.lookup, Conf.erase, Conf.keys, prune_skel r r' hr]
      | vlist t =>
        simp [remove_and_prune_top, Conf.lookup, Conf.erase, Conf.keys, prune_skel r r' hr]

theorem prune_append (C0 : Conf) : ∀ (M F : Conf), skelEqC M F = true →
    (∀ k ∈ F.keys, C0.lookup k = none) →
    remove_and_prune_top (C0.append M) F = (C0, F.keys)
  | .nil, .nil, _, _ => by
    show (C0.append .nil, ([] : List String)) = _
    rw [append_nil]
    rfl
  | .nil, .cons _ _ _, h, _ => Bool.noConfusion h
  | .cons _ _ _, .nil, h, _ => Bool.noConfusion h
  | .cons k mv M', .cons k' fv F', h, h0 => by
    simp only [skelEqC, Bool.and_eq_true_iff, beq_iff_eq] at h
    obtain ⟨⟨hk, hv⟩, hr⟩ := h
    subst hk
    have hck : C0.lookup k = none := h0 k (by simp [Conf.keys])
    have hlk : (C0.append (Conf.cons k mv M')).lookup k = some mv := by
      rw [lookup_append_of_none _ hck, lookup_cons_self]
    have herase : (C0.append (Conf.cons k mv M')).erase k = C0.append M' := by
      rw [erase_append_left _ hck, erase_cons_self]
    have h0' : ∀ j ∈ F'.keys, C0.lookup j = none :=
      fun j hj => h0 j (by simp [Conf.keys, hj])
    cases fv with
    | sect FS =>
      cases mv with
      | sect MS =>
        have hms : skelEqC MS FS = true := hv
        simp [remove_and_prune_top, hlk, herase, Conf.keys,
          prune_skel MS FS hms, prune_append C0 M' F' hr h0']
      | leaf s => exact Bool.noConfusion hv
      | vlist l => exact Bool.noConfusion hv
    | leaf s =>
      cases mv with
      | sect MS => exact Bool.noConfusion hv
      | leaf t =>
        simp [remove_and_prune_top, hlk, herase, Conf.keys, prune_append C0 M' F' hr h0']
      | vlist t =>
        simp [remove_and_prune_top, hlk, herase, Conf.keys, prune_append C0 M' F' hr h0']
    | vlist l =>
      cases mv with
      | sect MS => exact Bool.noConfusion hv
      | leaf t =>
        simp [remove_and_prune_top, hlk, herase, Conf.keys, prune_append C0 M' F' hr h0']
      | vlist t =>
        simp [remove_and_prune_top, hlk, herase, Conf.keys, prune_append C0 M' F' hr h0']

theorem conditional_merge_append (C : Conf) : ∀ (M : Conf),
    (∀ k ∈ M.keys, C.lookup k = none) → M.keys.Nodup →
    conditional_merge C M = C.append M
  | .nil, _, _ => (append_nil C).symm
  | .cons k fv rest, h0, hnd => by
    have hk : C.lookup k = none := h0 k (by simp [Conf.keys])
    have hnd' : rest.keys.Nodup ∧ k ∉ rest.keys := by
      have := hnd
      simp only [Conf.keys, List.nodup_cons] at this
      exact ⟨this.2, this.1⟩
    rw [conditional_merge_cons, mergeStep_eq_append fv hk,
      conditional_merge_append (C.append (.cons k fv .nil)) rest
        (fun j hj => by
          rw [lookup_append_singleton_ne fv
            (show j ≠ k from fun he => hnd'.2 (he ▸ hj))]
          exact h0 j (by simp [Conf.keys, hj]))
        hnd'.1,
      append_assoc]
    rfl

theorem massage_db_noop {live cfg : Conf} (h : cfg.lookup "Databases" = none) :
    massage_db live cfg = cfg := by
  rcases hlv : live.lookup "Databases" with _ | v
  · simp [massage_db, hlv]
  · cases v with
    | sect liveDbs => simp [massage_db, hlv, h]
    | leaf s => simp [massage_db, hlv]
    | vlist l => simp [massage_db, hlv]

theorem confWF_keys_nodup : ∀ {F : Conf}, confWF F = true → F.keys.Nodup
  | .nil, _ => List.nodup_nil
  | .cons k v rest, h => by
    simp only [confWF, Bool.and_eq_true_iff] at h
    obtain ⟨⟨hk, _⟩, hr⟩ := h
    refine List.nodup_cons.2 ⟨?_, confWF_keys_nodup hr⟩
    intro hm
    simp only [Bool.not_eq_eq_eq_not, Bool.not_true] at hk
    rw [show rest.keys.contains k = List.elem k rest.keys from rfl,
      List.elem_eq_true_of_mem hm] at hk
    cases hk

theorem newTops_all_new {C M : Conf} (h : ∀ k ∈ M.keys, C.lookup k = none) :
    newTops C M = M.keys := by
  unfold newTops
  rw [List.filter_eq_self]
  intro k hk
  simp [h k hk]

theorem plookup_append_none : ∀ {l1 : List (String × String)} (l2 : List (String × String))
    {k : String}, List.lookup k l1 = none → List.lookup k (l1 ++ l2) = List.lookup k l2
  | [], _, _, _ => rfl
  | (a, b) :: t, l2, k, h => by
    show List.lookup k ((a, b) :: (t ++ l2)) = _
    rcases hab : (k == a) with _ | _
    · simp only [List.lookup, hab] at h ⊢
      exact plookup_append_none l2 h
    · simp only [List.lookup, hab] at h
      cases h

theorem commentsUpdate_fresh {cm : List (String × String)} {k : String} (name : String)
    (h : List.lookup k cm = none) :
    commentsUpdate cm k name = cm ++ [(k, name)] := by
  unfold commentsUpdate
  rw [h]
  rfl

theorem commentsFold_append (name : String) : ∀ (ks : List String)
    (cm : List (String × String)), ks.Nodup → (∀ k ∈ ks, List.lookup k cm = none) →
    ks.foldl (fun c k => commentsUpdate c k name) cm = cm ++ ks.map (fun k => (k, name))
  | [], cm, _, _ => by simp
  | k :: ks, cm, hnd, h0 => by
    rw [List.nodup_cons] at hnd
    have h1 : ∀ j ∈ ks, List.lookup j (cm ++ [(k, name)]) = none := by
      intro j hj
      rw [plookup_append_none _ (h0 j (by simp [hj]))]
      have hjk : (j == k) = false :=
        beq_eq_false_iff_ne.2 (fun he => hnd.1 (by rw [← he]; exact hj))
      simp [List.lookup, hjk]
    rw [List.foldl_cons, commentsUpdate_fresh name (h0 k (by simp)),
      commentsFold_append name ks (cm ++ [(k, name)]) hnd.2 h1]
    simp

theorem comments_roundtrip {cm : List (String × String)} {ks : List String} (name : String)
    (hcm : ∀ kc ∈ cm, kc.1 ∉ ks) :
    (cm ++ ks.map (fun k => (k, name))).filter
      (fun kc : String × String => ¬ ks.contains kc.1) = cm := by
  rw [List.filter_append]
  have h1 : cm.filter (fun kc : String × String => ¬ ks.contains kc.1) = cm := by
    rw [List.filter_eq_self]
    intro kc hkc
    simpa using fun h => hcm kc hkc (List.mem_of_elem_eq_true h)
  have h2 : (ks.map (fun k => (k, name))).filter
      (fun kc : String × String => ¬ ks.contains kc.1) = [] := by
    rw [List.filter_eq_nil_iff]
    intro kc hkc
    rcases List.mem_map.1 hkc with ⟨k, hk, he⟩
    subst he
    simp [hk]
  rw [h1, h2, List.append_nil]

/-- Batch file removal. -/
def fsRemoveAll (ps fs : List String) : List String :=
  ps.foldl (fun a p => fsRemove p a) fs

/-- The paths one manifest file's uninstall step removes: the destination
itself and, for `.py` destinations, the compiled siblings. -/
def delTargetsFile (rootPath f : String) : List String :=
  match strip_leading_dir f with
  | none => []
  | some d =>
    pjoin rootPath d ::
      (if strEnds (pjoin rootPath d) ".py" then
        [replaceAll (pjoin rootPath d) ".py" ".pyc",
         replaceAll (pjoin rootPath d) ".py" ".pyo"]
      else [])

/-- The removal targets of one source tuple. -/
def delTargetsTuple (R : Roots) (tup : String × List String) : List String :=
  match classifySrc tup.1 with
  | .matched rt => (tup.2.map (delTargetsFile (R.get rt))).flatten
  | _ => []

/-- All removal targets of the file-removal phase. -/
def delTargets (R : Roots) (files : List (String × List String)) : List String :=
  (files.map (delTargetsTuple R)).flatten

theorem fsRemoveAll_eq_filter : ∀ (ps fs : List String),
    fsRemoveAll ps fs = fs.filter (fun q => ¬ ps.contains q)
  | [], fs => by simp [fsRemoveAll]
  | p :: ps, fs => by
    show fsRemoveAll ps (fsRemove p fs) = _
    rw [fsRemoveAll_eq_filter ps (fsRemove p fs)]
    unfold fsRemove
    rw [List.filter_filter]
    apply List.filter_congr
    intro q _
    by_cases h1 : q = p
    · subst h1
      simp
    · by_cases h2 : q ∈ ps <;> simp [h1, h2]

theorem filter_fsInsertAll (ts : List String) :
    ∀ (ds fs : List String), (∀ p ∈ ds, p ∈ ts) →
    (fsInsertAll ds fs).filter (fun q => ¬ ts.contains q) =
      fs.filter (fun q => ¬ ts.contains q)
  | [], _, _ => rfl
  | d :: ds, fs, h => by
    show (fsInsertAll ds (fsInsert d fs)).filter _ = _
    rw [filter_fsInsertAll ts ds (fsInsert d fs) (fun p hp => h p (by simp [hp]))]
    unfold fsInsert
    by_cases hm : fs.contains d = true
    · rw [if_pos hm]
    · rw [if_neg hm, List.filter_append]
      have he : [d].filter (fun q => ¬ ts.contains q) = [] := by
        simp [h d (by simp)]
      rw [he, List.append_nil]

theorem destOf_mem_delTargetsFile {rootPath f p : String}
    (h : destOf rootPath f = some p) : p ∈ delTargetsFile rootPath f := by
  unfold destOf at h
  rcases hs : strip_leading_dir f with _ | d
  · rw [hs] at h
    cases h
  · rw [hs] at h
    cases h
    simp [delTargetsFile, hs]

theorem dests_subset_targets (R : Roots) (files : List (String × List String)) :
    ∀ p ∈ instDests R files, p ∈ delTargets R files := by
  intro p hp
  rcases List.mem_flatten.1 hp with ⟨l, hl, hpl⟩
  rcases List.mem_map.1 hl with ⟨tup, htup, he⟩
  subst he
  unfold tupleDests at hpl
  rcases hcl : classifySrc tup.1 with rt | t
  · rw [hcl] at hpl
    rcases List.mem_filterMap.1 hpl with ⟨f, hf, hdf⟩
    refine List.mem_flatten.2 ⟨delTargetsTuple R tup, List.mem_map_of_mem _ htup, ?_⟩
    unfold delTargetsTuple
    rw [hcl]
    exact List.mem_flatten.2 ⟨delTargetsFile (R.get rt) f, List.mem_map_of_mem _ hf,
      destOf_mem_delTargetsFile hdf⟩
  · rw [hcl] at hpl
    cases hpl
  · rw [hcl] at hpl
    cases hpl

theorem fs_roundtrip {R : Roots} {files : List (String × List String)} {fs0 : List String}
    {d mp : String}
    (hfresh : ∀ p ∈ delTargets R files, p ∉ fs0)
    (htree : ∀ p ∈ fs0, strPre (d ++ "/") p = false)
    (hmp : strPre (d ++ "/") mp = true) :
    fsRemoveTree d (fsRemoveAll (delTargets R files)
      (fsInsert mp (fsInsertAll (instDests R files) fs0))) = fs0 := by
  rw [fsRemoveAll_eq_filter]
  have hfs0 : fs0.filter (fun q => ¬ (delTargets R files).contains q) = fs0 := by
    rw [List.filter_eq_self]
    intro a ha
    simpa using fun h => hfresh a (List.mem_of_elem_eq_true h) ha
  have htree0 : fsRemoveTree d fs0 = fs0 := by
    unfold fsRemoveTree
    rw [List.filter_eq_self]
    intro a ha
    simp [htree a ha]
  by_cases hm : (fsInsertAll (instDests R files) fs0).contains mp = true
  · rw [show fsInsert mp (fsInsertAll (instDests R files) fs0) =
        fsInsertAll (instDests R files) fs0 from by
      unfold fsInsert
      rw [if_pos hm],
      filter_fsInsertAll (delTargets R files) (instDests R files) fs0
        (dests_subset_targets R files), hfs0, htree0]
  · rw [show fsInsert mp (fsInsertAll (instDests R files) fs0) =
        fsInsertAll (instDests R files) fs0 ++ [mp] from by
      unfold fsInsert
      rw [if_neg hm],
      List.filter_append,
      filter_fsInsertAll (delTargets R files) (instDests R files) fs0
        (dests_subset_targets R files), hfs0]
    by_cases hmt : mp ∈ delTargets R files
    · rw [show [mp].filter (fun q => ¬ (delTargets R files).contains q) = [] from by
        simp [hmt], List.append_nil, htree0]
    · rw [show [mp].filter (fun q => ¬ (delTargets R files).contains q) = [mp] from by
        simpa using fun h => hmt (List.mem_of_elem_eq_true h)]
      unfold fsRemoveTree
      rw [List.filter_append,
        show fs0.filter (fun q => ¬ strPre (d ++ "/") q) = fs0 from by
          rw [List.filter_eq_self]
          intro a ha
          simp [htree a ha],
        show [mp].filter (fun q => ¬ strPre (d ++ "/") q) = [] from by simp [hmp],
        List.append_nil]

theorem fsRemoveAll_append (ps qs fs : List String) :
    fsRemoveAll (ps ++ qs) fs = fsRemoveAll qs (fsRemoveAll ps fs) := by
  simp [fsRemoveAll, List.foldl_append]

theorem delete_file_wet_fs (rep : Bool) (r : RunSt) (f : String) :
    (delete_file false rep r f).1.st.fs = fsRemove f r.st.fs := by
  unfold delete_file
  by_cases hm : f ∈ r.st.fs
  · simp [hm, RunSt.plog]
  · cases rep <;>
      (simp [hm, RunSt.plog]
       unfold fsRemove
       rw [eq_comm, List.filter_eq_self]
       intro a ha
       simpa using fun he => hm (by rw [← he]; exact ha))

theorem uninstallFileOne_wet_state (rootPath : String) (r0 : RunSt) (n0 : Nat)
    (f d : String) (hs : strip_leading_dir f = some d) :
    ∃ r' n', uninstallFileOne false rootPath (r0, n0) f = .ok (r', n') ∧
      r'.st = ⟨fsRemoveAll (delTargetsFile rootPath f) r0.st.fs,
        r0.st.config, r0.st.comments⟩ := by
  rcases hd1 : delete_file false true r0 (pjoin rootPath d) with ⟨r1, k1⟩
  have hc1 := delete_file_char false true r0 (pjoin rootPath d)
  have hf1 := delete_file_wet_fs true r0 (pjoin rootPath d)
  rw [hd1] at hc1 hf1
  by_cases he : strEnds (pjoin rootPath d) ".py"
  · rcases hd2 : delete_file false false r1 (replaceAll (pjoin rootPath d) ".py" ".pyc")
      with ⟨r2, k2⟩
    have hc2 := delete_file_char false false r1 (replaceAll (pjoin rootPath d) ".py" ".pyc")
    have hf2 := delete_file_wet_fs false r1 (replaceAll (pjoin rootPath d) ".py" ".pyc")
    rw [hd2] at hc2 hf2
    rcases hd3 : delete_file false false r2 (replaceAll (pjoin rootPath d) ".py" ".pyo")
      with ⟨r3, k3⟩
    have hc3 := delete_file_char false false r2 (replaceAll (pjoin rootPath d) ".py" ".pyo")
    have hf3 := delete_file_wet_fs false r2 (replaceAll (pjoin rootPath d) ".py" ".pyo")
    rw [hd3] at hc3 hf3
    refine ⟨r3, n0 + k1 + k2 + k3, ?_, ?_⟩
    · simp only [uninstallFileOne, hs, hd1, hd2, hd3, if_pos he]
    · have hst : r3.st = ⟨r3.st.fs, r3.st.config, r3.st.comments⟩ := rfl
      rw [hst, hf3, hf2, hf1, hc3.2.1, hc2.2.1, hc1.2.1, hc3.2.2, hc2.2.2, hc1.2.2]
      simp [delTargetsFile, hs, he, fsRemoveAll]
  · refine ⟨r1, n0 + k1, ?_, ?_⟩
    · simp only [uninstallFileOne, hs, hd1, if_neg he]
    · have hst : r1.st = ⟨r1.st.fs, r1.st.config, r1.st.comments⟩ := rfl
      rw [hst, hf1, hc1.2.1, hc1.2.2]
      simp [delTargetsFile, hs, he, fsRemoveAll]

theorem uninstallFileFold_wet_state (rootPath : String) :
    ∀ (fls : List String) (r0 : RunSt) (n0 : Nat),
    fls.all (fun f => (strip_leading_dir f).isSome) = true →
    ∃ r' n', fls.foldlM (uninstallFileOne false rootPath) (r0, n0) = .ok (r', n') ∧
      r'.st = ⟨fsRemoveAll ((fls.map (delTargetsFile rootPath)).flatten) r0.st.fs,
        r0.st.config, r0.st.comments⟩
  | [], r0, n0, _ => ⟨r0, n0, rfl, by simp [fsRemoveAll]⟩
  | f :: fls, r0, n0, hok => by
    have hf : (strip_leading_dir f).isSome = true := by
      have := (List.all_eq_true.1 hok) f (by simp)
      simpa using this
    rcases hsd : strip_leading_dir f with _ | d
    · rw [hsd] at hf
      cases hf
    have hok' : fls.all (fun f => (strip_leading_dir f).isSome) = true := by
      rw [List.all_eq_true] at hok ⊢
      exact fun x hx => hok x (by simp [hx])
    rcases uninstallFileOne_wet_state rootPath r0 n0 f d hsd with ⟨r1, n1, h1, hst1⟩
    rcases uninstallFileFold_wet_state rootPath fls r1 n1 hok' with ⟨r', n', h2, hst2⟩
    refine ⟨r', n', ?_, ?_⟩
    · rw [List.foldlM_cons, h1, ok_bind, h2]
    · rw [hst2, hst1]
      simp [List.flatten, fsRemoveAll_append]

theorem uninstallTuple_wet_state (R : Roots) (r0 : RunSt) (n0 : Nat)
    (tup : String × List String) (rt : String) (hcl : classifySrc tup.1 = .matched rt)
    (hsd : rt = "SKIN_ROOT" → (strip_leading_dir tup.1).isSome = true)
    (hstr : tup.2.all (fun f => (strip_leading_dir f).isSome) = true) :
    ∃ r' n', uninstallFilesTuple R false (r0, n0) tup = .ok (r', n') ∧
      r'.st = ⟨fsRemoveAll (delTargetsTuple R tup) r0.st.fs,
        r0.st.config, r0.st.comments⟩ := by
  rcases uninstallFileFold_wet_state (R.get rt) tup.2 r0 n0 hstr with ⟨r1, n1, h1, hst1⟩
  by_cases hrt : rt = "SKIN_ROOT"
  · have his := hsd hrt
    rcases hsdd : strip_leading_dir tup.1 with _ | dd
    · rw [hsdd] at his
      cases his
    refine ⟨delete_directory false r1 (pjoin R.skin_root dd), n1, ?_, ?_⟩
    · subst hrt
      simp only [uninstallFilesTuple, hcl, h1, ok_bind, if_pos rfl, hsdd]
      simp
    · rw [delete_directory_st, hst1]
      subst hrt
      simp [delTargetsTuple, hcl]
  · refine ⟨r1, n1, ?_, ?_⟩
    · simp only [uninstallFilesTuple, hcl, h1, ok_bind, if_neg hrt]
    · rw [hst1]
      simp [delTargetsTuple, hcl]

/-- For every skin source tuple the prefix itself has a directory
component (otherwise the skin-subdirectory pruning raises `TypeError`). -/
def skinDirsOK (files : List (String × List String)) : Bool :=
  files.all (fun tup =>
    match classifySrc tup.1 with
    | .matched rt =>
      if rt = "SKIN_ROOT" then (strip_leading_dir tup.1).isSome else true
    | _ => true)

theorem uninstallTupleFold_wet_state (R : Roots) :
    ∀ (files : List (String × List String)) (r0 : RunSt) (n0 : Nat),
    filesOK files = true → skinDirsOK files = true →
    ∃ r' n', files.foldlM (uninstallFilesTuple R false) (r0, n0) = .ok (r', n') ∧
      r'.st = ⟨fsRemoveAll ((files.map (delTargetsTuple R)).flatten) r0.st.fs,
        r0.st.config, r0.st.comments⟩
  | [], r0, n0, _, _ => ⟨r0, n0, rfl, by simp [fsRemoveAll]⟩
  | tup :: files, r0, n0, hok, hsk => by
    rcases filesOK_head hok with ⟨⟨rt, hcl⟩, hstr, hok'⟩
    have hsk1 : (rt = "SKIN_ROOT" → (strip_leading_dir tup.1).isSome = true) ∧
        skinDirsOK files = true := by
      rw [skinDirsOK, List.all_cons, Bool.and_eq_true_iff] at hsk
      rcases hsk with ⟨h1, h2⟩
      simp only [hcl] at h1
      refine ⟨fun he => ?_, h2⟩
      rw [if_pos he] at h1
      exact h1
    rcases uninstallTuple_wet_state R r0 n0 tup rt hcl hsk1.1 hstr
      with ⟨r1, n1, h1, hst1⟩
    rcases uninstallTupleFold_wet_state R files r1 n1 hok' hsk1.2
      with ⟨r', n', h2, hst2⟩
    refine ⟨r', n', ?_, ?_⟩
    · rw [List.foldlM_cons, h1, ok_bind, h2]
    · rw [hst2, hst1]
      simp [List.flatten, fsRemoveAll_append]

theorem uninstall_files_wet_state (R : Roots) (files : List (String × List String))
    (r : RunSt) (hok : filesOK files = true) (hsk : skinDirsOK files = true) :
    ∃ r', uninstall_files R false files r = .ok r' ∧
      r'.st = ⟨fsRemoveAll (delTargets R files) r.st.fs,
        r.st.config, r.st.comments⟩ := by
  rcases uninstallTupleFold_wet_state R files (r.plog .removingFiles) 0 hok hsk
    with ⟨r1, n1, h1, hst1⟩
  refine ⟨r1.plog (.removedCount n1), ?_, ?_⟩
  · unfold uninstall_files
    rw [h1, map_ok]
  · show r1.st = _
    rw [hst1]
    rfl

theorem uninstall_wet_state (R : Roots) (groups : List String) (inst : Installer)
    (st : SysState)
    (hok : filesOK inst.files = true) (hsk : skinDirsOK inst.files = true)
    (hsv : unsvcAllOK inst.services groups st.config = true) :
    ∃ r', uninstall_extension R groups false inst st = .ok r' ∧
      r'.st = ⟨fsRemoveTree (pjoin R.ext_root inst.name)
          (fsRemoveAll (delTargets R inst.files) st.fs),
        unFinishCfg inst.config (unsvcFold inst.services groups st.config),
        unFinishCmts inst.config (unsvcFold inst.services groups st.config)
          st.comments⟩ := by
  rcases uninstall_files_wet_state R inst.files ⟨st, [.requestRemove inst.name]⟩ hok hsk
    with ⟨r1, h1, hst1⟩
  have hsv1 : unsvcAllOK inst.services groups r1.st.config = true := by
    rw [hst1]
    exact hsv
  rcases uninstallSvcFold_wet_char inst.services groups r1 false hsv1 with ⟨b, h2⟩
  refine ⟨uninstallFinish R false inst
      ⟨⟨r1.st.fs, unsvcFold inst.services groups r1.st.config, r1.st.comments⟩, r1.logs⟩,
    ?_, ?_⟩
  · unfold uninstall_extension
    rw [h1, ok_bind, h2, ok_bind]
    rfl
  · rw [uninstallFinish_wet]
    show (⟨fsRemoveTree (pjoin R.ext_root inst.name) r1.st.fs,
        unFinishCfg inst.config (unsvcFold inst.services groups r1.st.config),
        unFinishCmts inst.config (unsvcFold inst.services groups r1.st.config)
          r1.st.comments⟩ : SysState) = _
    rw [hst1]

/-- Every declared pipeline group reads a list value none of whose current
members tests as a member of the declared value (Python membership:
substring containment when a single identifier string is declared). -/
def svcKeepOK (services : List (String × SVal)) (C : Conf) (groups : List String) : Bool :=
  groups.all (fun g =>
    match services.lookup g with
    | none => true
    | some v =>
      match lookupPath C ["Engine", "Services", g] with
      | some (.vlist l) => l.all (fun x => !(pyInS x v))
      | _ => false)

/-- The fragment is fit for a clean round trip: unique keys at every
level, no `Databases` section (whose massaging widens the skeleton), top
keys absent from the live tree, and no comment entry under a fragment
key. -/
def fragOK (frag? : Option Conf) (C : Conf) (cm : List (String × String)) : Bool :=
  match frag? with
  | none => true
  | some frag => confWF frag && (frag.lookup "Databases").isNone &&
      frag.keys.all (fun k => (C.lookup k).isNone) &&
      cm.all (fun kc => !(frag.keys.contains kc.1))

theorem svcKeepOK_spec {services : List (String × SVal)} {C : Conf}
    {groups : List String} (h : svcKeepOK services C groups = true) :
    ∀ g ∈ groups, ∀ v, services.lookup g = some v →
      ∃ l, lookupPath C ["Engine", "Services", g] = some (.vlist l) ∧
        l.all (fun x => !(pyInS x v)) = true := by
  rw [svcKeepOK, List.all_eq_true] at h
  intro g hg v hv
  have hh := h g hg
  rcases hlp : lookupPath C ["Engine", "Services", g] with _ | cv
  · simp [hv, hlp] at hh
  · cases cv with
    | vlist l =>
      refine ⟨l, rfl, ?_⟩
      simpa [hv, hlp] using hh
    | leaf s => simp [hv, hlp] at hh
    | sect S => simp [hv, hlp] at hh

theorem plookup_none_of_keys : ∀ {cm : List (String × String)} {k : String},
    (∀ kc ∈ cm, kc.1 ≠ k) → List.lookup k cm = none
  | [], _, _ => rfl
  | (a, b) :: t, k, h => by
    have hak : (k == a) = false :=
      beq_eq_false_iff_ne.2 (fun he => h (a, b) (by simp) (by rw [he]) )
    simp only [List.lookup, hak]
    exact plookup_none_of_keys (fun kc hkc => h kc (by simp [hkc]))

/-- C1 (amended): install immediately followed by uninstall restores the
exact initial state, provided the fixed prefix table resolves every file
group, skin prefixes have a directory component, `StdReport.HTML_ROOT` is
a scalar, the pipeline groups are distinct, every declared group holds a
list none of whose members already matches a declared identifier, the
fragment has unique keys, no `Databases` section, only top-level keys new
to the live tree and to the comment table, and no pre-existing file
coincides with a removal target (the `.pyc`/`.pyo` siblings of every
copied `.py` file — see the counterexample) or lives under the manifest
directory. -/
theorem round_trip_amended (R : Roots) (groups : List String) (inst : Installer)
    (ext_dir : String) (st : SysState) (html : String)
    (hfx : filesOK inst.files = true)
    (hh : lookupPath st.config ["StdReport", "HTML_ROOT"] = some (.leaf html))
    (hnd : groups.Nodup)
    (hkeep : svcKeepOK inst.services st.config groups = true)
    (hfr : fragOK inst.config st.config st.comments = true)
    (hsk : skinDirsOK inst.files = true)
    (hfresh : (delTargets R inst.files).all (fun p => !(st.fs.contains p)) = true)
    (htree : st.fs.all
      (fun p => !(strPre (pjoin R.ext_root inst.name ++ "/") p)) = true)
    (hmp : strPre (pjoin R.ext_root inst.name ++ "/")
      (pjoin (pjoin R.ext_root inst.name) "install.py") = true) :
    ∃ r1 r2, install_from_dir R groups false inst ext_dir st = .ok r1 ∧
      uninstall_extension R groups false inst r1.st = .ok r2 ∧
      r2.st = st := by
  have hks := svcKeepOK_spec hkeep
  have hreads : ∀ g ∈ groups, ∀ v, inst.services.lookup g = some v →
      ∃ l, lookupPath st.config ["Engine", "Services", g] = some (.vlist l) :=
    fun g hg v hv => (hks g hg v hv).imp (fun l hl => hl.1)
  have hpres : ∀ g ∈ groups, ∀ v, inst.services.lookup g = some v →
      lookupPath (instCfgW inst.config st.config html) ["Engine", "Services", g] =
        lookupPath st.config ["Engine", "Services", g] := by
    intro g hg v hv
    rcases hreads g hg v hv with ⟨l, hl⟩
    cases hcfg : inst.config with
    | none => rfl
    | some frag =>
      rw [hl]
      exact conditional_merge_pres _ _ _ _ hl (fun S hS => by cases hS)
  have hDr : ∀ g ∈ groups, ∀ v, inst.services.lookup g = some v →
      ∃ l, lookupPath (instCfgW inst.config st.config html) ["Engine", "Services", g] =
        some (.vlist l) ∧ l.all (fun x => !(pyInS x v)) = true := by
    intro g hg v hv
    rcases hks g hg v hv with ⟨l, hl, hk⟩
    exact ⟨l, (hpres g hg v hv).trans hl, hk⟩
  have hallW : svcAllOKW inst.services groups (instCfgW inst.config st.config html) = true :=
    svcAllOKW_of_reads inst.services groups _ hnd
      (fun g hg v hv => (hDr g hg v hv).imp (fun l hl => hl.1))
  obtain ⟨r1, hI1, hst1⟩ : ∃ r1, install_from_dir R groups false inst ext_dir st = .ok r1 ∧
      r1.st = ⟨fsInsert (pjoin (pjoin R.ext_root inst.name) "install.py")
          (fsInsertAll (instDests R inst.files) st.fs),
        (svcFoldW inst.services groups (instCfgW inst.config st.config html)).1,
        instCmtsW inst.name inst.config st.config html st.comments⟩ := by
    rcases install_wet_char R groups inst ext_dir st html hfx hh hallW with ⟨n, hI⟩
    exact ⟨_, hI, rfl⟩
  have hsv1 : unsvcAllOK inst.services groups r1.st.config = true := by
    rw [hst1]
    apply unsvcAllOK_of_reads
    intro g hg v hv
    rcases hDr g hg v hv with ⟨l, hl, _⟩
    exact svcFoldW_isSome inst.services groups _ g hallW (by rw [hl]; rfl)
  rcases uninstall_wet_state R groups inst r1.st hfx hsk hsv1 with ⟨r2, hU, hst2⟩
  refine ⟨r1, r2, hI1, hU, ?_⟩
  rw [hst2, hst1]
  have hundo : unsvcFold inst.services groups
      (svcFoldW inst.services groups (instCfgW inst.config st.config html)).1 =
      instCfgW inst.config st.config html :=
    unsvc_undo inst.services groups _ hnd hDr
  show (⟨fsRemoveTree (pjoin R.ext_root inst.name)
      (fsRemoveAll (delTargets R inst.files)
        (fsInsert (pjoin (pjoin R.ext_root inst.name) "install.py")
          (fsInsertAll (instDests R inst.files) st.fs))),
    unFinishCfg inst.config (unsvcFold inst.services groups
      (svcFoldW inst.services groups (instCfgW inst.config st.config html)).1),
    unFinishCmts inst.config (unsvcFold inst.services groups
      (svcFoldW inst.services groups (instCfgW inst.config st.config html)).1)
      (instCmtsW inst.name inst.config st.config html st.comments)⟩ : SysState) = st
  rw [hundo]
  have hfs : fsRemoveTree (pjoin R.ext_root inst.name)
      (fsRemoveAll (delTargets R inst.files)
        (fsInsert (pjoin (pjoin R.ext_root inst.name) "install.py")
          (fsInsertAll (instDests R inst.files) st.fs))) = st.fs := by
    apply fs_roundtrip
    · intro p hp hm
      have := (List.all_eq_true.1 hfresh) p hp
      rw [show st.fs.contains p = List.elem p st.fs from rfl,
        List.elem_eq_true_of_mem hm] at this
      simp at this
    · intro p hp
      have := (List.all_eq_true.1 htree) p hp
      simpa using this
    · exact hmp
  have hfin : unFinishCfg inst.config (instCfgW inst.config st.config html) = st.config ∧
      unFinishCmts inst.config (instCfgW inst.config st.config html)
        (instCmtsW inst.name inst.config st.config html st.comments) = st.comments := by
    cases hcfg : inst.config with
    | none => exact ⟨rfl, rfl⟩
    | some frag =>
      rw [hcfg] at hfr
      simp only [fragOK, Bool.and_eq_true_iff] at hfr
      obtain ⟨⟨⟨hwf, hdb⟩, htoph⟩, hcmf⟩ := hfr
      have hM : massagedFrag st.config html frag = prependC "HTML_ROOT" html frag := by
        unfold massagedFrag
        apply massage_db_noop
        rw [lookup_eq_none_iff,
          skelEqC_keys (skelEq_prependC "HTML_ROOT" html frag)]
        rw [Option.isNone_iff_eq_none] at hdb
        exact (lookup_eq_none_iff frag "Databases").1 hdb
      have hskel : skelEqC (massagedFrag st.config html frag) frag = true := by
        rw [hM]
        exact skelEq_prependC "HTML_ROOT" html frag
      have hMkeys : (massagedFrag st.config html frag).keys = frag.keys :=
        skelEqC_keys hskel
      have habs : ∀ k ∈ frag.keys, st.config.lookup k = none := by
        intro k hk
        have := (List.all_eq_true.1 htoph) k hk
        simpa [Option.isNone_iff_eq_none] using this
      have habsM : ∀ k ∈ (massagedFrag st.config html frag).keys,
          st.config.lookup k = none := by
        rw [hMkeys]
        exact habs
      have hDapp : instCfgW (some frag) st.config html =
          st.config.append (massagedFrag st.config html frag) := by
        show conditional_merge st.config (massagedFrag st.config html frag) = _
        exact conditional_merge_append st.config _ habsM
          (hMkeys ▸ confWF_keys_nodup hwf)
      have hprune := prune_append st.config (massagedFrag st.config html frag) frag
        hskel habs
      have htops : newTops st.config (massagedFrag st.config html frag) = frag.keys :=
        (newTops_all_new habsM).trans hMkeys
      have hcm0 : ∀ k ∈ frag.keys, List.lookup k st.comments = none := by
        intro k hk
        apply plookup_none_of_keys
        intro kc hkc he
        have := (List.all_eq_true.1 hcmf) kc hkc
        rw [show frag.keys.contains kc.1 = List.elem kc.1 frag.keys from rfl,
          List.elem_eq_true_of_mem (he ▸ hk)] at this
        cases this
      have hcm1 : instCmtsW inst.name (some frag) st.config html st.comments =
          st.comments ++ frag.keys.map (fun k => (k, inst.name)) := by
        show (newTops st.config (massagedFrag st.config html frag)).foldl
          (fun c k => commentsUpdate c k inst.name) st.comments = _
        rw [htops]
        exact commentsFold_append inst.name frag.keys st.comments
          (confWF_keys_nodup hwf) hcm0
      constructor
      · show (remove_and_prune_top (instCfgW (some frag) st.config html) frag).1 = _
        rw [hDapp, hprune]
      · show (instCmtsW inst.name (some frag) st.config html st.comments).filter
          (fun kc : String × String =>
            ¬ (remove_and_prune_top (instCfgW (some frag) st.config html) frag).2.contains
              kc.1) = _
        rw [hDapp, hprune, hcm1]
        apply comments_roundtrip
        intro kc hkc hm
        have := (List.all_eq_true.1 hcmf) kc hkc
        rw [show frag.keys.contains kc.1 = List.elem kc.1 frag.keys from rfl,
          List.elem_eq_true_of_mem hm] at this
        cases this
  rw [hfs, hfin.1, hfin.2]

/-- Fixture: a one-file pure-code extension. -/
def instRT : Installer := ⟨"m", [("bin", ["bin/u/m.py"])], none, []⟩

/-- Fixture: a state already holding the compiled sibling of the file the
extension will install. -/
def stRT : SysState := ⟨["/b/u/m.pyc"], .nil, []⟩

/-- C1, counterexample: install immediately followed by uninstall does NOT
always restore the pre-install state, even when no destination file and no
fragment key pre-exists.  Uninstalling a `.py` destination also deletes
its `.pyc`/`.pyo` siblings, so a pre-existing compiled sibling the install
never created is destroyed by the round trip. -/
theorem round_trip_counterexample :
    (install_from_dir RC3 [] false instRT "/e" stRT >>= fun r1 =>
      uninstall_extension RC3 [] false instRT r1.st).map (fun r2 => r2.st) ≠
    .ok stRT := by decide

/-- Witness for the amended C1 at a concrete manifest and configuration. -/
theorem round_trip_amended_witness :
    (filesOK instW3.files = true ∧
      lookupPath stW3.config ["StdReport", "HTML_ROOT"] = some (.leaf "public_html") ∧
      ["data_services"].Nodup ∧
      svcKeepOK instW3.services stW3.config ["data_services"] = true ∧
      fragOK instW3.config stW3.config stW3.comments = true ∧
      skinDirsOK instW3.files = true ∧
      (delTargets RC3 instW3.files).all (fun p => !(stW3.fs.contains p)) = true ∧
      stW3.fs.all (fun p => !(strPre (pjoin RC3.ext_root instW3.name ++ "/") p)) = true ∧
      strPre (pjoin RC3.ext_root instW3.name ++ "/")
        (pjoin (pjoin RC3.ext_root instW3.name) "install.py") = true) ∧
    (∃ r1 r2, install_from_dir RC3 ["data_services"] false instW3 "/e" stW3 = .ok r1 ∧
      uninstall_extension RC3 ["data_services"] false instW3 r1.st = .ok r2 ∧
      r2.st = stW3) :=
  ⟨⟨by decide, by decide, by decide, by decide, by decide, by decide, by decide,
    by decide, by decide⟩,
    round_trip_amended RC3 ["data_services"] instW3 "/e" stW3 "public_html"
      (by decide) (by decide) (by decide) (by decide) (by decide) (by decide)
      (by decide) (by decide) (by decide)⟩

/-- Witness for C8 at a concrete already-registered service. -/
theorem install_services_idempotent_witness :
    ["user.pmon.P"].foldlM (installSvcStep false "data_services")
      (⟨⟨[], .nil, []⟩, []⟩, false, ["weewx.a", "user.pmon.P"]) =
    .ok (⟨⟨[], .nil, []⟩, []⟩, false, ["weewx.a", "user.pmon.P"]) :=
  install_services_idempotent false "data_services" ⟨⟨[], .nil, []⟩, []⟩ false
    ["weewx.a", "user.pmon.P"] ["user.pmon.P"] (by decide)

end Weecfg
